import Mathlib

/-!
# NetSim transport core: a shallow embedding of `Subnet`

The definitions below follow `src/core/Networking/Subnet.cpp` function by
function.  Conventions of the embedding:

* ticks are `uint64_t`: they are natural numbers and every sum the source
  computes on them is reduced modulo `2 ^ 64` (`wrapU64`);
* bandwidths and byte counts are `double` in the source and rationals here;
  the operations compute on them exactly, and the loop of
  `rescheduleTransfers`, whose shares depend on the rounding, is given a
  second time with every quotient and difference rounded to a `double`
  (`rescheduleStepDouble`, with the rounding as a parameter, and
  `roundDouble`, round to nearest with 53 significant bits);
* a `std::shared_ptr<TransferProgress>` is the address of the object
  (a natural number); the objects live in `Subnet.heap`, and `new` returns
  the address `Subnet.nextPtr`;
* a `std::shared_ptr<GnpNetBandwidthAllocation>` is an address too; the
  allocation objects belong to the bandwidth manager, whose state and
  operations are a parameter (`Collaborators`);
* a `std::set` of pointers is a list kept in ascending order without
  duplicates (`setInsert`), iterated front to back; the tombstone set, which
  is never iterated, is a `Finset`;
* a `std::map` is a function into `Option`;
* a message is carried by value: the only field `Subnet` writes is the
  message id, and `send` returns the message with its id assigned;
* the headers are not among the sources: the types are read off the uses in
  `Subnet.cpp` and the data model of the spec, and the order of the two
  numeric arguments of the constructor of `TransferProgress` is a parameter
  (`Collaborators.rateFirst`): the two calls in `send` pass the bytes first,
  the call in `rescheduleTransfers` passes the rate first.
-/

namespace NetSim

/-! ## Machine integers -/

/-- Reduction of a natural number to `uint64_t`. -/
def wrapU64 (n : Nat) : Nat := n % 2 ^ 64

/-- Conversion of an unsigned value to `int` (32 bit, two's complement). -/
def toInt32 (n : Nat) : Int := (((n + 2 ^ 31) % 2 ^ 32 : Nat) : Int) - 2 ^ 31

/-- The value `std::numeric_limits<std::size_t>::max()`. -/
def SIZE_MAX : Nat := 2 ^ 64 - 1

/-! ## Messages, transfer generations, events -/

/-- Modelled from the spec: the enumeration `L4ProtocolType`, declared in a
header that is not part of the sources; the spec knows two transport kinds,
reliable (TCP) and unreliable (UDP), the two that `Subnet.cpp` names. -/
inductive L4ProtocolType
  | TCP
  | UDP
deriving DecidableEq, Repr

/-- Modelled from the spec: the class `NetworkMessage`, declared in a header
that is not part of the sources.  These are the fields of the message (and of
its payload) that `Subnet.cpp` reads through getters: sender id, receiver id,
byte size, fragment count, transport kind and the id, an `int` whose value
`-1` means unassigned. -/
structure NetworkMessage where
  sender : Nat
  receiver : Nat
  size : Nat
  numFragments : Nat
  l4ProtocolType : L4ProtocolType
  messageId : Int
deriving DecidableEq, Repr

/-- Modelled from the spec: the class `TransferProgress`, declared in a header
that is not part of the sources: message, rate, byte baseline, start tick, and
the two flags `firstSchedule` and `obsolete` that `rescheduleTransfers` writes
and `onMessageReceived` reads. -/
structure TransferProgress where
  message : NetworkMessage
  bandwidth : ℚ
  remainingBytes : ℚ
  scheduledAt : Nat
  firstSchedule : Bool
  obsolete : Bool
deriving DecidableEq

/-- Modelled from the spec: the constructor of `TransferProgress`, whose header
and source file are not part of the sources.  `Subnet.cpp` calls it with a
message, two numbers and a tick.  A generation starts as a first generation
that is not obsolete.  Which of the two numbers is the rate and which the byte
baseline is fixed by the missing declaration, so the order is a parameter:
with `rateFirst` the numbers are (rate, bytes), without it (bytes, rate). -/
def TransferProgress.new (rateFirst : Bool) (msg : NetworkMessage) (x y : ℚ) (tick : Nat) :
    TransferProgress :=
  { message := msg
    bandwidth := if rateFirst then x else y
    remainingBytes := if rateFirst then y else x
    scheduledAt := tick
    firstSchedule := true
    obsolete := false }

/-- The field of a generation that holds the first of the two numbers given to
the constructor. -/
def TransferProgress.firstNumber (rateFirst : Bool) (tp : TransferProgress) : ℚ :=
  if rateFirst then tp.bandwidth else tp.remainingBytes

/-- Modelled from the spec: `TransferProgress::getRemainingBytes`, which is
not part of the sources.  The spec: baseline minus (rate times elapsed ticks
since start), floored at zero. -/
def TransferProgress.getRemainingBytes (tp : TransferProgress) (now : Nat) : ℚ :=
  max 0 (tp.remainingBytes - tp.bandwidth * ((now : ℚ) - (tp.scheduledAt : ℚ)))

/-- Modelled from the spec: the payload of an event produced by `Subnet`
(`SubnetMessage`, declared in a header that is not part of the sources), with
the two kinds `Subnet.cpp` constructs. -/
inductive SubnetMessage
  | MESSAGE_RECVD (transferProgress : Nat)
  | BANDWIDTH_REALLOC
deriving DecidableEq, Repr

/-- Modelled from the spec: an event handed back to the scheduler
(`MessageToNodeEvent`, declared in a header that is not part of the sources):
the payload and the delay in ticks.  The two node arguments, `-1` at every
construction in `Subnet.cpp`, are left out. -/
structure MessageToNodeEvent where
  message : SubnetMessage
  ticksBeforeReception : Nat
deriving DecidableEq, Repr

/-- A call made to the bandwidth manager, recorded in `Subnet.bmCalls`. -/
inductive BMCall
  | addConnection (sender receiver : Nat) (requiredRate : ℚ)
  | removeConnection (sender receiver : Nat) (requiredRate : ℚ)
  | removeConnections (nodeId : Nat)
  | allocateBandwidth
  | getChangedAllocations
deriving DecidableEq

/-- The one way an operation of `Subnet` can fail to return: undefined
behaviour from dereferencing a null `shared_ptr`. -/
inductive Fault
  | nullDereference
deriving DecidableEq, Repr

/-! ## Collaborators and state -/

/-- The collaborators of `Subnet`, none of which is part of the sources, taken
as parameters: the latency model, the per-node bandwidth caps, and the
bandwidth manager with state `σ` (allocations are addresses; their fields are
read through the manager's state).  Delays are the values after their
conversion to `uint64_t`.  The last field is the order of the two numeric
arguments of the constructor of `TransferProgress` (see
`TransferProgress.new`). -/
structure Collaborators (σ : Type) where
  getPropagationDelay : Nat → Nat → Nat
  getTransmissionDelay : ℚ → ℚ → Nat
  getUDPErrorProbability : NetworkMessage → ℚ
  getTCPThroughput : Nat → Nat → ℚ
  getUpBW : Nat → ℚ
  getDownBW : Nat → ℚ
  addConnection : σ → Nat → Nat → ℚ → Nat × σ
  removeConnection : σ → Nat → Nat → ℚ → Nat × σ
  removeConnections : σ → Nat → List Nat × σ
  allocateBandwidth : σ → σ
  getChangedAllocations : σ → List Nat × σ
  getSender : σ → Nat → Nat
  getReceiver : σ → Nat → Nat
  getAllocatedBandwidth : σ → Nat → ℚ
  rateFirst : Bool

/-- Modelled from the spec: the members of the class `Subnet`, declared in
`Subnet.h`, which is not part of the sources: the message-id counter, the
debounce marker (a tick, `uint64_t` like the `_currentTick + 1` it is compared
with and assigned from), the map from allocations to their sets of
generations, the map from message ids to generations, and the tombstone set.
With them: the heap of generations, the state of the bandwidth manager and
the send commitment of every node, which `Subnet` reaches through its
collaborators.  `bmCalls` (calls made to the bandwidth manager) and
`delivered` (generations that reached one of the two application-delivery
places of `onMessageReceived`) are ghost fields. -/
structure Subnet (σ : Type) where
  lastMsgId : Nat
  nextRescheduleTime : Nat
  connectionsToTransfersMap : Nat → Option (List Nat)
  messageIdsToTransfersMap : Int → Option Nat
  cancelledTransfers : Finset Nat
  heap : Nat → TransferProgress
  nextPtr : Nat
  bandwidthManager : σ
  nextFreeSendingTime : Nat → Nat
  bmCalls : List BMCall
  delivered : List Nat

/-- Insertion into a `std::set` of pointers: no effect when the element is
present, else insertion at its place in ascending order. -/
def setInsert (x : Nat) : List Nat → List Nat
  | [] => [x]
  | y :: ys => if x < y then x :: y :: ys else if x = y then y :: ys else y :: setInsert x ys

/-- Removal from a `std::set` of pointers. -/
def setErase (x : Nat) (l : List Nat) : List Nat := l.filter (fun y => decide (y ≠ x))

/-- The expression `new TransferProgress(...)`: the object is stored at the
next free address.  Addresses are never reused: the heap keeps a generation
after its last owner has dropped it, and the addresses ascend in the order of
creation, which the pointers that order a `std::set` need not do. -/
def Subnet.alloc {σ : Type} (s : Subnet σ) (tp : TransferProgress) : Nat × Subnet σ :=
  (s.nextPtr, { s with heap := Function.update s.heap s.nextPtr tp, nextPtr := s.nextPtr + 1 })

/-- The constructor `Subnet::Subnet`: `lastMsgId(0)`, `nextRescheduleTime(-1)`
and empty containers.  The marker is compared with `_currentTick + 1` of type
`uint64_t`, so its initial value `-1` takes part in every comparison as
`2 ^ 64 - 1`. -/
def Subnet.init {σ : Type} (bm : σ) (nextFree : Nat → Nat) : Subnet σ :=
  { lastMsgId := 0
    nextRescheduleTime := wrapU64 (2 ^ 64 - 1)
    connectionsToTransfersMap := fun _ => none
    messageIdsToTransfersMap := fun _ => none
    cancelledTransfers := ∅
    heap := fun _ => TransferProgress.new true ⟨0, 0, 0, 0, .UDP, -1⟩ 0 0 0
    nextPtr := 0
    bandwidthManager := bm
    nextFreeSendingTime := nextFree
    bmCalls := []
    delivered := [] }

/-! ## Operations -/

/-- The function `Subnet::shouldDropMsg`; `randomNum` is the value returned by
`network.getRandomDouble()`. -/
def shouldDropMsg {σ : Type} (env : Collaborators σ) (msg : NetworkMessage) (randomNum : ℚ) :
    Bool :=
  let packetLossProbability := env.getUDPErrorProbability msg
  if randomNum < packetLossProbability then true else false

/-- The function `Subnet::setMessageId`: returns the id, the message and the
state. -/
def setMessageId {σ : Type} (s : Subnet σ) (msg : NetworkMessage) :
    Int × NetworkMessage × Subnet σ :=
  if msg.messageId = -1 then
    let msgId := toInt32 s.lastMsgId
    (msgId, { msg with messageId := msgId }, { s with lastMsgId := wrapU64 (s.lastMsgId + 1) })
  else
    (msg.messageId, msg, s)

/-- The block that ends `send`, `cancelTransmission`, the loop body of
`onDisconnect` and the delivery branch of `onMessageReceived`:
`if(nextRescheduleTime < _currentTick + 1)` set the marker and push one
`BANDWIDTH_REALLOC` event with delay 1. -/
def scheduleReallocation {σ : Type} (s : Subnet σ) (currentTick : Nat) :
    Subnet σ × List MessageToNodeEvent :=
  if s.nextRescheduleTime < wrapU64 (currentTick + 1) then
    ({ s with nextRescheduleTime := wrapU64 (currentTick + 1) },
      [⟨SubnetMessage.BANDWIDTH_REALLOC, 1⟩])
  else
    (s, [])

/-- The required rate computed in `send`, `cancelTransmission` and
`onMessageReceived`: the sender's uplink cap, capped by the TCP throughput for
a TCP message. -/
def maxBandwidthRequired {σ : Type} (env : Collaborators σ) (msg : NetworkMessage) : ℚ :=
  if msg.l4ProtocolType = L4ProtocolType.TCP then
    min (env.getUpBW msg.sender) (env.getTCPThroughput msg.sender msg.receiver)
  else
    env.getUpBW msg.sender

/-- The function `Subnet::send`.  Returns the state, the message (with its id
assigned when it was not) and the events appended to `_newEvents`. -/
def send {σ : Type} (env : Collaborators σ) (s : Subnet σ) (msg : NetworkMessage)
    (currentTick : Nat) (randomNum : ℚ) : Subnet σ × NetworkMessage × List MessageToNodeEvent :=
  let senderId := msg.sender
  let receiverId := msg.receiver
  if senderId = receiverId then (s, msg, [])
  else if msg.l4ProtocolType = L4ProtocolType.UDP ∧ shouldDropMsg env msg randomNum = true then
    (s, msg, [])
  else
    let r := setMessageId s msg
    let msgId := r.1
    let msg1 := r.2.1
    let s1 := r.2.2
    if msg1.numFragments = 1 then
      let propagationTicks := env.getPropagationDelay senderId receiverId
      let transmissionTicks := env.getTransmissionDelay (msg1.size : ℚ)
        (min (env.getUpBW senderId) (env.getDownBW receiverId))
      let transmissionEndTick :=
        wrapU64 (max currentTick (s1.nextFreeSendingTime senderId) + transmissionTicks)
      let s2 := { s1 with
        nextFreeSendingTime := Function.update s1.nextFreeSendingTime senderId transmissionEndTick }
      let ticksBeforeReception :=
        wrapU64 ((if s2.nextFreeSendingTime senderId > currentTick
            then s2.nextFreeSendingTime senderId - currentTick else 0)
          + transmissionTicks + propagationTicks)
      let a := s2.alloc (TransferProgress.new env.rateFirst msg1 0 (SIZE_MAX : ℚ) currentTick)
      (a.2, msg1, [⟨SubnetMessage.MESSAGE_RECVD a.1, ticksBeforeReception⟩])
    else
      let rate := maxBandwidthRequired env msg1
      let c := env.addConnection s1.bandwidthManager senderId receiverId rate
      let ba := c.1
      let s2 := { s1 with
        bandwidthManager := c.2
        bmCalls := s1.bmCalls ++ [BMCall.addConnection senderId receiverId rate] }
      let a := s2.alloc (TransferProgress.new env.rateFirst msg1 (msg1.size : ℚ) 0 currentTick)
      let s3 := { a.2 with
        connectionsToTransfersMap := Function.update a.2.connectionsToTransfersMap ba
          (some (setInsert a.1 ((a.2.connectionsToTransfersMap ba).getD [])))
        messageIdsToTransfersMap := Function.update a.2.messageIdsToTransfersMap msgId (some a.1) }
      let d := scheduleReallocation s3 currentTick
      (d.1, msg1, d.2)

/-- The function `Subnet::cancelTransmission`.  The lookup
`messageIdsToTransfersMap[_msgId]` default-constructs a null pointer for an id
that has no entry, and the next statement dereferences it. -/
def cancelTransmission {σ : Type} (env : Collaborators σ) (s : Subnet σ) (msgId : Int)
    (currentTick : Nat) : Except Fault (Subnet σ × List MessageToNodeEvent) :=
  match s.messageIdsToTransfersMap msgId with
  | none => Except.error Fault.nullDereference
  | some tp =>
    let msg := (s.heap tp).message
    let senderId := msg.sender
    let receiverId := msg.receiver
    let rate := maxBandwidthRequired env msg
    let c := env.removeConnection s.bandwidthManager senderId receiverId rate
    let s1 := { s with
      bandwidthManager := c.2
      bmCalls := s.bmCalls ++ [BMCall.removeConnection senderId receiverId rate] }
    let s2 := { s1 with
      messageIdsToTransfersMap := Function.update s1.messageIdsToTransfersMap msgId none
      cancelledTransfers := insert tp s1.cancelledTransfers }
    Except.ok (scheduleReallocation s2 currentTick)

/-- The inner loop of `onDisconnect`: erase the index entry of the message of
every transfer of the bucket. -/
def eraseMessageIds (heap : Nat → TransferProgress) (transfers : List Nat)
    (index : Int → Option Nat) : Int → Option Nat :=
  transfers.foldl (fun m tp => Function.update m (heap tp).message.messageId none) index

/-- One iteration of the loop of `Subnet::onDisconnect`, for the allocation
`ba`. -/
def onDisconnectStep {σ : Type} (currentTick : Nat)
    (acc : Subnet σ × List MessageToNodeEvent) (ba : Nat) :
    Subnet σ × List MessageToNodeEvent :=
  let s := acc.1
  let transfers := (s.connectionsToTransfersMap ba).getD []
  let s1 := { s with
    connectionsToTransfersMap := Function.update s.connectionsToTransfersMap ba none
    cancelledTransfers := s.cancelledTransfers ∪ transfers.toFinset
    messageIdsToTransfersMap := eraseMessageIds s.heap transfers s.messageIdsToTransfersMap }
  let d := scheduleReallocation s1 currentTick
  (d.1, acc.2 ++ d.2)

/-- The function `Subnet::onDisconnect`. -/
def onDisconnect {σ : Type} (env : Collaborators σ) (s : Subnet σ) (nodeId : Nat)
    (currentTick : Nat) : Subnet σ × List MessageToNodeEvent :=
  let c := env.removeConnections s.bandwidthManager nodeId
  let s1 := { s with
    bandwidthManager := c.2
    bmCalls := s.bmCalls ++ [BMCall.removeConnections nodeId] }
  c.1.foldl (onDisconnectStep currentTick) (s1, [])

/-- The function `Subnet::onMessageReceived`, for the generation at address
`tp`.  The two places where the source delivers to the application (both
commented out there) append `tp` to `delivered`. -/
def onMessageReceived {σ : Type} (env : Collaborators σ) (s : Subnet σ) (tp : Nat)
    (currentTick : Nat) : Subnet σ × List MessageToNodeEvent :=
  let msg := (s.heap tp).message
  let senderId := msg.sender
  let receiverId := msg.receiver
  if msg.numFragments = 1 then
    ({ s with delivered := s.delivered ++ [tp] }, [])
  else if (s.heap tp).obsolete = true ∨ tp ∈ s.cancelledTransfers then
    ({ s with cancelledTransfers := s.cancelledTransfers.erase tp }, [])
  else
    let d := scheduleReallocation { s with delivered := s.delivered ++ [tp] } currentTick
    let s1 := d.1
    let rate := maxBandwidthRequired env msg
    let c := env.removeConnection s1.bandwidthManager senderId receiverId rate
    let ba := c.1
    let s2 := { s1 with
      bandwidthManager := c.2
      bmCalls := s1.bmCalls ++ [BMCall.removeConnection senderId receiverId rate] }
    let s3 :=
      match s2.connectionsToTransfersMap ba with
      | none => s2
      | some bucket =>
        if bucket.length ≤ 1 then
          { s2 with connectionsToTransfersMap := Function.update s2.connectionsToTransfersMap ba none }
        else
          { s2 with connectionsToTransfersMap :=
              Function.update s2.connectionsToTransfersMap ba (some (setErase tp bucket)) }
    ({ s3 with messageIdsToTransfersMap :=
        Function.update s3.messageIdsToTransfersMap msg.messageId none }, d.2)

/-- The local variables of the loop of `rescheduleTransfers` together with the
state.  `assignedBandwidth` is a ghost field: the value of the local
`bandwidth` of every iteration so far, in order. -/
structure RescheduleState (σ : Type) where
  subnet : Subnet σ
  remainingBandwidth : ℚ
  remainingTransfers : Int
  updatedTransfers : List Nat
  newEvents : List MessageToNodeEvent
  assignedBandwidth : List ℚ

/-- One iteration of the loop of `Subnet::rescheduleTransfers`, for the old
generation at address `tp`, with the quotient of line 255 and the difference
of line 264 computed exactly; `rescheduleStepDouble` has the rounding of the
`double` locals. -/
def rescheduleStep {σ : Type} (env : Collaborators σ) (senderId receiverId : Nat)
    (currentTick : Nat) (st : RescheduleState σ) (tp : Nat) : RescheduleState σ :=
  let s := st.subnet
  let remainingBytes := (s.heap tp).getRemainingBytes currentTick
  let share := st.remainingBandwidth / (st.remainingTransfers : ℚ)
  let msg := (s.heap tp).message
  let bandwidth :=
    if msg.l4ProtocolType = L4ProtocolType.TCP then
      min share (env.getTCPThroughput senderId receiverId)
    else share
  let propagationTicks := env.getPropagationDelay senderId receiverId
  let transmissionTicks := env.getTransmissionDelay remainingBytes bandwidth
  let ticksBeforeReception := wrapU64 (transmissionTicks + propagationTicks)
  let a := s.alloc (TransferProgress.new env.rateFirst msg bandwidth remainingBytes currentTick)
  let heap1 := Function.update a.2.heap a.1 { a.2.heap a.1 with firstSchedule := false }
  let heap2 :=
    if (heap1 tp).firstSchedule = false then
      Function.update heap1 tp { heap1 tp with obsolete := true }
    else heap1
  let s3 := { a.2 with
    messageIdsToTransfersMap :=
      Function.update a.2.messageIdsToTransfersMap msg.messageId (some a.1)
    heap := heap2 }
  { subnet := s3
    remainingBandwidth := st.remainingBandwidth - bandwidth
    remainingTransfers := st.remainingTransfers - 1
    updatedTransfers := setInsert a.1 st.updatedTransfers
    newEvents := st.newEvents ++ [⟨SubnetMessage.MESSAGE_RECVD a.1, ticksBeforeReception⟩]
    assignedBandwidth := st.assignedBandwidth ++ [bandwidth] }

/-- The loop of `Subnet::rescheduleTransfers` over the transfers in visiting
order, from the state at loop entry. -/
def rescheduleLoop {σ : Type} (env : Collaborators σ) (senderId receiverId : Nat)
    (currentTick : Nat) (transfers : List Nat) (st : RescheduleState σ) : RescheduleState σ :=
  transfers.foldl (rescheduleStep env senderId receiverId currentTick) st

/-- The state at the entry of the loop of `rescheduleTransfers`: the pool is
the granted rate of the allocation and the counter is the size of its bucket.
The lookup `connectionsToTransfersMap[_ba]` creates an empty bucket when the
allocation has none. -/
def rescheduleEntry {σ : Type} (env : Collaborators σ) (s : Subnet σ) (ba : Nat) :
    RescheduleState σ :=
  { subnet := { s with
      connectionsToTransfersMap := Function.update s.connectionsToTransfersMap ba
        (some ((s.connectionsToTransfersMap ba).getD [])) }
    remainingBandwidth := env.getAllocatedBandwidth s.bandwidthManager ba
    remainingTransfers := (((s.connectionsToTransfersMap ba).getD []).length : Int)
    updatedTransfers := []
    newEvents := []
    assignedBandwidth := [] }

/-- The state at the exit of the loop of `rescheduleTransfers`. -/
def rescheduleExit {σ : Type} (env : Collaborators σ) (s : Subnet σ) (ba : Nat)
    (currentTick : Nat) : RescheduleState σ :=
  rescheduleLoop env (env.getSender s.bandwidthManager ba) (env.getReceiver s.bandwidthManager ba)
    currentTick ((s.connectionsToTransfersMap ba).getD []) (rescheduleEntry env s ba)

/-- The function `Subnet::rescheduleTransfers` for the allocation at address
`ba`. -/
def rescheduleTransfers {σ : Type} (env : Collaborators σ) (s : Subnet σ) (ba : Nat)
    (currentTick : Nat) : Subnet σ × List MessageToNodeEvent :=
  let transfers := (s.connectionsToTransfersMap ba).getD []
  if transfers = [] then ((rescheduleEntry env s ba).subnet, [])
  else
    let st := rescheduleExit env s ba currentTick
    ({ st.subnet with
        connectionsToTransfersMap :=
          Function.update st.subnet.connectionsToTransfersMap ba (some st.updatedTransfers) },
      st.newEvents)

/-- The function `Subnet::onBandwidthReallocation`. -/
def onBandwidthReallocation {σ : Type} (env : Collaborators σ) (s : Subnet σ)
    (currentTick : Nat) : Subnet σ × List MessageToNodeEvent :=
  let bm1 := env.allocateBandwidth s.bandwidthManager
  let c := env.getChangedAllocations bm1
  let s1 := { s with
    bandwidthManager := c.2
    bmCalls := s.bmCalls ++ [BMCall.allocateBandwidth, BMCall.getChangedAllocations] }
  c.1.foldl
    (fun acc ba =>
      let r := rescheduleTransfers env acc.1 ba currentTick
      (r.1, acc.2 ++ r.2))
    (s1, [])

/-- The state of the multi-fragment branch of `send` just before its debounce
block: id assigned, connection registered, generation created at
`s.nextPtr` and inserted into the bucket and the index. -/
def admitted {σ : Type} (env : Collaborators σ) (s : Subnet σ) (msg : NetworkMessage)
    (currentTick : Nat) : Subnet σ :=
  { (setMessageId s msg).2.2 with
    bandwidthManager := (env.addConnection s.bandwidthManager msg.sender msg.receiver
      (maxBandwidthRequired env (setMessageId s msg).2.1)).2
    bmCalls := s.bmCalls ++ [BMCall.addConnection msg.sender msg.receiver
      (maxBandwidthRequired env (setMessageId s msg).2.1)]
    heap := Function.update s.heap s.nextPtr
      (TransferProgress.new env.rateFirst (setMessageId s msg).2.1 (msg.size : ℚ) 0 currentTick)
    nextPtr := s.nextPtr + 1
    connectionsToTransfersMap := Function.update s.connectionsToTransfersMap
      (env.addConnection s.bandwidthManager msg.sender msg.receiver
        (maxBandwidthRequired env (setMessageId s msg).2.1)).1
      (some (setInsert s.nextPtr ((s.connectionsToTransfersMap
        (env.addConnection s.bandwidthManager msg.sender msg.receiver
          (maxBandwidthRequired env (setMessageId s msg).2.1)).1).getD [])))
    messageIdsToTransfersMap := Function.update s.messageIdsToTransfersMap
      (setMessageId s msg).1 (some s.nextPtr) }

/-! ## Sequences of calls -/

/-- A call of one of the four operations that can schedule a reallocation,
with its arguments other than the tick. -/
inductive Call
  | send (msg : NetworkMessage) (randomNum : ℚ)
  | cancelTransmission (msgId : Int)
  | onDisconnect (nodeId : Nat)
  | onMessageReceived (tp : Nat)

/-- One call at tick `now`: the next state and the events it appended. -/
def step {σ : Type} (env : Collaborators σ) (s : Subnet σ) (now : Nat) :
    Call → Except Fault (Subnet σ × List MessageToNodeEvent)
  | Call.send msg randomNum =>
    Except.ok ((send env s msg now randomNum).1, (send env s msg now randomNum).2.2)
  | Call.cancelTransmission msgId => cancelTransmission env s msgId now
  | Call.onDisconnect nodeId => Except.ok (onDisconnect env s nodeId now)
  | Call.onMessageReceived tp => Except.ok (onMessageReceived env s tp now)

/-- The events produced by a sequence of calls, each paired with the tick of
the call that produced it.  The sequence ends at a call that does not
return. -/
def runEvents {σ : Type} (env : Collaborators σ) :
    Subnet σ → List (Nat × Call) → List (Nat × MessageToNodeEvent)
  | _, [] => []
  | s, (now, c) :: rest =>
    match step env s now c with
    | Except.error _ => []
    | Except.ok r => r.2.map (fun e => (now, e)) ++ runEvents env r.1 rest

/-- Whether an event is a `BANDWIDTH_REALLOC` event. -/
def isReallocation (e : MessageToNodeEvent) : Bool :=
  match e.message with
  | SubnetMessage.BANDWIDTH_REALLOC => true
  | SubnetMessage.MESSAGE_RECVD _ => false

/-- The ticks at which the reallocation events of a trace fire: the tick of
the call plus the delay of the event. -/
def reallocationTargets (trace : List (Nat × MessageToNodeEvent)) : List Nat :=
  (trace.filter (fun e => isReallocation e.2)).map (fun e => e.1 + e.2.ticksBeforeReception)

/-- What a call does to the marker and how many reallocation events it
appends: none, and the marker is unchanged; or exactly one with delay 1, the
marker was below `now + 1` and is `now + 1` afterwards. -/
def DebounceStep {σ : Type} (s s1 : Subnet σ) (now : Nat) (evs : List MessageToNodeEvent) :
    Prop :=
  (evs.filter isReallocation = [] ∧ s1.nextRescheduleTime = s.nextRescheduleTime) ∨
  (evs.filter isReallocation = [⟨SubnetMessage.BANDWIDTH_REALLOC, 1⟩] ∧
    s.nextRescheduleTime < now + 1 ∧ s1.nextRescheduleTime = now + 1)

/-! ## Inputs of the worked examples -/

/-- Collaborators of the worked examples: propagation delay 3, transmission
delay the rounded-up quotient of bytes by rate, loss probability one half, TCP
throughput 100, uplink and downlink caps 200, and a bandwidth manager without
state whose only allocation is at address 0, from node 1 to node 2, with
granted rate 300; the constructor of `TransferProgress` takes the rate
first. -/
def exampleEnv : Collaborators Unit :=
  { getPropagationDelay := fun _ _ => 3
    getTransmissionDelay := fun bytes rate => ⌈bytes / rate⌉₊
    getUDPErrorProbability := fun _ => 1 / 2
    getTCPThroughput := fun _ _ => 100
    getUpBW := fun _ => 200
    getDownBW := fun _ => 200
    addConnection := fun u _ _ _ => (0, u)
    removeConnection := fun u _ _ _ => (0, u)
    removeConnections := fun u _ => ([0], u)
    allocateBandwidth := fun u => u
    getChangedAllocations := fun u => ([0], u)
    getSender := fun _ _ => 1
    getReceiver := fun _ _ => 2
    getAllocatedBandwidth := fun _ _ => 300
    rateFirst := true }

/-- A freshly constructed `Subnet` over `exampleEnv` in which no node has sent
anything yet. -/
def freshSubnet : Subnet Unit := Subnet.init () (fun _ => 0)

/-- A message from node 1 to node 2 of 1000 bytes that has no id yet. -/
def exampleMessage (numFragments : Nat) (l4 : L4ProtocolType) : NetworkMessage :=
  { sender := 1, receiver := 2, size := 1000, numFragments := numFragments,
    l4ProtocolType := l4, messageId := -1 }

/-- The state after `send` of a two-fragment TCP message at tick 0 on the
freshly constructed `Subnet`. -/
def sentState : Subnet Unit :=
  (send exampleEnv freshSubnet (exampleMessage 2 L4ProtocolType.TCP) 0 0).1

/-- The state after `cancelTransmission(0, 0)` on `sentState`, or `sentState`
itself should the call not return. -/
def cancelledState : Subnet Unit :=
  match cancelTransmission exampleEnv sentState 0 0 with
  | Except.ok r => r.1
  | Except.error _ => sentState

/-- Two UDP transfers of allocation 0 in flight: generation 0 with 1000 bytes
remaining and generation 1 with 500 bytes remaining, both started at tick 0 at
rate 0. -/
def splitState : Subnet Unit :=
  { freshSubnet with
    heap := fun p =>
      if p = 0 then
        { message := { exampleMessage 2 L4ProtocolType.UDP with messageId := 0 }
          bandwidth := 0, remainingBytes := 1000, scheduledAt := 0
          firstSchedule := true, obsolete := false }
      else
        { message := { exampleMessage 2 L4ProtocolType.UDP with messageId := 1 }
          bandwidth := 0, remainingBytes := 500, scheduledAt := 0
          firstSchedule := true, obsolete := false }
    nextPtr := 2
    lastMsgId := 2
    connectionsToTransfersMap := fun a => if a = 0 then some [0, 1] else none
    messageIdsToTransfersMap := fun i => if i = 0 then some 0 else if i = 1 then some 1 else none }

/-! ## The block cache -/

/-- Modelled from the spec: the class `BlockCache`, declared in `BlockCache.h`,
which is not part of the sources.  Its one member used by `BlockCache.cpp` is
`blockIdBodyMap`, a map from block ids (`int`) to block pointers; `β` is the
type of a `std::shared_ptr<Block>`. -/
structure BlockCache (β : Type) where
  blockIdBodyMap : Int → Option β

/-- A default-constructed `BlockCache`: the map is empty. -/
def BlockCache.empty (β : Type) : BlockCache β := { blockIdBodyMap := fun _ => none }

/-- The function `BlockCache::insert`: the return value and the cache. -/
def BlockCache.insert {β : Type} (c : BlockCache β) (blockId : Int) (blockPtr : β) :
    Bool × BlockCache β :=
  (true, { blockIdBodyMap := Function.update c.blockIdBodyMap blockId (some blockPtr) })

/-- The function `BlockCache::getBlockById`: `find(blockId)->second`.  For an id
that is not in the map `find` returns the end iterator, whose dereference is
undefined: the result is `none`. -/
def BlockCache.getBlockById {β : Type} (c : BlockCache β) (blockId : Int) : Option β :=
  c.blockIdBodyMap blockId

/-- The function `BlockCache::hasBlockId`. -/
def BlockCache.hasBlockId {β : Type} (c : BlockCache β) (blockId : Int) : Bool :=
  (c.blockIdBodyMap blockId).isSome

/-- A sequence of `insert` calls, first to last. -/
def BlockCache.insertAll {β : Type} (c : BlockCache β) (blocks : List (Int × β)) : BlockCache β :=
  blocks.foldl (fun acc p => (acc.insert p.1 p.2).2) c

/-- A sequence of `send` calls, first to last, each with its message, tick and
random draw: the final state and the ids that the calls assigned, in order.
A call assigned an id when its message arrived with the id `-1` and left with
another one. -/
def runSends {σ : Type} (env : Collaborators σ) :
    Subnet σ → List (NetworkMessage × Nat × ℚ) → Subnet σ × List Int
  | s, [] => (s, [])
  | s, (msg, now, randomNum) :: rest =>
    let out := send env s msg now randomNum
    let r := runSends env out.1 rest
    if msg.messageId = -1 ∧ out.2.1.messageId ≠ -1 then (r.1, out.2.1.messageId :: r.2)
    else r

/-- A `Subnet` with empty containers whose message-id counter is `2 ^ 32 - 1`. -/
def lateSubnet : Subnet Unit := { freshSubnet with lastMsgId := 2 ^ 32 - 1 }

/-- The consistency of buckets and index that the spec states as an invariant:
every generation in a bucket is in no other bucket and is the index value of
the id of its message, and every index value is in exactly one bucket. -/
def BucketIndexConsistent {σ : Type} (s : Subnet σ) : Prop :=
  (∀ ba bucket g, s.connectionsToTransfersMap ba = some bucket → g ∈ bucket →
    (∀ ba2 bucket2, s.connectionsToTransfersMap ba2 = some bucket2 → g ∈ bucket2 → ba2 = ba) ∧
    s.messageIdsToTransfersMap (s.heap g).message.messageId = some g) ∧
  (∀ msgId g, s.messageIdsToTransfersMap msgId = some g →
    ∃ ba bucket, s.connectionsToTransfersMap ba = some bucket ∧ g ∈ bucket ∧
      ∀ ba2 bucket2, s.connectionsToTransfersMap ba2 = some bucket2 → g ∈ bucket2 → ba2 = ba)

/-- The value of the local `bandwidth` in the iteration of the loop of
`rescheduleTransfers` for the generation at `tp` (lines 255-262). -/
def stepBandwidth {σ : Type} (env : Collaborators σ) (senderId receiverId : Nat)
    (st : RescheduleState σ) (tp : Nat) : ℚ :=
  if (st.subnet.heap tp).message.l4ProtocolType = L4ProtocolType.TCP then
    min (st.remainingBandwidth / (st.remainingTransfers : ℚ))
      (env.getTCPThroughput senderId receiverId)
  else st.remainingBandwidth / (st.remainingTransfers : ℚ)

/-- The generation that line 271 constructs for the old generation `old` and
the bandwidth `bw`, after line 283 has cleared its first-generation flag. -/
def replacement {σ : Type} (env : Collaborators σ) (now : Nat) (old : TransferProgress)
    (bw : ℚ) : TransferProgress :=
  { TransferProgress.new env.rateFirst old.message bw (old.getRemainingBytes now) now with
    firstSchedule := false }

/-- The old generation after lines 284-286: obsolete if it was obsolete or was
not a first generation. -/
def superseded (old : TransferProgress) : TransferProgress :=
  { old with obsolete := old.obsolete || !old.firstSchedule }

/-- The delay of the delivery event of lines 267-269 for the old generation
`old` and the bandwidth `bw`. -/
def rescheduleDelay {σ : Type} (env : Collaborators σ) (senderId receiverId now : Nat)
    (old : TransferProgress) (bw : ℚ) : Nat :=
  wrapU64 (env.getTransmissionDelay (old.getRemainingBytes now) bw +
    env.getPropagationDelay senderId receiverId)

/-- The successive values of the local `bandwidth` over a whole pass of the
loop (lines 255-265), from the transport kinds of the transfers in visiting
order (true for TCP), the TCP throughput `T`, the pool and the counter. -/
def shareSequence (T : ℚ) : List Bool → ℚ → Int → List ℚ
  | [], _, _ => []
  | tcp :: rest, pool, count =>
    (if tcp then min (pool / (count : ℚ)) T else pool / (count : ℚ)) ::
      shareSequence T rest
        (pool - (if tcp then min (pool / (count : ℚ)) T else pool / (count : ℚ))) (count - 1)

/-- Whether the generation at address `g` carries a TCP message. -/
def isTCP (heap : Nat → TransferProgress) (g : Nat) : Bool :=
  decide ((heap g).message.l4ProtocolType = L4ProtocolType.TCP)

/-- Two transfers of allocation 0 in flight, as in `splitState`, but the
generation at address 0 carries a TCP message and the one at address 1 a UDP
message. -/
def mixedState : Subnet Unit :=
  { splitState with
    heap := fun p =>
      if p = 0 then
        { message := { exampleMessage 2 L4ProtocolType.TCP with messageId := 0 }
          bandwidth := 0, remainingBytes := 1000, scheduledAt := 0
          firstSchedule := true, obsolete := false }
      else
        { message := { exampleMessage 2 L4ProtocolType.UDP with messageId := 1 }
          bandwidth := 0, remainingBytes := 500, scheduledAt := 0
          firstSchedule := true, obsolete := false } }

/-- The collaborators of `exampleEnv` with a constructor of `TransferProgress`
that takes the byte baseline before the rate. -/
def bytesFirstEnv : Collaborators Unit := { exampleEnv with rateFirst := false }

/-- The state after `send` of a two-fragment TCP message at tick 0 on the
freshly constructed `Subnet`, with a constructor of `TransferProgress` that
takes the byte baseline before the rate: the generation at address 0 has the
byte baseline 1000 and the rate 0. -/
def sentStateBytesFirst : Subnet Unit :=
  (send bytesFirstEnv freshSubnet (exampleMessage 2 L4ProtocolType.TCP) 0 0).1

/-! ## The arithmetic of `double` -/

/-- Rounding of a rational to the nearest integer, a tie to the even one. -/
def roundHalfEven (x : ℚ) : Int :=
  if x - (⌊x⌋ : ℚ) < 1 / 2 then ⌊x⌋
  else if 1 / 2 < x - (⌊x⌋ : ℚ) then ⌊x⌋ + 1
  else if ⌊x⌋ % 2 = 0 then ⌊x⌋ else ⌊x⌋ + 1

/-- The value of the C++ type `double` (IEEE 754 binary64: 53 significant
bits, round to nearest, ties to even) that an arithmetic operation with the
exact result `x` returns: `x` is scaled by the power of two of its binade so
that the significand is an integer of 53 bits, and that integer is rounded.
The exponent range is not modelled: no overflow and no subnormal numbers. -/
def roundDouble (x : ℚ) : ℚ :=
  (roundHalfEven (x / (2 : ℚ) ^ (Int.log 2 |x| - 52)) : ℚ) * (2 : ℚ) ^ (Int.log 2 |x| - 52)

/-- What the proofs need of the rounding `fl` of `double` arithmetic on values
that are not negative: it keeps 0, it is monotone, a rounded value is a
`double`, which rounding keeps, and the rounded difference of two `double`
values exceeds the exact one by at most the fraction `2 ^ (-53)` of it. -/
def DoubleRounding (fl : ℚ → ℚ) : Prop :=
  fl 0 = 0 ∧ (∀ x y, 0 ≤ x → x ≤ y → fl x ≤ fl y) ∧ (∀ x, 0 ≤ x → fl (fl x) = fl x) ∧
    (∀ x y, fl x = x → fl y = y → y ≤ x → fl (x - y) ≤ (x - y) + (x - y) / 2 ^ 53)

/-- The value of the local `bandwidth` in the iteration for the generation at
`tp` (lines 255-262) in `double` arithmetic: `fl` rounds the exact quotient of
line 255 to a `double`; `std::min` (line 261) returns one of its arguments. -/
def stepBandwidthDouble {σ : Type} (fl : ℚ → ℚ) (env : Collaborators σ)
    (senderId receiverId : Nat) (st : RescheduleState σ) (tp : Nat) : ℚ :=
  if (st.subnet.heap tp).message.l4ProtocolType = L4ProtocolType.TCP then
    min (fl (st.remainingBandwidth / (st.remainingTransfers : ℚ)))
      (env.getTCPThroughput senderId receiverId)
  else fl (st.remainingBandwidth / (st.remainingTransfers : ℚ))

/-- One iteration of the loop of `Subnet::rescheduleTransfers` with the
arithmetic of its `double` locals: `fl` rounds the exact quotient of line 255
and the exact difference of line 264 to a `double`.  With the identity for
`fl` this is `rescheduleStep`. -/
def rescheduleStepDouble {σ : Type} (fl : ℚ → ℚ) (env : Collaborators σ)
    (senderId receiverId : Nat) (currentTick : Nat) (st : RescheduleState σ) (tp : Nat) :
    RescheduleState σ :=
  let s := st.subnet
  let remainingBytes := (s.heap tp).getRemainingBytes currentTick
  let share := fl (st.remainingBandwidth / (st.remainingTransfers : ℚ))
  let msg := (s.heap tp).message
  let bandwidth :=
    if msg.l4ProtocolType = L4ProtocolType.TCP then
      min share (env.getTCPThroughput senderId receiverId)
    else share
  let propagationTicks := env.getPropagationDelay senderId receiverId
  let transmissionTicks := env.getTransmissionDelay remainingBytes bandwidth
  let ticksBeforeReception := wrapU64 (transmissionTicks + propagationTicks)
  let a := s.alloc (TransferProgress.new env.rateFirst msg bandwidth remainingBytes currentTick)
  let heap1 := Function.update a.2.heap a.1 { a.2.heap a.1 with firstSchedule := false }
  let heap2 :=
    if (heap1 tp).firstSchedule = false then
      Function.update heap1 tp { heap1 tp with obsolete := true }
    else heap1
  let s3 := { a.2 with
    messageIdsToTransfersMap :=
      Function.update a.2.messageIdsToTransfersMap msg.messageId (some a.1)
    heap := heap2 }
  { subnet := s3
    remainingBandwidth := fl (st.remainingBandwidth - bandwidth)
    remainingTransfers := st.remainingTransfers - 1
    updatedTransfers := setInsert a.1 st.updatedTransfers
    newEvents := st.newEvents ++ [⟨SubnetMessage.MESSAGE_RECVD a.1, ticksBeforeReception⟩]
    assignedBandwidth := st.assignedBandwidth ++ [bandwidth] }

/-- The loop of `Subnet::rescheduleTransfers` in `double` arithmetic over the
transfers in visiting order, from the state at loop entry. -/
def rescheduleLoopDouble {σ : Type} (fl : ℚ → ℚ) (env : Collaborators σ)
    (senderId receiverId : Nat) (currentTick : Nat) (transfers : List Nat)
    (st : RescheduleState σ) : RescheduleState σ :=
  transfers.foldl (rescheduleStepDouble fl env senderId receiverId currentTick) st

/-- The state at the exit of the loop of `rescheduleTransfers` in `double`
arithmetic, the bucket visited in the order of its addresses. -/
def rescheduleExitDouble {σ : Type} (fl : ℚ → ℚ) (env : Collaborators σ) (s : Subnet σ)
    (ba : Nat) (currentTick : Nat) : RescheduleState σ :=
  rescheduleLoopDouble fl env (env.getSender s.bandwidthManager ba)
    (env.getReceiver s.bandwidthManager ba) currentTick
    ((s.connectionsToTransfersMap ba).getD []) (rescheduleEntry env s ba)

/-- The successive values of the local `bandwidth` over a whole pass of the
loop in `double` arithmetic (lines 255-265), from the transport kinds of the
transfers in visiting order (true for TCP), the TCP throughput `T`, the pool
and the counter. -/
def shareSequenceDouble (fl : ℚ → ℚ) (T : ℚ) : List Bool → ℚ → Int → List ℚ
  | [], _, _ => []
  | tcp :: rest, pool, count =>
    (if tcp then min (fl (pool / (count : ℚ))) T else fl (pool / (count : ℚ))) ::
      shareSequenceDouble fl T rest
        (fl (pool - (if tcp then min (fl (pool / (count : ℚ))) T else fl (pool / (count : ℚ)))))
        (count - 1)

/-- The value of `remainingBandwidth` after a whole pass of the loop in
`double` arithmetic (line 264), from the same data as `shareSequenceDouble`. -/
def poolAfterDouble (fl : ℚ → ℚ) (T : ℚ) : List Bool → ℚ → Int → ℚ
  | [], pool, _ => pool
  | tcp :: rest, pool, count =>
    poolAfterDouble fl T rest
      (fl (pool - (if tcp then min (fl (pool / (count : ℚ))) T else fl (pool / (count : ℚ)))))
      (count - 1)

/-- The collaborators of `bytesFirstEnv` with the granted rate 1 for the
allocation at address 0. -/
def unitRateEnv : Collaborators Unit :=
  { bytesFirstEnv with getAllocatedBandwidth := fun _ _ => 1 }

/-- The state after three sends, at tick 0 on the freshly constructed `Subnet`,
of two-fragment TCP messages of 1000 bytes from node 1 to node 2: the messages
get the ids 0, 1 and 2, and their generations, at the addresses 0, 1 and 2,
are the bucket of allocation 0. -/
def tripleState : Subnet Unit :=
  (runSends unitRateEnv freshSubnet
    [(exampleMessage 2 L4ProtocolType.TCP, 0, 0), (exampleMessage 2 L4ProtocolType.TCP, 0, 0),
      (exampleMessage 2 L4ProtocolType.TCP, 0, 0)]).1

/-- The function `Subnet::rescheduleTransfers` for the allocation at address
`ba` with the arithmetic of its `double` locals, the rounding being `fl`. -/
def rescheduleTransfersDouble {σ : Type} (fl : ℚ → ℚ) (env : Collaborators σ) (s : Subnet σ)
    (ba : Nat) (currentTick : Nat) : Subnet σ × List MessageToNodeEvent :=
  let transfers := (s.connectionsToTransfersMap ba).getD []
  if transfers = [] then ((rescheduleEntry env s ba).subnet, [])
  else
    let st := rescheduleExitDouble fl env s ba currentTick
    ({ st.subnet with
        connectionsToTransfersMap :=
          Function.update st.subnet.connectionsToTransfersMap ba (some st.updatedTransfers) },
      st.newEvents)

/-! ## C1: a send dropped by policy changes nothing -/

/-- C1: when the message is self-addressed, or is UDP and the random draw is
strictly below the loss probability, `send` appends no event and leaves the
buckets, the message-id index, the tombstone set, the message-id counter, the
debounce marker, the id of the message and every send commitment unchanged,
and the bandwidth manager is not called (its call log and its state are
unchanged). -/
theorem send_dropped_is_noop {σ : Type} (env : Collaborators σ) (s : Subnet σ)
    (msg : NetworkMessage) (now : Nat) (randomNum : ℚ)
    (hdrop : msg.sender = msg.receiver ∨
      (msg.l4ProtocolType = L4ProtocolType.UDP ∧ randomNum < env.getUDPErrorProbability msg)) :
    (send env s msg now randomNum).2.2 = [] ∧
    (send env s msg now randomNum).1.connectionsToTransfersMap = s.connectionsToTransfersMap ∧
    (send env s msg now randomNum).1.messageIdsToTransfersMap = s.messageIdsToTransfersMap ∧
    (send env s msg now randomNum).1.cancelledTransfers = s.cancelledTransfers ∧
    (send env s msg now randomNum).1.lastMsgId = s.lastMsgId ∧
    (send env s msg now randomNum).1.nextRescheduleTime = s.nextRescheduleTime ∧
    (send env s msg now randomNum).2.1.messageId = msg.messageId ∧
    (send env s msg now randomNum).1.nextFreeSendingTime = s.nextFreeSendingTime ∧
    (send env s msg now randomNum).1.bmCalls = s.bmCalls ∧
    (send env s msg now randomNum).1.bandwidthManager = s.bandwidthManager := by
  have key : send env s msg now randomNum = (s, msg, []) := by
    unfold send
    rcases hdrop with h | ⟨hu, hr⟩
    · simp [h]
    · by_cases hs : msg.sender = msg.receiver
      · simp [hs]
      · simp [hs, hu, shouldDropMsg, hr]
  rw [key]
  simp

/-- C1 at a concrete input: a UDP message with draw 1/4 below the loss
probability 1/2. -/
theorem send_dropped_is_noop_witness :
    ((exampleMessage 2 L4ProtocolType.UDP).sender = (exampleMessage 2 L4ProtocolType.UDP).receiver ∨
      ((exampleMessage 2 L4ProtocolType.UDP).l4ProtocolType = L4ProtocolType.UDP ∧
        (1 / 4 : ℚ) < exampleEnv.getUDPErrorProbability (exampleMessage 2 L4ProtocolType.UDP))) ∧
    (send exampleEnv freshSubnet (exampleMessage 2 L4ProtocolType.UDP) 0 (1 / 4)).2.2 = [] :=
  ⟨Or.inr ⟨rfl, by norm_num [exampleEnv]⟩,
    (send_dropped_is_noop exampleEnv freshSubnet (exampleMessage 2 L4ProtocolType.UDP) 0 (1 / 4)
      (Or.inr ⟨rfl, by norm_num [exampleEnv]⟩)).1⟩

/-! ## C2: cancelling an id that has no entry -/

/-- C2: on a freshly constructed `Subnet`, whose message-id index is empty,
`cancelTransmission(7, 0)` does not return: it dereferences the null pointer
that the lookup default-constructs.  No failure is reported to the caller and
no state is handed back. -/
theorem cancelTransmission_unknown_id_null_dereference :
    freshSubnet.messageIdsToTransfersMap 7 = none ∧
    cancelTransmission exampleEnv freshSubnet 7 0 = Except.error Fault.nullDereference := by
  constructor
  · rfl
  · rfl

/-! ## C3: a stale delivery changes nothing -/

/-- C3: for a multi-fragment generation that is obsolete or in the tombstone
set, `onMessageReceived` does not reach the application-delivery place, does
not call the bandwidth manager, appends no event, leaves the buckets, the
message-id index and the debounce marker unchanged, and the generation is not
in the tombstone set afterwards.  In particular this holds for the generation
of a message right after `cancelTransmission` returned for its id. -/
theorem onMessageReceived_stale_is_noop {σ : Type} (env : Collaborators σ) (s : Subnet σ)
    (tp : Nat) (now : Nat)
    (hmulti : (s.heap tp).message.numFragments ≠ 1) :
    (((s.heap tp).obsolete = true ∨ tp ∈ s.cancelledTransfers) →
      (onMessageReceived env s tp now).1.delivered = s.delivered ∧
      (onMessageReceived env s tp now).1.bmCalls = s.bmCalls ∧
      (onMessageReceived env s tp now).1.bandwidthManager = s.bandwidthManager ∧
      (onMessageReceived env s tp now).2 = [] ∧
      (onMessageReceived env s tp now).1.connectionsToTransfersMap = s.connectionsToTransfersMap ∧
      (onMessageReceived env s tp now).1.messageIdsToTransfersMap = s.messageIdsToTransfersMap ∧
      (onMessageReceived env s tp now).1.nextRescheduleTime = s.nextRescheduleTime ∧
      tp ∉ (onMessageReceived env s tp now).1.cancelledTransfers) ∧
    (∀ (msgId : Int) (cancelTick : Nat), s.messageIdsToTransfersMap msgId = some tp →
      ∃ s1 ev, cancelTransmission env s msgId cancelTick = Except.ok (s1, ev) ∧
        tp ∈ s1.cancelledTransfers ∧
        (onMessageReceived env s1 tp now).1.delivered = s1.delivered ∧
        (onMessageReceived env s1 tp now).1.bmCalls = s1.bmCalls ∧
        (onMessageReceived env s1 tp now).1.bandwidthManager = s1.bandwidthManager ∧
        (onMessageReceived env s1 tp now).2 = [] ∧
        (onMessageReceived env s1 tp now).1.connectionsToTransfersMap =
          s1.connectionsToTransfersMap ∧
        (onMessageReceived env s1 tp now).1.messageIdsToTransfersMap =
          s1.messageIdsToTransfersMap ∧
        (onMessageReceived env s1 tp now).1.nextRescheduleTime = s1.nextRescheduleTime ∧
        tp ∉ (onMessageReceived env s1 tp now).1.cancelledTransfers) := by
  have stale : ∀ t : Subnet σ, (t.heap tp).message.numFragments ≠ 1 →
      ((t.heap tp).obsolete = true ∨ tp ∈ t.cancelledTransfers) →
      onMessageReceived env t tp now =
        ({ t with cancelledTransfers := t.cancelledTransfers.erase tp }, []) := by
    intro t hm hst
    unfold onMessageReceived
    simp only [hm, if_false, hst, if_true]
  refine ⟨?_, ?_⟩
  · intro hst
    rw [stale s hmulti hst]
    simp
  · intro msgId cancelTick hidx
    have hc : cancelTransmission env s msgId cancelTick = Except.ok
        (scheduleReallocation
          { s with
            bandwidthManager := (env.removeConnection s.bandwidthManager (s.heap tp).message.sender
              (s.heap tp).message.receiver (maxBandwidthRequired env (s.heap tp).message)).2
            bmCalls := s.bmCalls ++ [BMCall.removeConnection (s.heap tp).message.sender
              (s.heap tp).message.receiver (maxBandwidthRequired env (s.heap tp).message)]
            messageIdsToTransfersMap := Function.update s.messageIdsToTransfersMap msgId none
            cancelledTransfers := insert tp s.cancelledTransfers } cancelTick) := by
      unfold cancelTransmission
      rw [hidx]
    refine ⟨_, _, by rw [hc], ?_⟩
    have hheap : ∀ t : Subnet σ, (scheduleReallocation t cancelTick).1.heap = t.heap := by
      intro t; unfold scheduleReallocation; split <;> rfl
    have hcan : ∀ t : Subnet σ,
        (scheduleReallocation t cancelTick).1.cancelledTransfers = t.cancelledTransfers := by
      intro t; unfold scheduleReallocation; split <;> rfl
    have hmem : tp ∈ (scheduleReallocation
          { s with
            bandwidthManager := (env.removeConnection s.bandwidthManager (s.heap tp).message.sender
              (s.heap tp).message.receiver (maxBandwidthRequired env (s.heap tp).message)).2
            bmCalls := s.bmCalls ++ [BMCall.removeConnection (s.heap tp).message.sender
              (s.heap tp).message.receiver (maxBandwidthRequired env (s.heap tp).message)]
            messageIdsToTransfersMap := Function.update s.messageIdsToTransfersMap msgId none
            cancelledTransfers := insert tp s.cancelledTransfers } cancelTick).1.cancelledTransfers := by
      rw [hcan]; simp
    refine ⟨hmem, ?_⟩
    rw [stale _ (by rw [hheap]; exact hmulti) (Or.inr hmem)]
    simp

/-- C3 at a concrete input: the generation at address 0 of a state whose heap
holds a two-fragment message there and whose tombstone set is `{0}`. -/
theorem onMessageReceived_stale_is_noop_witness :
    (({ freshSubnet with
        heap := fun _ => TransferProgress.new true (exampleMessage 2 L4ProtocolType.TCP) 0 0 0
        cancelledTransfers := {0} } : Subnet Unit).heap 0).message.numFragments ≠ 1 ∧
    (onMessageReceived exampleEnv
      { freshSubnet with
        heap := fun _ => TransferProgress.new true (exampleMessage 2 L4ProtocolType.TCP) 0 0 0
        cancelledTransfers := {0} } 0 5).2 = [] :=
  ⟨by decide,
    ((onMessageReceived_stale_is_noop exampleEnv
      { freshSubnet with
        heap := fun _ => TransferProgress.new true (exampleMessage 2 L4ProtocolType.TCP) 0 0 0
        cancelledTransfers := {0} } 0 5 (by decide)).1 (Or.inr (by decide))).2.2.2.1⟩

/-! ## C4: what `cancelTransmission` removes -/

/-- C4: after a two-fragment send (generation at address 0, message id 0,
allocation 0) and `cancelTransmission(0, 0)`, the generation is in the
tombstone set and the id has no index entry, but the generation is still in
the bucket of its allocation; the next `onBandwidthReallocation` then creates
the generation at address 1 for the cancelled message, a delivery event for
it, and an index entry for id 0. -/
theorem cancelTransmission_leaves_generation_in_bucket :
    sentState.messageIdsToTransfersMap 0 = some 0 ∧
    sentState.connectionsToTransfersMap 0 = some [0] ∧
    (∃ ev, cancelTransmission exampleEnv sentState 0 0 = Except.ok (cancelledState, ev)) ∧
    0 ∈ cancelledState.cancelledTransfers ∧
    cancelledState.messageIdsToTransfersMap 0 = none ∧
    cancelledState.connectionsToTransfersMap 0 = some [0] ∧
    (onBandwidthReallocation exampleEnv cancelledState 1).1.connectionsToTransfersMap 0
      = some [1] ∧
    (onBandwidthReallocation exampleEnv cancelledState 1).1.messageIdsToTransfersMap 0
      = some 1 ∧
    (onBandwidthReallocation exampleEnv cancelledState 1).2.map (fun e => e.message)
      = [SubnetMessage.MESSAGE_RECVD 1] ∧
    1 ∉ (onBandwidthReallocation exampleEnv cancelledState 1).1.cancelledTransfers ∧
    ((onBandwidthReallocation exampleEnv cancelledState 1).1.heap 1).obsolete = false := by
  refine ⟨by rfl, by rfl, ⟨_, rfl⟩, by decide, by rfl, by rfl, by rfl, by rfl, by rfl,
    by decide, by rfl⟩

/-! ## Shared lemmas -/

theorem send_dropped_noop_eq {σ : Type} (env : Collaborators σ) (s : Subnet σ)
    (msg : NetworkMessage) (now : Nat) (randomNum : ℚ)
    (hdrop : msg.sender = msg.receiver ∨
      (msg.l4ProtocolType = L4ProtocolType.UDP ∧ randomNum < env.getUDPErrorProbability msg)) :
    send env s msg now randomNum = (s, msg, []) := by
  unfold send
  rcases hdrop with h | ⟨hu, hr⟩
  · simp [h]
  · by_cases hs : msg.sender = msg.receiver
    · simp [hs]
    · simp [hs, hu, shouldDropMsg, hr]

theorem scheduleReallocation_fst {σ : Type} (s : Subnet σ) (now : Nat) :
    ∃ m, (scheduleReallocation s now).1 = { s with nextRescheduleTime := m } := by
  unfold scheduleReallocation
  split
  · exact ⟨_, rfl⟩
  · exact ⟨s.nextRescheduleTime, rfl⟩

theorem setMessageId_message {σ : Type} (s : Subnet σ) (msg : NetworkMessage) :
    (setMessageId s msg).2.1 = { msg with messageId := (setMessageId s msg).1 } := by
  unfold setMessageId
  split <;> rfl

theorem setMessageId_state {σ : Type} (s : Subnet σ) (msg : NetworkMessage) :
    ∃ n, (setMessageId s msg).2.2 = { s with lastMsgId := n } := by
  unfold setMessageId
  split
  · exact ⟨_, rfl⟩
  · exact ⟨s.lastMsgId, rfl⟩

theorem shouldDropMsg_eq_true {σ : Type} (env : Collaborators σ) (msg : NetworkMessage)
    (randomNum : ℚ) :
    shouldDropMsg env msg randomNum = true ↔ randomNum < env.getUDPErrorProbability msg := by
  unfold shouldDropMsg
  by_cases h : randomNum < env.getUDPErrorProbability msg <;> simp [h]

/-- The multi-fragment branch of `send`, for a message that is not dropped. -/
theorem send_multi_fragment {σ : Type} (env : Collaborators σ) (s : Subnet σ)
    (msg : NetworkMessage) (now : Nat) (randomNum : ℚ)
    (hself : msg.sender ≠ msg.receiver)
    (hkeep : msg.l4ProtocolType = L4ProtocolType.UDP →
      ¬ randomNum < env.getUDPErrorProbability msg)
    (hmulti : msg.numFragments ≠ 1) :
    send env s msg now randomNum =
      ((scheduleReallocation (admitted env s msg now) now).1,
       (setMessageId s msg).2.1,
       (scheduleReallocation (admitted env s msg now) now).2) := by
  have hdrop : ¬ (msg.l4ProtocolType = L4ProtocolType.UDP ∧
      shouldDropMsg env msg randomNum = true) := by
    rintro ⟨hu, hd⟩
    exact hkeep hu ((shouldDropMsg_eq_true env msg randomNum).1 hd)
  obtain ⟨n, hn⟩ := setMessageId_state s msg
  have hfr : (setMessageId s msg).2.1.numFragments ≠ 1 := by
    rw [setMessageId_message]; exact hmulti
  unfold send admitted
  simp only [hself, if_false, hdrop, hfr, Subnet.alloc]
  rw [hn, setMessageId_message]

/-! ## C5: `onDisconnect` -/

theorem eraseMessageIds_none (heap : Nat → TransferProgress) (transfers : List Nat) :
    ∀ (index : Int → Option Nat) (msgId : Int), index msgId = none →
      eraseMessageIds heap transfers index msgId = none := by
  induction transfers with
  | nil => intro index msgId h; exact h
  | cons t rest ih =>
    intro index msgId h
    unfold eraseMessageIds
    rw [List.foldl_cons]
    apply ih
    by_cases hk : msgId = (heap t).message.messageId
    · rw [hk]; simp
    · rw [Function.update_noteq hk]; exact h

theorem eraseMessageIds_mem (heap : Nat → TransferProgress) (transfers : List Nat) :
    ∀ (index : Int → Option Nat) (tp : Nat), tp ∈ transfers →
      eraseMessageIds heap transfers index (heap tp).message.messageId = none := by
  induction transfers with
  | nil => intro index tp h; cases h
  | cons t rest ih =>
    intro index tp h
    rcases List.mem_cons.1 h with rfl | hrest
    · unfold eraseMessageIds
      rw [List.foldl_cons]
      exact eraseMessageIds_none heap rest _ _ (by simp)
    · unfold eraseMessageIds
      rw [List.foldl_cons]
      exact ih _ tp hrest

theorem onDisconnectStep_fst {σ : Type} (now : Nat)
    (acc : Subnet σ × List MessageToNodeEvent) (ba : Nat) :
    ∃ m, (onDisconnectStep now acc ba).1 =
      { acc.1 with
        connectionsToTransfersMap := Function.update acc.1.connectionsToTransfersMap ba none
        cancelledTransfers :=
          acc.1.cancelledTransfers ∪ ((acc.1.connectionsToTransfersMap ba).getD []).toFinset
        messageIdsToTransfersMap := eraseMessageIds acc.1.heap
          ((acc.1.connectionsToTransfersMap ba).getD []) acc.1.messageIdsToTransfersMap
        nextRescheduleTime := m } := by
  unfold onDisconnectStep
  obtain ⟨m, hm⟩ := scheduleReallocation_fst
    { acc.1 with
        connectionsToTransfersMap := Function.update acc.1.connectionsToTransfersMap ba none
        cancelledTransfers :=
          acc.1.cancelledTransfers ∪ ((acc.1.connectionsToTransfersMap ba).getD []).toFinset
        messageIdsToTransfersMap := eraseMessageIds acc.1.heap
          ((acc.1.connectionsToTransfersMap ba).getD []) acc.1.messageIdsToTransfersMap } now
  exact ⟨m, hm⟩

/-- What the loop of `onDisconnect` does to the heap, the buckets, the
tombstone set and the index. -/
theorem onDisconnect_loop {σ : Type} (now : Nat) (removed : List Nat) :
    ∀ acc : Subnet σ × List MessageToNodeEvent,
      (removed.foldl (onDisconnectStep now) acc).1.heap = acc.1.heap ∧
      (∀ ba, (removed.foldl (onDisconnectStep now) acc).1.connectionsToTransfersMap ba =
        if ba ∈ removed then none else acc.1.connectionsToTransfersMap ba) ∧
      acc.1.cancelledTransfers ⊆ (removed.foldl (onDisconnectStep now) acc).1.cancelledTransfers ∧
      (∀ msgId, acc.1.messageIdsToTransfersMap msgId = none →
        (removed.foldl (onDisconnectStep now) acc).1.messageIdsToTransfersMap msgId = none) ∧
      (∀ ba ∈ removed, ∀ bucket, acc.1.connectionsToTransfersMap ba = some bucket →
        ∀ tp ∈ bucket,
          tp ∈ (removed.foldl (onDisconnectStep now) acc).1.cancelledTransfers ∧
          (removed.foldl (onDisconnectStep now) acc).1.messageIdsToTransfersMap
            (acc.1.heap tp).message.messageId = none) := by
  induction removed with
  | nil =>
    intro acc
    refine ⟨rfl, fun ba => by simp, Finset.Subset.refl _, fun _ h => h, ?_⟩
    intro ba hba
    cases hba
  | cons b rest ih =>
    intro acc
    rw [List.foldl_cons]
    obtain ⟨m, hm⟩ := onDisconnectStep_fst now acc b
    obtain ⟨ih1, ih2, ih3, ih4, ih5⟩ := ih (onDisconnectStep now acc b)
    have hheap : (onDisconnectStep now acc b).1.heap = acc.1.heap := by rw [hm]
    have hconn : (onDisconnectStep now acc b).1.connectionsToTransfersMap =
        Function.update acc.1.connectionsToTransfersMap b none := by rw [hm]
    have hcan : (onDisconnectStep now acc b).1.cancelledTransfers =
        acc.1.cancelledTransfers ∪ ((acc.1.connectionsToTransfersMap b).getD []).toFinset := by
      rw [hm]
    have hidx : (onDisconnectStep now acc b).1.messageIdsToTransfersMap =
        eraseMessageIds acc.1.heap ((acc.1.connectionsToTransfersMap b).getD [])
          acc.1.messageIdsToTransfersMap := by rw [hm]
    refine ⟨by rw [ih1, hheap], ?_, ?_, ?_, ?_⟩
    · intro ba
      rw [ih2 ba, hconn]
      by_cases hr : ba ∈ rest
      · simp [hr]
      · by_cases hb : ba = b
        · subst hb; simp
        · simp [hr, hb, Function.update_noteq hb]
    · intro x hx
      apply ih3
      rw [hcan]
      exact Finset.mem_union_left _ hx
    · intro msgId h
      apply ih4
      rw [hidx]
      exact eraseMessageIds_none _ _ _ _ h
    · intro ba hba bucket hbucket tp htp
      by_cases hb : ba = b
      · subst hb
        constructor
        · apply ih3
          rw [hcan, hbucket]
          exact Finset.mem_union_right _ (by simpa using htp)
        · apply ih4
          rw [hidx, hbucket]
          exact eraseMessageIds_mem _ _ _ _ (by simpa using htp)
      · have hrest : ba ∈ rest := by
          rcases List.mem_cons.1 hba with h | h
          · exact absurd h hb
          · exact h
        have := ih5 ba hrest bucket (by rw [hconn, Function.update_noteq hb]; exact hbucket) tp htp
        rw [hheap] at this
        exact this

theorem mem_setInsert (x y : Nat) (l : List Nat) : y ∈ setInsert x l ↔ y = x ∨ y ∈ l := by
  induction l with
  | nil => simp [setInsert]
  | cons z zs ih =>
    unfold setInsert
    by_cases h1 : x < z
    · simp [h1]
    · by_cases h2 : x = z
      · subst h2; simp
      · simp only [h1, h2, if_false, List.mem_cons, ih]
        tauto

/-- C5: after `onDisconnect(nodeId, now)`, with `removed` the list returned by
`removeConnections(nodeId)`: no returned allocation has a bucket; every
generation that was in the bucket of a returned allocation is in the tombstone
set (a finite set, so once) and the id of its message has no index entry;
the bucket of every allocation that was not returned is unchanged.  In
particular, after a multi-fragment send that is not dropped, disconnecting the
receiver (when the allocation of the send is among those returned for the
receiver) leaves the new generation in the tombstone set and the message id
without index entry. -/
theorem onDisconnect_tombstones_buckets {σ : Type} (env : Collaborators σ) (s : Subnet σ)
    (nodeId : Nat) (now : Nat) :
    (∀ ba ∈ (env.removeConnections s.bandwidthManager nodeId).1,
      (onDisconnect env s nodeId now).1.connectionsToTransfersMap ba = none) ∧
    (∀ ba ∈ (env.removeConnections s.bandwidthManager nodeId).1,
      ∀ bucket, s.connectionsToTransfersMap ba = some bucket → ∀ tp ∈ bucket,
        tp ∈ (onDisconnect env s nodeId now).1.cancelledTransfers ∧
        (onDisconnect env s nodeId now).1.messageIdsToTransfersMap
          (s.heap tp).message.messageId = none) ∧
    (∀ ba, ba ∉ (env.removeConnections s.bandwidthManager nodeId).1 →
      (onDisconnect env s nodeId now).1.connectionsToTransfersMap ba =
        s.connectionsToTransfersMap ba) ∧
    (∀ (s0 : Subnet σ) (msg : NetworkMessage) (sendTick : Nat) (randomNum : ℚ),
      msg.sender ≠ msg.receiver →
      (msg.l4ProtocolType = L4ProtocolType.UDP → ¬ randomNum < env.getUDPErrorProbability msg) →
      msg.numFragments ≠ 1 →
      s = (send env s0 msg sendTick randomNum).1 →
      nodeId = msg.receiver →
      (env.addConnection s0.bandwidthManager msg.sender msg.receiver
          (maxBandwidthRequired env (send env s0 msg sendTick randomNum).2.1)).1
        ∈ (env.removeConnections s.bandwidthManager nodeId).1 →
      s.messageIdsToTransfersMap (send env s0 msg sendTick randomNum).2.1.messageId
        = some s0.nextPtr ∧
      s0.nextPtr ∈ (onDisconnect env s nodeId now).1.cancelledTransfers ∧
      (onDisconnect env s nodeId now).1.messageIdsToTransfersMap
        (send env s0 msg sendTick randomNum).2.1.messageId = none) := by
  have hloop := onDisconnect_loop now (env.removeConnections s.bandwidthManager nodeId).1
    ({ s with
        bandwidthManager := (env.removeConnections s.bandwidthManager nodeId).2
        bmCalls := s.bmCalls ++ [BMCall.removeConnections nodeId] }, [])
  obtain ⟨_, h2, _, _, h5⟩ := hloop
  have general : (∀ ba ∈ (env.removeConnections s.bandwidthManager nodeId).1,
      ∀ bucket, s.connectionsToTransfersMap ba = some bucket → ∀ tp ∈ bucket,
        tp ∈ (onDisconnect env s nodeId now).1.cancelledTransfers ∧
        (onDisconnect env s nodeId now).1.messageIdsToTransfersMap
          (s.heap tp).message.messageId = none) := by
    intro ba hba bucket hbucket tp htp
    exact h5 ba hba bucket hbucket tp htp
  refine ⟨?_, general, ?_, ?_⟩
  · intro ba hba
    have := h2 ba
    simp only [hba, if_true] at this
    exact this
  · intro ba hba
    have := h2 ba
    simp only [hba, if_false] at this
    exact this
  · intro s0 msg sendTick randomNum hself hkeep hmulti hs hnode hret
    have hsend := send_multi_fragment env s0 msg sendTick randomNum hself hkeep hmulti
    obtain ⟨m, hm⟩ := scheduleReallocation_fst (admitted env s0 msg sendTick) sendTick
    have hmsg : (send env s0 msg sendTick randomNum).2.1 = (setMessageId s0 msg).2.1 := by
      rw [hsend]
    have hid : (setMessageId s0 msg).2.1.messageId = (setMessageId s0 msg).1 := by
      rw [setMessageId_message]
    have hs1 : s = { admitted env s0 msg sendTick with nextRescheduleTime := m } := by
      rw [hs, hsend, hm]
    have hsconn : s.connectionsToTransfersMap
        (env.addConnection s0.bandwidthManager msg.sender msg.receiver
              (maxBandwidthRequired env (setMessageId s0 msg).2.1)).1 =
        some (setInsert s0.nextPtr ((s0.connectionsToTransfersMap
              (env.addConnection s0.bandwidthManager msg.sender msg.receiver
                (maxBandwidthRequired env (setMessageId s0 msg).2.1)).1).getD [])) := by
      rw [hs1]
      simp only [admitted, Function.update_same]
    have hsheap : (s.heap s0.nextPtr).message = (setMessageId s0 msg).2.1 := by
      rw [hs1]
      simp only [admitted, Function.update_same, TransferProgress.new]
    have hsidx : s.messageIdsToTransfersMap (setMessageId s0 msg).1 = some s0.nextPtr := by
      rw [hs1]
      simp only [admitted, Function.update_same]
    rw [hmsg] at hret ⊢
    have := general _ hret _ hsconn s0.nextPtr ((mem_setInsert _ _ _).2 (Or.inl rfl))
    rw [hsheap] at this
    rw [hid]
    exact ⟨hsidx, this.1, by rw [← hid]; exact this.2⟩

/-- C5 at a concrete input: the two-fragment send of `sentState` (generation 0,
message id 0, allocation 0), then the receiver, node 2, disconnects at
tick 1. -/
theorem onDisconnect_tombstones_buckets_witness :
    sentState.messageIdsToTransfersMap 0 = some 0 ∧
    0 ∈ (onDisconnect exampleEnv sentState 2 1).1.cancelledTransfers ∧
    (onDisconnect exampleEnv sentState 2 1).1.messageIdsToTransfersMap 0 = none ∧
    (onDisconnect exampleEnv sentState 2 1).1.connectionsToTransfersMap 0 = none :=
  ⟨((onDisconnect_tombstones_buckets exampleEnv sentState 2 1).2.2.2 freshSubnet
      (exampleMessage 2 L4ProtocolType.TCP) 0 0 (by decide) (by intro h; cases h) (by decide)
      rfl rfl (by decide)).1,
    ((onDisconnect_tombstones_buckets exampleEnv sentState 2 1).2.2.2 freshSubnet
      (exampleMessage 2 L4ProtocolType.TCP) 0 0 (by decide) (by intro h; cases h) (by decide)
      rfl rfl (by decide)).2.1,
    ((onDisconnect_tombstones_buckets exampleEnv sentState 2 1).2.2.2 freshSubnet
      (exampleMessage 2 L4ProtocolType.TCP) 0 0 (by decide) (by intro h; cases h) (by decide)
      rfl rfl (by decide)).2.2,
    (onDisconnect_tombstones_buckets exampleEnv sentState 2 1).1 0 (by decide)⟩


/-! ## C6: equal split with pool exhaustion -/

theorem setInsert_of_lt (x : Nat) (l : List Nat) (h : ∀ y ∈ l, y < x) :
    setInsert x l = l ++ [x] := by
  induction l with
  | nil => rfl
  | cons z zs ih =>
    have hz : z < x := h z (List.mem_cons_self _ _)
    have h1 : ¬ x < z := by omega
    have h2 : ¬ x = z := by omega
    unfold setInsert
    simp only [h1, h2, if_false, List.cons_append]
    rw [ih (fun y hy => h y (List.mem_cons_of_mem _ hy))]

theorem setInsert_range (p k : Nat) :
    setInsert (p + k) (List.range' p k) = List.range' p (k + 1) := by
  rw [setInsert_of_lt, List.range'_concat]
  · simp
  · intro y hy
    have := List.mem_range'_1.1 hy
    omega

/-- One iteration of the loop for a transfer that is not TCP: the share is the
pool divided by the counter, the new generation is stored at the next free
address with the share as the first number given to its constructor, and no
other address changes its rate, byte baseline or message. -/
theorem rescheduleStep_not_tcp {σ : Type} (env : Collaborators σ) (a b now : Nat)
    (st : RescheduleState σ) (tp : Nat)
    (h : (st.subnet.heap tp).message.l4ProtocolType ≠ L4ProtocolType.TCP) :
    (rescheduleStep env a b now st tp).remainingBandwidth =
      st.remainingBandwidth - st.remainingBandwidth / (st.remainingTransfers : ℚ) ∧
    (rescheduleStep env a b now st tp).remainingTransfers = st.remainingTransfers - 1 ∧
    (rescheduleStep env a b now st tp).subnet.nextPtr = st.subnet.nextPtr + 1 ∧
    (rescheduleStep env a b now st tp).updatedTransfers =
      setInsert st.subnet.nextPtr st.updatedTransfers ∧
    (rescheduleStep env a b now st tp).assignedBandwidth =
      st.assignedBandwidth ++ [st.remainingBandwidth / (st.remainingTransfers : ℚ)] ∧
    ((rescheduleStep env a b now st tp).subnet.heap st.subnet.nextPtr).firstNumber env.rateFirst =
      st.remainingBandwidth / (st.remainingTransfers : ℚ) ∧
    ((rescheduleStep env a b now st tp).subnet.heap st.subnet.nextPtr).message =
      (st.subnet.heap tp).message ∧
    (∀ q, q ≠ st.subnet.nextPtr →
      ((rescheduleStep env a b now st tp).subnet.heap q).firstNumber env.rateFirst =
        (st.subnet.heap q).firstNumber env.rateFirst ∧
      ((rescheduleStep env a b now st tp).subnet.heap q).message = (st.subnet.heap q).message) := by
  unfold rescheduleStep
  simp only [h, if_false, Subnet.alloc, Function.update_same]
  refine ⟨trivial, trivial, trivial, trivial, trivial, ?_, ?_, ?_⟩
  · split
    · by_cases hq : st.subnet.nextPtr = tp
      · subst hq
        cases hr : env.rateFirst <;>
          simp [TransferProgress.new, TransferProgress.firstNumber, hr]
      · cases hr : env.rateFirst <;>
          simp [Function.update_noteq hq, TransferProgress.new, TransferProgress.firstNumber, hr]
    · cases hr : env.rateFirst <;>
        simp [TransferProgress.new, TransferProgress.firstNumber, hr]
  · split
    · by_cases hq : st.subnet.nextPtr = tp
      · subst hq; simp [TransferProgress.new]
      · simp [Function.update_noteq hq, TransferProgress.new]
    · simp [TransferProgress.new]
  · intro q hq
    split
    · by_cases hqt : q = tp
      · subst hqt
        simp [Function.update_noteq hq, TransferProgress.firstNumber]
      · simp [Function.update_noteq hq, Function.update_noteq hqt]
    · simp [Function.update_noteq hq]

/-- The loop over transfers none of which is TCP, entered with pool
`c * length` and counter `length`: every iteration assigns the share `c`,
stores it in the new generation, and the pool ends at 0. -/
theorem rescheduleLoop_equal_split {σ : Type} (env : Collaborators σ) (a b now : Nat)
    (c : ℚ) (p : Nat) (transfers : List Nat) :
    ∀ (st : RescheduleState σ) (k : Nat),
      (∀ tp ∈ transfers, (st.subnet.heap tp).message.l4ProtocolType ≠ L4ProtocolType.TCP) →
      st.remainingTransfers = (transfers.length : Int) →
      st.remainingBandwidth = c * (transfers.length : ℚ) →
      st.updatedTransfers = List.range' p k →
      st.assignedBandwidth = List.replicate k c →
      st.subnet.nextPtr = p + k →
      (∀ j, j < k → (st.subnet.heap (p + j)).firstNumber env.rateFirst = c) →
      (rescheduleLoop env a b now transfers st).remainingBandwidth = 0 ∧
      (rescheduleLoop env a b now transfers st).updatedTransfers =
        List.range' p (k + transfers.length) ∧
      (rescheduleLoop env a b now transfers st).assignedBandwidth =
        List.replicate (k + transfers.length) c ∧
      (∀ j, j < k + transfers.length →
        ((rescheduleLoop env a b now transfers st).subnet.heap (p + j)).firstNumber
          env.rateFirst = c) := by
  induction transfers with
  | nil =>
    intro st k _ _ hrb hup has _ hbw
    refine ⟨by simpa [rescheduleLoop] using hrb, by simpa [rescheduleLoop] using hup,
      by simpa [rescheduleLoop] using has, ?_⟩
    intro j hj
    exact hbw j (by simpa using hj)
  | cons t rest ih =>
    intro st k hudp hrt hrb hup has hnext hbw
    obtain ⟨s1, s2, s3, s4, s4', s5, s6, s7⟩ := rescheduleStep_not_tcp env a b now st t
      (hudp t (List.mem_cons_self _ _))
    have hlen : ((rest.length : ℚ) + 1) ≠ 0 := by positivity
    simp only [List.length_cons, Nat.cast_add, Nat.cast_one] at hrt hrb
    have hshare : st.remainingBandwidth / (st.remainingTransfers : ℚ) = c := by
      rw [hrb, hrt]
      push_cast
      field_simp
    have key := ih (rescheduleStep env a b now st t) (k + 1)
      (by
        intro tp htp
        by_cases hq : tp = st.subnet.nextPtr
        · rw [hq, s6]; exact hudp t (List.mem_cons_self _ _)
        · rw [(s7 tp hq).2]; exact hudp tp (List.mem_cons_of_mem _ htp))
      (by rw [s2, hrt]; ring)
      (by rw [s1, hshare, hrb]; ring)
      (by rw [s4, hup, hnext]; exact setInsert_range p k)
      (by rw [s4', has, hshare, List.replicate_succ']  )
      (by rw [s3, hnext]; ring)
      (by
        intro j hj
        by_cases hjk : j = k
        · rw [hjk, ← hnext, s5, hshare]
        · rw [(s7 (p + j) (by rw [hnext]; omega)).1]
          exact hbw j (by omega))
    have hfold : rescheduleLoop env a b now (t :: rest) st =
        rescheduleLoop env a b now rest (rescheduleStep env a b now st t) := rfl
    rw [hfold]
    have hl : k + (t :: rest).length = k + 1 + rest.length := by
      rw [List.length_cons]; omega
    rw [hl]
    exact key

/-- C6: for an allocation with granted rate `B` whose bucket holds `n ≥ 1`
generations none of which is TCP, the loop of `rescheduleTransfers` assigns
the share `B / n` in every one of its `n` iterations and ends with the
remaining-capacity pool at exactly 0; the new bucket consists of the `n`
generations created by the call (addresses `nextPtr`, ..., `nextPtr + n - 1`),
and each of them holds `B / n` as the first number given to its constructor
(its rate when the constructor takes the rate first). -/
theorem rescheduleTransfers_equal_split {σ : Type} (env : Collaborators σ) (s : Subnet σ)
    (ba now : Nat) (bucket : List Nat)
    (hbucket : s.connectionsToTransfersMap ba = some bucket)
    (hn : 1 ≤ bucket.length)
    (hudp : ∀ tp ∈ bucket, (s.heap tp).message.l4ProtocolType ≠ L4ProtocolType.TCP) :
    (rescheduleExit env s ba now).assignedBandwidth =
      List.replicate bucket.length
        (env.getAllocatedBandwidth s.bandwidthManager ba / (bucket.length : ℚ)) ∧
    (rescheduleExit env s ba now).remainingBandwidth = 0 ∧
    (rescheduleTransfers env s ba now).1.connectionsToTransfersMap ba =
      some (List.range' s.nextPtr bucket.length) ∧
    (∀ g ∈ List.range' s.nextPtr bucket.length,
      ((rescheduleTransfers env s ba now).1.heap g).firstNumber env.rateFirst =
        env.getAllocatedBandwidth s.bandwidthManager ba / (bucket.length : ℚ)) := by
  have hne : bucket ≠ [] := by
    intro h; rw [h] at hn; simp at hn
  have hlen : (bucket.length : ℚ) ≠ 0 := by
    have : 0 < bucket.length := hn
    positivity
  have hget : (s.connectionsToTransfersMap ba).getD [] = bucket := by rw [hbucket]; rfl
  have key := rescheduleLoop_equal_split env (env.getSender s.bandwidthManager ba)
    (env.getReceiver s.bandwidthManager ba) now
    (env.getAllocatedBandwidth s.bandwidthManager ba / (bucket.length : ℚ)) s.nextPtr bucket
    (rescheduleEntry env s ba) 0
    (by intro tp htp; exact hudp tp htp)
    (by simp [rescheduleEntry, hget])
    (by simp only [rescheduleEntry]; field_simp)
    (by simp [rescheduleEntry])
    (by simp [rescheduleEntry])
    (by simp [rescheduleEntry])
    (by intro j hj; omega)
  have hexit : rescheduleExit env s ba now =
      rescheduleLoop env (env.getSender s.bandwidthManager ba)
        (env.getReceiver s.bandwidthManager ba) now bucket (rescheduleEntry env s ba) := by
    unfold rescheduleExit; rw [hget]
  rw [← hexit] at key
  obtain ⟨k1, k2, k2', k3⟩ := key
  have hres : rescheduleTransfers env s ba now =
      ({ (rescheduleExit env s ba now).subnet with
          connectionsToTransfersMap :=
            Function.update (rescheduleExit env s ba now).subnet.connectionsToTransfersMap ba
              (some (rescheduleExit env s ba now).updatedTransfers) },
        (rescheduleExit env s ba now).newEvents) := by
    unfold rescheduleTransfers
    simp only [hget, hne, if_false]
  refine ⟨by rw [k2', Nat.zero_add], k1, ?_, ?_⟩
  · rw [hres]
    simp only [Function.update_same, k2, Nat.zero_add]
  · intro g hg
    rw [hres]
    have hg' := List.mem_range'_1.1 hg
    have := k3 (g - s.nextPtr) (by omega)
    rw [show s.nextPtr + (g - s.nextPtr) = g by omega] at this
    exact this

/-- C6 at the input of the spec: `B = 300`, transfers `A` (1000 bytes remaining)
and `B` (500 bytes remaining); the shares are 150 and 150, the pool ends at 0,
and the two new generations, at addresses 2 and 3, have rate 150. -/
theorem rescheduleTransfers_equal_split_witness :
    splitState.connectionsToTransfersMap 0 = some [0, 1] ∧
    (splitState.heap 0).getRemainingBytes 1 = 1000 ∧
    (splitState.heap 1).getRemainingBytes 1 = 500 ∧
    exampleEnv.getAllocatedBandwidth splitState.bandwidthManager 0 = 300 ∧
    (rescheduleExit exampleEnv splitState 0 1).assignedBandwidth = [150, 150] ∧
    (rescheduleExit exampleEnv splitState 0 1).remainingBandwidth = 0 ∧
    (rescheduleTransfers exampleEnv splitState 0 1).1.connectionsToTransfersMap 0 = some [2, 3] ∧
    ((rescheduleTransfers exampleEnv splitState 0 1).1.heap 2).bandwidth = 150 ∧
    ((rescheduleTransfers exampleEnv splitState 0 1).1.heap 3).bandwidth = 150 := by
  have h := rescheduleTransfers_equal_split exampleEnv splitState 0 1 [0, 1] rfl (by decide)
    (by intro tp htp; fin_cases htp <;> decide)
  have hB : exampleEnv.getAllocatedBandwidth splitState.bandwidthManager 0 / (([0, 1] : List Nat).length : ℚ)
      = 150 := by
    norm_num [exampleEnv]
  rw [hB] at h
  refine ⟨rfl, ?_, ?_, rfl, h.1, h.2.1, h.2.2.1, h.2.2.2 2 (by decide), h.2.2.2 3 (by decide)⟩
  · norm_num [splitState, TransferProgress.getRemainingBytes]
  · norm_num [splitState, TransferProgress.getRemainingBytes]

/-! ## C7: delay of a single-fragment send -/

/-- The single-fragment branch of `send`, for a message that is not dropped. -/
theorem send_single_fragment {σ : Type} (env : Collaborators σ) (s : Subnet σ)
    (msg : NetworkMessage) (now : Nat) (randomNum : ℚ)
    (hself : msg.sender ≠ msg.receiver)
    (hkeep : msg.l4ProtocolType = L4ProtocolType.UDP →
      ¬ randomNum < env.getUDPErrorProbability msg)
    (hsingle : msg.numFragments = 1) :
    send env s msg now randomNum =
      ({ (setMessageId s msg).2.2 with
          nextFreeSendingTime := Function.update s.nextFreeSendingTime msg.sender
            (wrapU64 (max now (s.nextFreeSendingTime msg.sender) +
              env.getTransmissionDelay (msg.size : ℚ)
                (min (env.getUpBW msg.sender) (env.getDownBW msg.receiver))))
          heap := Function.update s.heap s.nextPtr
            (TransferProgress.new env.rateFirst (setMessageId s msg).2.1 0 (SIZE_MAX : ℚ) now)
          nextPtr := s.nextPtr + 1 },
       (setMessageId s msg).2.1,
       [⟨SubnetMessage.MESSAGE_RECVD s.nextPtr,
         wrapU64 ((if wrapU64 (max now (s.nextFreeSendingTime msg.sender) +
              env.getTransmissionDelay (msg.size : ℚ)
                (min (env.getUpBW msg.sender) (env.getDownBW msg.receiver))) > now
            then wrapU64 (max now (s.nextFreeSendingTime msg.sender) +
              env.getTransmissionDelay (msg.size : ℚ)
                (min (env.getUpBW msg.sender) (env.getDownBW msg.receiver))) - now
            else 0)
          + env.getTransmissionDelay (msg.size : ℚ)
                (min (env.getUpBW msg.sender) (env.getDownBW msg.receiver))
          + env.getPropagationDelay msg.sender msg.receiver)⟩]) := by
  have hdrop : ¬ (msg.l4ProtocolType = L4ProtocolType.UDP ∧
      shouldDropMsg env msg randomNum = true) := by
    rintro ⟨hu, hd⟩
    exact hkeep hu ((shouldDropMsg_eq_true env msg randomNum).1 hd)
  obtain ⟨n, hn⟩ := setMessageId_state s msg
  have hfr : (setMessageId s msg).2.1.numFragments = 1 := by
    rw [setMessageId_message]; exact hsingle
  unfold send
  simp only [hself, if_false, hdrop, hfr, if_true, Subnet.alloc, Function.update_same]
  rw [hn, setMessageId_message]

/-- C7: on a freshly constructed `Subnet`, the send at tick 0 of a
single-fragment message of 1000 bytes from node 1 to node 2 (transmission
delay 5 at rate 200, propagation delay 3, previous commitment 0) sets the
commitment to 5 and produces one delivery event with delay 13, that is
`(commitment - now) + transmissionDelay + propagationDelay`, not
`(commitment - now) + propagationDelay = 8`. -/
theorem send_single_fragment_delay_counts_transmission_twice :
    exampleEnv.getTransmissionDelay ((exampleMessage 1 L4ProtocolType.TCP).size : ℚ)
      (min (exampleEnv.getUpBW 1) (exampleEnv.getDownBW 2)) = 5 ∧
    exampleEnv.getPropagationDelay 1 2 = 3 ∧
    freshSubnet.nextFreeSendingTime 1 = 0 ∧
    (send exampleEnv freshSubnet (exampleMessage 1 L4ProtocolType.TCP) 0 0).1.nextFreeSendingTime 1
      = 5 ∧
    (send exampleEnv freshSubnet (exampleMessage 1 L4ProtocolType.TCP) 0 0).2.2
      = [⟨SubnetMessage.MESSAGE_RECVD 0, 13⟩] ∧
    (13 : Nat) ≠ (5 - 0) + 3 := by
  have htt : exampleEnv.getTransmissionDelay ((exampleMessage 1 L4ProtocolType.TCP).size : ℚ)
      (min (exampleEnv.getUpBW 1) (exampleEnv.getDownBW 2)) = 5 := by
    norm_num [exampleEnv, exampleMessage]
  have hs := send_single_fragment exampleEnv freshSubnet (exampleMessage 1 L4ProtocolType.TCP) 0 0
    (by decide) (by intro h; cases h) rfl
  have e1 : (exampleMessage 1 L4ProtocolType.TCP).sender = 1 := rfl
  have e2 : (exampleMessage 1 L4ProtocolType.TCP).receiver = 2 := rfl
  rw [e1, e2, htt] at hs
  refine ⟨htt, rfl, rfl, ?_, ?_, by decide⟩
  · rw [hs]; rfl
  · rw [hs]; rfl

/-! ## C8: send commitment of a single-fragment send -/

/-- C8, as stated, fails where the tick arithmetic wraps: at tick `2 ^ 64 - 1`
with previous commitment 0 and transmission delay 5, the new commitment is 4,
which is neither `max(now, previous) + 5` nor at least `now`. -/
theorem single_fragment_commitment_overflow :
    freshSubnet.nextFreeSendingTime 1 = 0 ∧
    exampleEnv.getTransmissionDelay ((exampleMessage 1 L4ProtocolType.TCP).size : ℚ)
      (min (exampleEnv.getUpBW 1) (exampleEnv.getDownBW 2)) = 5 ∧
    (send exampleEnv freshSubnet (exampleMessage 1 L4ProtocolType.TCP) (2 ^ 64 - 1) 0).1.nextFreeSendingTime 1
      = 4 ∧
    (4 : Nat) ≠ max (2 ^ 64 - 1) 0 + 5 ∧
    ¬ (2 ^ 64 - 1 ≤ (send exampleEnv freshSubnet (exampleMessage 1 L4ProtocolType.TCP)
        (2 ^ 64 - 1) 0).1.nextFreeSendingTime 1) := by
  have htt : exampleEnv.getTransmissionDelay ((exampleMessage 1 L4ProtocolType.TCP).size : ℚ)
      (min (exampleEnv.getUpBW 1) (exampleEnv.getDownBW 2)) = 5 := by
    norm_num [exampleEnv, exampleMessage]
  have hs := send_single_fragment exampleEnv freshSubnet (exampleMessage 1 L4ProtocolType.TCP)
    (2 ^ 64 - 1) 0 (by decide) (by intro h; cases h) rfl
  have e1 : (exampleMessage 1 L4ProtocolType.TCP).sender = 1 := rfl
  have e2 : (exampleMessage 1 L4ProtocolType.TCP).receiver = 2 := rfl
  rw [e1, e2, htt] at hs
  have hval : (send exampleEnv freshSubnet (exampleMessage 1 L4ProtocolType.TCP)
      (2 ^ 64 - 1) 0).1.nextFreeSendingTime 1 = 4 := by
    rw [hs]; rfl
  refine ⟨rfl, htt, hval, by decide, ?_⟩
  rw [hval]
  decide

/-- C8, amended: for a single-fragment message that is not dropped, when
`max(now, previous commitment) + transmissionDelay` fits in a `uint64_t`, the
sender's commitment after `send` equals that sum, is at least the previous
commitment and at least `now`, and `send` leaves the buckets, the message-id
index, the tombstone set and the debounce marker unchanged. -/
theorem send_single_fragment_commitment {σ : Type} (env : Collaborators σ) (s : Subnet σ)
    (msg : NetworkMessage) (now : Nat) (randomNum : ℚ)
    (hself : msg.sender ≠ msg.receiver)
    (hkeep : msg.l4ProtocolType = L4ProtocolType.UDP →
      ¬ randomNum < env.getUDPErrorProbability msg)
    (hsingle : msg.numFragments = 1)
    (hfit : max now (s.nextFreeSendingTime msg.sender) +
      env.getTransmissionDelay (msg.size : ℚ)
        (min (env.getUpBW msg.sender) (env.getDownBW msg.receiver)) < 2 ^ 64) :
    (send env s msg now randomNum).1.nextFreeSendingTime msg.sender =
      max now (s.nextFreeSendingTime msg.sender) +
        env.getTransmissionDelay (msg.size : ℚ)
          (min (env.getUpBW msg.sender) (env.getDownBW msg.receiver)) ∧
    s.nextFreeSendingTime msg.sender ≤
      (send env s msg now randomNum).1.nextFreeSendingTime msg.sender ∧
    now ≤ (send env s msg now randomNum).1.nextFreeSendingTime msg.sender ∧
    (send env s msg now randomNum).1.connectionsToTransfersMap = s.connectionsToTransfersMap ∧
    (send env s msg now randomNum).1.messageIdsToTransfersMap = s.messageIdsToTransfersMap ∧
    (send env s msg now randomNum).1.cancelledTransfers = s.cancelledTransfers ∧
    (send env s msg now randomNum).1.nextRescheduleTime = s.nextRescheduleTime := by
  obtain ⟨n, hn⟩ := setMessageId_state s msg
  have hw : wrapU64 (max now (s.nextFreeSendingTime msg.sender) +
      env.getTransmissionDelay (msg.size : ℚ)
        (min (env.getUpBW msg.sender) (env.getDownBW msg.receiver))) =
      max now (s.nextFreeSendingTime msg.sender) +
      env.getTransmissionDelay (msg.size : ℚ)
        (min (env.getUpBW msg.sender) (env.getDownBW msg.receiver)) :=
    Nat.mod_eq_of_lt hfit
  rw [send_single_fragment env s msg now randomNum hself hkeep hsingle, hn, hw]
  simp only [Function.update_same]
  have h1 : s.nextFreeSendingTime msg.sender ≤ max now (s.nextFreeSendingTime msg.sender) :=
    le_max_right _ _
  have h2 : now ≤ max now (s.nextFreeSendingTime msg.sender) := le_max_left _ _
  exact ⟨trivial, by omega, by omega, trivial, trivial, trivial, trivial⟩

/-- C8 (amended) at a concrete input: tick 0, previous commitment 0,
transmission delay 5. -/
theorem send_single_fragment_commitment_witness :
    (send exampleEnv freshSubnet (exampleMessage 1 L4ProtocolType.TCP) 0 0).1.nextFreeSendingTime
        (exampleMessage 1 L4ProtocolType.TCP).sender =
      max 0 (freshSubnet.nextFreeSendingTime (exampleMessage 1 L4ProtocolType.TCP).sender) +
        exampleEnv.getTransmissionDelay ((exampleMessage 1 L4ProtocolType.TCP).size : ℚ)
          (min (exampleEnv.getUpBW (exampleMessage 1 L4ProtocolType.TCP).sender)
            (exampleEnv.getDownBW (exampleMessage 1 L4ProtocolType.TCP).receiver)) :=
  (send_single_fragment_commitment exampleEnv freshSubnet (exampleMessage 1 L4ProtocolType.TCP)
    0 0 (by decide) (by intro h; cases h) rfl
    (by
      have htt : exampleEnv.getTransmissionDelay ((exampleMessage 1 L4ProtocolType.TCP).size : ℚ)
          (min (exampleEnv.getUpBW (exampleMessage 1 L4ProtocolType.TCP).sender)
            (exampleEnv.getDownBW (exampleMessage 1 L4ProtocolType.TCP).receiver)) = 5 := by
        norm_num [exampleEnv, exampleMessage]
      rw [htt]
      decide)).1

/-! ## C9: debounce -/

/-- The debounce block either does nothing, or the marker was below `now + 1`,
is `now + 1` afterwards, and exactly one reallocation event with delay 1 was
pushed.  Nothing but the marker changes. -/
theorem scheduleReallocation_cases {σ : Type} (s : Subnet σ) (now : Nat) (hnow : now < 2 ^ 64) :
    (scheduleReallocation s now = (s, [])) ∨
    (s.nextRescheduleTime < now + 1 ∧
      scheduleReallocation s now =
        ({ s with nextRescheduleTime := now + 1 }, [⟨SubnetMessage.BANDWIDTH_REALLOC, 1⟩])) := by
  unfold scheduleReallocation
  by_cases h : s.nextRescheduleTime < wrapU64 (now + 1)
  · right
    have hw : wrapU64 (now + 1) = now + 1 := by
      unfold wrapU64 at h ⊢
      by_cases hlt : now + 1 < 2 ^ 64
      · exact Nat.mod_eq_of_lt hlt
      · have : now + 1 = 2 ^ 64 := by omega
        rw [this, Nat.mod_self] at h
        omega
    rw [if_pos h, hw]
    rw [hw] at h
    exact ⟨h, rfl⟩
  · left
    rw [if_neg h]

theorem scheduleReallocation_debounce {σ : Type} (s0 s : Subnet σ) (now : Nat)
    (hnow : now < 2 ^ 64) (hm : s.nextRescheduleTime = s0.nextRescheduleTime) :
    DebounceStep s0 (scheduleReallocation s now).1 now (scheduleReallocation s now).2 := by
  rcases scheduleReallocation_cases s now hnow with h | ⟨hlt, h⟩
  · rw [h]; left; exact ⟨rfl, hm⟩
  · rw [h]; right; exact ⟨rfl, by rw [← hm]; exact hlt, rfl⟩

theorem onDisconnectStep_debounce {σ : Type} (now : Nat) (hnow : now < 2 ^ 64)
    (acc : Subnet σ × List MessageToNodeEvent) (b : Nat) :
    ((onDisconnectStep now acc b).2 = acc.2 ∧
      (onDisconnectStep now acc b).1.nextRescheduleTime = acc.1.nextRescheduleTime) ∨
    ((onDisconnectStep now acc b).2 = acc.2 ++ [⟨SubnetMessage.BANDWIDTH_REALLOC, 1⟩] ∧
      acc.1.nextRescheduleTime < now + 1 ∧
      (onDisconnectStep now acc b).1.nextRescheduleTime = now + 1) := by
  unfold onDisconnectStep
  rcases scheduleReallocation_cases
    { acc.1 with
      connectionsToTransfersMap := Function.update acc.1.connectionsToTransfersMap b none
      cancelledTransfers :=
        acc.1.cancelledTransfers ∪ ((acc.1.connectionsToTransfersMap b).getD []).toFinset
      messageIdsToTransfersMap := eraseMessageIds acc.1.heap
        ((acc.1.connectionsToTransfersMap b).getD []) acc.1.messageIdsToTransfersMap }
    now hnow with h | ⟨hlt, h⟩
  · left
    simp only [h, List.append_nil]
    exact ⟨trivial, trivial⟩
  · right
    simp only [h]
    exact ⟨trivial, hlt, trivial⟩

theorem onDisconnect_loop_debounce {σ : Type} (now : Nat) (hnow : now < 2 ^ 64)
    (removed : List Nat) :
    ∀ acc : Subnet σ × List MessageToNodeEvent,
      ((removed.foldl (onDisconnectStep now) acc).2.filter isReallocation =
          acc.2.filter isReallocation ∧
        (removed.foldl (onDisconnectStep now) acc).1.nextRescheduleTime =
          acc.1.nextRescheduleTime) ∨
      ((removed.foldl (onDisconnectStep now) acc).2.filter isReallocation =
          acc.2.filter isReallocation ++ [⟨SubnetMessage.BANDWIDTH_REALLOC, 1⟩] ∧
        acc.1.nextRescheduleTime < now + 1 ∧
        (removed.foldl (onDisconnectStep now) acc).1.nextRescheduleTime = now + 1) := by
  induction removed with
  | nil => intro acc; left; exact ⟨rfl, rfl⟩
  | cons b rest ih =>
    intro acc
    rw [List.foldl_cons]
    rcases onDisconnectStep_debounce now hnow acc b with ⟨he, hmk⟩ | ⟨he, hlt, hmk⟩
    · rcases ih (onDisconnectStep now acc b) with ⟨h1, h2⟩ | ⟨h1, h2, h3⟩
      · left
        rw [h1, he]
        exact ⟨rfl, by rw [h2, hmk]⟩
      · right
        rw [h1, he]
        exact ⟨rfl, by rw [← hmk]; exact h2, h3⟩
    · rcases ih (onDisconnectStep now acc b) with ⟨h1, h2⟩ | ⟨h1, h2, h3⟩
      · right
        refine ⟨?_, hlt, ?_⟩
        · rw [h1, he]
          simp [isReallocation]
        · rw [h2, hmk]
      · omega

/-- Every call satisfies `DebounceStep`. -/
theorem step_debounce {σ : Type} (env : Collaborators σ) (s : Subnet σ) (now : Nat) (c : Call)
    (hnow : now < 2 ^ 64) (s1 : Subnet σ) (evs : List MessageToNodeEvent)
    (hstep : step env s now c = Except.ok (s1, evs)) : DebounceStep s s1 now evs := by
  cases c with
  | send msg randomNum =>
    simp only [step, Except.ok.injEq, Prod.mk.injEq] at hstep
    obtain ⟨h1, h2⟩ := hstep
    subst h1; subst h2
    by_cases hself : msg.sender = msg.receiver
    · have := send_dropped_noop_eq env s msg now randomNum (Or.inl hself)
      rw [this]; left; exact ⟨rfl, rfl⟩
    · by_cases hdrop : msg.l4ProtocolType = L4ProtocolType.UDP ∧
          randomNum < env.getUDPErrorProbability msg
      · have := send_dropped_noop_eq env s msg now randomNum (Or.inr hdrop)
        rw [this]; left; exact ⟨rfl, rfl⟩
      · have hkeep : msg.l4ProtocolType = L4ProtocolType.UDP →
            ¬ randomNum < env.getUDPErrorProbability msg := fun hu hr => hdrop ⟨hu, hr⟩
        obtain ⟨n, hn⟩ := setMessageId_state s msg
        by_cases hfr : msg.numFragments = 1
        · rw [send_single_fragment env s msg now randomNum hself hkeep hfr, hn]
          left
          exact ⟨rfl, rfl⟩
        · rw [send_multi_fragment env s msg now randomNum hself hkeep hfr]
          exact scheduleReallocation_debounce s _ now hnow (by simp only [admitted, hn])
  | cancelTransmission msgId =>
    simp only [step, cancelTransmission] at hstep
    split at hstep
    · cases hstep
    · simp only [Except.ok.injEq] at hstep
      have h1 := congrArg Prod.fst hstep
      have h2 := congrArg Prod.snd hstep
      simp only at h1 h2
      rw [← h1, ← h2]
      exact scheduleReallocation_debounce s _ now hnow rfl
  | onDisconnect nodeId =>
    simp only [step, Except.ok.injEq] at hstep
    have h1 := congrArg Prod.fst hstep
    have h2 := congrArg Prod.snd hstep
    simp only at h1 h2
    rw [← h1, ← h2]
    unfold onDisconnect
    rcases onDisconnect_loop_debounce now hnow (env.removeConnections s.bandwidthManager nodeId).1
      ({ s with
          bandwidthManager := (env.removeConnections s.bandwidthManager nodeId).2
          bmCalls := s.bmCalls ++ [BMCall.removeConnections nodeId] }, []) with ⟨e1, e2⟩ | ⟨e1, e2, e3⟩
    · left; exact ⟨e1, e2⟩
    · right; exact ⟨e1, e2, e3⟩
  | onMessageReceived tp =>
    simp only [step, Except.ok.injEq] at hstep
    have h1 := congrArg Prod.fst hstep
    have h2 := congrArg Prod.snd hstep
    simp only at h1 h2
    rw [← h1, ← h2]
    unfold onMessageReceived
    by_cases hfr : (s.heap tp).message.numFragments = 1
    · simp only [hfr, if_true]
      left; exact ⟨rfl, rfl⟩
    · by_cases hst : (s.heap tp).obsolete = true ∨ tp ∈ s.cancelledTransfers
      · simp only [hfr, if_false, hst, if_true]
        left; exact ⟨rfl, rfl⟩
      · simp only [hfr, if_false, hst]
        rcases scheduleReallocation_cases { s with delivered := s.delivered ++ [tp] } now hnow
          with h | ⟨hlt, h⟩
        · left
          rw [h]
          refine ⟨rfl, ?_⟩
          split <;> [skip; split] <;> rfl
        · right
          rw [h]
          refine ⟨rfl, hlt, ?_⟩
          split <;> [skip; split] <;> rfl

theorem reallocationTargets_append (t1 t2 : List (Nat × MessageToNodeEvent)) :
    reallocationTargets (t1 ++ t2) = reallocationTargets t1 ++ reallocationTargets t2 := by
  simp [reallocationTargets]

theorem reallocationTargets_tag (now : Nat) (evs : List MessageToNodeEvent) :
    reallocationTargets (evs.map (fun e => (now, e))) =
      (evs.filter isReallocation).map (fun e => now + e.ticksBeforeReception) := by
  induction evs with
  | nil => rfl
  | cons e rest ih =>
    simp only [reallocationTargets] at ih ⊢
    by_cases he : isReallocation e = true
    · simp [List.filter_cons, he, ih]
    · simp [List.filter_cons, he, ih]

/-- The reallocation events of a run fire at strictly increasing ticks, all
above the marker of the starting state. -/
theorem runEvents_targets {σ : Type} (env : Collaborators σ) (calls : List (Nat × Call)) :
    ∀ s : Subnet σ, (∀ c ∈ calls, c.1 < 2 ^ 64) →
      (reallocationTargets (runEvents env s calls)).Pairwise (fun x y => x < y) ∧
      ∀ x ∈ reallocationTargets (runEvents env s calls), s.nextRescheduleTime < x := by
  induction calls with
  | nil =>
    intro s _
    simp [runEvents, reallocationTargets]
  | cons c rest ih =>
    intro s hticks
    obtain ⟨now, call⟩ := c
    have hnow : now < 2 ^ 64 := hticks (now, call) (List.mem_cons_self _ _)
    have hrest : ∀ c ∈ rest, c.1 < 2 ^ 64 := fun c hc => hticks c (List.mem_cons_of_mem _ hc)
    unfold runEvents
    cases hstep : step env s now call with
    | error f => simp [reallocationTargets]
    | ok r =>
      obtain ⟨s1, evs⟩ := r
      simp only
      rw [reallocationTargets_append, reallocationTargets_tag]
      obtain ⟨ih1, ih2⟩ := ih s1 hrest
      rcases step_debounce env s now call hnow s1 evs hstep with ⟨h1, h2⟩ | ⟨h1, h2, h3⟩
      · rw [h1]
        simp only [List.map_nil, List.nil_append]
        refine ⟨ih1, ?_⟩
        intro x hx
        have := ih2 x hx
        omega
      · rw [h1]
        simp only [List.map_cons, List.map_nil, List.singleton_append]
        refine ⟨List.pairwise_cons.2 ⟨?_, ih1⟩, ?_⟩
        · intro x hx
          have := ih2 x hx
          omega
        · intro x hx
          rcases List.mem_cons.1 hx with rfl | hx
          · exact h2
          · have := ih2 x hx
            omega

theorem mem_runEvents_reallocation {σ : Type} (env : Collaborators σ)
    (calls : List (Nat × Call)) :
    ∀ s : Subnet σ, (∀ c ∈ calls, c.1 < 2 ^ 64) →
      ∀ e ∈ runEvents env s calls, isReallocation e.2 = true →
        e.2 = ⟨SubnetMessage.BANDWIDTH_REALLOC, 1⟩ := by
  induction calls with
  | nil => intro s _ e he; simp [runEvents] at he
  | cons c rest ih =>
    intro s hticks e he hre
    obtain ⟨now, call⟩ := c
    have hnow : now < 2 ^ 64 := hticks (now, call) (List.mem_cons_self _ _)
    have hrest : ∀ c ∈ rest, c.1 < 2 ^ 64 := fun c hc => hticks c (List.mem_cons_of_mem _ hc)
    unfold runEvents at he
    cases hstep : step env s now call with
    | error f => rw [hstep] at he; simp at he
    | ok r =>
      obtain ⟨s1, evs⟩ := r
      rw [hstep] at he
      simp only [List.mem_append, List.mem_map] at he
      rcases he with ⟨e0, he0, rfl⟩ | he
      · have hmem : e0 ∈ evs.filter isReallocation := List.mem_filter.2 ⟨he0, hre⟩
        rcases step_debounce env s now call hnow s1 evs hstep with ⟨h1, _⟩ | ⟨h1, _, _⟩
        · rw [h1] at hmem; cases hmem
        · rw [h1] at hmem
          simpa using hmem
      · exact ih s1 hrest e he hre

/-- C9: for every starting state and every sequence of `send`,
`cancelTransmission`, `onDisconnect` and `onMessageReceived` calls at ticks
that are `uint64_t` values (nondecreasing or not): every reallocation event of
the run has delay 1; no two of them fire at the same tick; and after each
call that produces a reallocation event the debounce marker equals
`now + 1`. -/
theorem debounce_one_reallocation_per_tick {σ : Type} (env : Collaborators σ) (s : Subnet σ)
    (calls : List (Nat × Call)) (hticks : ∀ c ∈ calls, c.1 < 2 ^ 64) :
    (∀ e ∈ runEvents env s calls, e.2.message = SubnetMessage.BANDWIDTH_REALLOC →
      e.2.ticksBeforeReception = 1) ∧
    (reallocationTargets (runEvents env s calls)).Nodup ∧
    (∀ (t t1 : Subnet σ) (now : Nat) (c : Call) (evs : List MessageToNodeEvent),
      now < 2 ^ 64 → step env t now c = Except.ok (t1, evs) →
      (∃ e ∈ evs, e.message = SubnetMessage.BANDWIDTH_REALLOC) →
      t1.nextRescheduleTime = now + 1) := by
  refine ⟨?_, ?_, ?_⟩
  · intro e he hmsg
    have hre : isReallocation e.2 = true := by
      unfold isReallocation; rw [hmsg]
    rw [mem_runEvents_reallocation env calls s hticks e he hre]
  · have h := (runEvents_targets env calls s hticks).1
    exact h.imp (fun hxy => Nat.ne_of_lt hxy)
  · intro t t1 now c evs hnow hstep ⟨e, he, hmsg⟩
    have hmem : e ∈ evs.filter isReallocation :=
      List.mem_filter.2 ⟨he, by unfold isReallocation; rw [hmsg]⟩
    rcases step_debounce env t now c hnow t1 evs hstep with ⟨h1, _⟩ | ⟨_, _, h3⟩
    · rw [h1] at hmem; cases hmem
    · exact h3

/-- C9 at a concrete run: two multi-fragment sends at tick 5 from a state whose
marker is 0; the run contains exactly one reallocation event, firing at
tick 6. -/
theorem debounce_one_reallocation_per_tick_witness :
    (∀ c ∈ [(5, Call.send (exampleMessage 2 L4ProtocolType.TCP) 0),
        (5, Call.send (exampleMessage 3 L4ProtocolType.TCP) 0)], c.1 < 2 ^ 64) ∧
    reallocationTargets (runEvents exampleEnv { freshSubnet with nextRescheduleTime := 0 }
      [(5, Call.send (exampleMessage 2 L4ProtocolType.TCP) 0),
        (5, Call.send (exampleMessage 3 L4ProtocolType.TCP) 0)]) = [6] ∧
    (reallocationTargets (runEvents exampleEnv { freshSubnet with nextRescheduleTime := 0 }
      [(5, Call.send (exampleMessage 2 L4ProtocolType.TCP) 0),
        (5, Call.send (exampleMessage 3 L4ProtocolType.TCP) 0)])).Nodup :=
  ⟨by intro c hc; fin_cases hc <;> decide, by rfl,
    (debounce_one_reallocation_per_tick exampleEnv { freshSubnet with nextRescheduleTime := 0 }
      [(5, Call.send (exampleMessage 2 L4ProtocolType.TCP) 0),
        (5, Call.send (exampleMessage 3 L4ProtocolType.TCP) 0)]
      (by intro c hc; fin_cases hc <;> decide)).2.1⟩

/-! ## C10: the first reallocation on a freshly constructed `Subnet` -/

theorem scheduleReallocation_of_max_marker {σ : Type} (s : Subnet σ) (now : Nat)
    (hm : s.nextRescheduleTime = 2 ^ 64 - 1) : scheduleReallocation s now = (s, []) := by
  unfold scheduleReallocation
  have hw : wrapU64 (now + 1) < 2 ^ 64 := Nat.mod_lt _ (by norm_num)
  have : ¬ s.nextRescheduleTime < wrapU64 (now + 1) := by omega
  rw [if_neg this]

/-- C10: on a freshly constructed `Subnet` the marker holds the constructor's
`-1` as `2 ^ 64 - 1`, which is never below `_currentTick + 1`; so for every
tick, every message and every random draw, `send` produces no
`BANDWIDTH_REALLOC` event and leaves the marker at `2 ^ 64 - 1`.  At the
concrete input (tick 0, a two-fragment TCP message that is not dropped) the
send produces no event at all, although the generation was admitted. -/
theorem send_on_fresh_subnet_schedules_no_reallocation {σ : Type} (env : Collaborators σ)
    (bm : σ) (nextFree : Nat → Nat) (msg : NetworkMessage) (now : Nat) (randomNum : ℚ) :
    (∀ e ∈ (send env (Subnet.init bm nextFree) msg now randomNum).2.2,
      e.message ≠ SubnetMessage.BANDWIDTH_REALLOC) ∧
    (send env (Subnet.init bm nextFree) msg now randomNum).1.nextRescheduleTime = 2 ^ 64 - 1 ∧
    (send exampleEnv freshSubnet (exampleMessage 2 L4ProtocolType.TCP) 0 0).2.2 = [] ∧
    (send exampleEnv freshSubnet (exampleMessage 2 L4ProtocolType.TCP) 0 0).1.nextRescheduleTime
      = 2 ^ 64 - 1 ∧
    (send exampleEnv freshSubnet (exampleMessage 2 L4ProtocolType.TCP) 0 0).1.messageIdsToTransfersMap 0
      = some 0 := by
  have hinit : (Subnet.init bm nextFree).nextRescheduleTime = 2 ^ 64 - 1 := by
    simp [Subnet.init, wrapU64]
  refine ⟨?_, ?_, by rfl, by rfl, by rfl⟩
  · by_cases hself : msg.sender = msg.receiver
    · rw [send_dropped_noop_eq env _ msg now randomNum (Or.inl hself)]
      intro e he; cases he
    · by_cases hdrop : msg.l4ProtocolType = L4ProtocolType.UDP ∧
          randomNum < env.getUDPErrorProbability msg
      · rw [send_dropped_noop_eq env _ msg now randomNum (Or.inr hdrop)]
        intro e he; cases he
      · have hkeep : msg.l4ProtocolType = L4ProtocolType.UDP →
            ¬ randomNum < env.getUDPErrorProbability msg := fun hu hr => hdrop ⟨hu, hr⟩
        by_cases hfr : msg.numFragments = 1
        · rw [send_single_fragment env _ msg now randomNum hself hkeep hfr]
          intro e he
          simp only [List.mem_singleton] at he
          rw [he]
          intro h; cases h
        · obtain ⟨n, hn⟩ := setMessageId_state (Subnet.init bm nextFree) msg
          rw [send_multi_fragment env _ msg now randomNum hself hkeep hfr,
            scheduleReallocation_of_max_marker _ now (by simp only [admitted, hn]; exact hinit)]
          intro e he; cases he
  · by_cases hself : msg.sender = msg.receiver
    · rw [send_dropped_noop_eq env _ msg now randomNum (Or.inl hself)]
      exact hinit
    · by_cases hdrop : msg.l4ProtocolType = L4ProtocolType.UDP ∧
          randomNum < env.getUDPErrorProbability msg
      · rw [send_dropped_noop_eq env _ msg now randomNum (Or.inr hdrop)]
        exact hinit
      · have hkeep : msg.l4ProtocolType = L4ProtocolType.UDP →
            ¬ randomNum < env.getUDPErrorProbability msg := fun hu hr => hdrop ⟨hu, hr⟩
        obtain ⟨n, hn⟩ := setMessageId_state (Subnet.init bm nextFree) msg
        by_cases hfr : msg.numFragments = 1
        · rw [send_single_fragment env _ msg now randomNum hself hkeep hfr, hn]
          exact hinit
        · rw [send_multi_fragment env _ msg now randomNum hself hkeep hfr,
            scheduleReallocation_of_max_marker _ now (by simp only [admitted, hn]; exact hinit)]
          simp only [admitted, hn]
          exact hinit

/-! ## C20: the block cache is a finite map with overwrite -/

theorem BlockCache.hasBlockId_insertAll {β : Type} (blocks : List (Int × β)) :
    ∀ (c : BlockCache β) (blockId : Int),
      (c.insertAll blocks).hasBlockId blockId = true ↔
        (c.hasBlockId blockId = true ∨ blockId ∈ blocks.map Prod.fst) := by
  induction blocks with
  | nil => intro c blockId; simp [BlockCache.insertAll]
  | cons p rest ih =>
    intro c blockId
    have hfold : c.insertAll (p :: rest) = (c.insert p.1 p.2).2.insertAll rest := rfl
    rw [hfold, ih]
    by_cases h : blockId = p.1
    · subst h
      simp [BlockCache.insert, BlockCache.hasBlockId]
    · have hne : p.1 ≠ blockId := fun e => h e.symm
      simp [BlockCache.insert, BlockCache.hasBlockId, Function.update_noteq h, h]

/-- C20: `insert(id, b)` returns true; afterwards `hasBlockId(id)` is true and
`getBlockById(id)` returns `b`, whatever was stored for `id` before; for every
other id both are unchanged; after any sequence of inserts into an empty
cache `hasBlockId` is true exactly for the inserted ids; and `getBlockById`
is defined exactly for the ids with `hasBlockId` true. -/
theorem blockCache_is_finite_map {β : Type} (c : BlockCache β) (blockId : Int) (b : β) :
    (c.insert blockId b).1 = true ∧
    (c.insert blockId b).2.hasBlockId blockId = true ∧
    (c.insert blockId b).2.getBlockById blockId = some b ∧
    (∀ other : Int, other ≠ blockId →
      (c.insert blockId b).2.hasBlockId other = c.hasBlockId other ∧
      (c.insert blockId b).2.getBlockById other = c.getBlockById other) ∧
    (∀ (blocks : List (Int × β)) (other : Int),
      ((BlockCache.empty β).insertAll blocks).hasBlockId other = true ↔
        other ∈ blocks.map Prod.fst) ∧
    (∀ (d : BlockCache β) (other : Int),
      (d.getBlockById other).isSome = true ↔ d.hasBlockId other = true) := by
  refine ⟨rfl, ?_, ?_, ?_, ?_, ?_⟩
  · simp [BlockCache.insert, BlockCache.hasBlockId]
  · simp [BlockCache.insert, BlockCache.getBlockById]
  · intro other hne
    simp [BlockCache.insert, BlockCache.hasBlockId, BlockCache.getBlockById,
      Function.update_noteq hne]
  · intro blocks other
    rw [BlockCache.hasBlockId_insertAll]
    simp [BlockCache.empty, BlockCache.hasBlockId]
  · intro d other
    rfl

/-- C20 at a concrete input: block 8 overwrites block 7 at id 3, and id 4 keeps
its block. -/
theorem blockCache_is_finite_map_witness :
    ((((BlockCache.empty Nat).insertAll [(3, 7), (4, 9)]).insert 3 8).2.getBlockById 3 = some 8) ∧
    ((((BlockCache.empty Nat).insertAll [(3, 7), (4, 9)]).insert 3 8).2.getBlockById 4 = some 9) ∧
    ((((BlockCache.empty Nat).insertAll [(3, 7), (4, 9)]).insert 3 8).2.hasBlockId 5 = false) :=
  ⟨(blockCache_is_finite_map ((BlockCache.empty Nat).insertAll [(3, 7), (4, 9)]) 3 8).2.2.1,
    ((blockCache_is_finite_map ((BlockCache.empty Nat).insertAll [(3, 7), (4, 9)]) 3 8).2.2.2.1 4
      (by decide)).2.trans (by rfl),
    ((blockCache_is_finite_map ((BlockCache.empty Nat).insertAll [(3, 7), (4, 9)]) 3 8).2.2.2.1 5
      (by decide)).1.trans (by rfl)⟩

/-! ## C11: the reallocation event of `onDisconnect` -/

theorem onDisconnect_loop_max_marker {σ : Type} (now : Nat) (removed : List Nat) :
    ∀ acc : Subnet σ × List MessageToNodeEvent, acc.1.nextRescheduleTime = 2 ^ 64 - 1 →
      (removed.foldl (onDisconnectStep now) acc).2 = acc.2 ∧
      (removed.foldl (onDisconnectStep now) acc).1.nextRescheduleTime = 2 ^ 64 - 1 := by
  induction removed with
  | nil => intro acc hm; exact ⟨rfl, hm⟩
  | cons b rest ih =>
    intro acc hm
    rw [List.foldl_cons]
    have hstep : onDisconnectStep now acc b =
        ({ acc.1 with
          connectionsToTransfersMap := Function.update acc.1.connectionsToTransfersMap b none
          cancelledTransfers :=
            acc.1.cancelledTransfers ∪ ((acc.1.connectionsToTransfersMap b).getD []).toFinset
          messageIdsToTransfersMap := eraseMessageIds acc.1.heap
            ((acc.1.connectionsToTransfersMap b).getD []) acc.1.messageIdsToTransfersMap },
          acc.2) := by
      unfold onDisconnectStep
      simp only []
      rw [scheduleReallocation_of_max_marker]
      · simp only [List.append_nil]
      · exact hm
    have h := ih (onDisconnectStep now acc b) (by rw [hstep]; exact hm)
    rw [hstep] at h ⊢
    exact h

/-- C11: the constructor leaves the marker at `2 ^ 64 - 1` (its `-1`, compared
as `uint64_t`), and the marker is written only when it is below
`_currentTick + 1`, which `2 ^ 64 - 1` never is.  In every state with that
marker, for every node, tick and list of allocations returned by
`removeConnections`, `onDisconnect` produces no event, not the one
`BANDWIDTH_REALLOC` event of the claim, and leaves the marker as it is. -/
theorem onDisconnect_schedules_nothing_after_construction {σ : Type} (env : Collaborators σ)
    (s : Subnet σ) (nodeId now : Nat) (hmarker : s.nextRescheduleTime = 2 ^ 64 - 1) :
    (onDisconnect env s nodeId now).2 = [] ∧
    (onDisconnect env s nodeId now).1.nextRescheduleTime = 2 ^ 64 - 1 := by
  have hdef : onDisconnect env s nodeId now =
      (env.removeConnections s.bandwidthManager nodeId).1.foldl (onDisconnectStep now)
        ({ s with
          bandwidthManager := (env.removeConnections s.bandwidthManager nodeId).2
          bmCalls := s.bmCalls ++ [BMCall.removeConnections nodeId] }, []) := rfl
  rw [hdef]
  exact onDisconnect_loop_max_marker now _ _ hmarker

/-- C11 at the failing input: in `sentState`, reached from the constructor by
one `send`, no reallocation is pending (none was ever scheduled); node 1
disconnects at tick 0 and `removeConnections` returns the allocation at
address 0, whose bucket holds the generation at address 0.  The call tombstones
the generation and removes the bucket, and produces no event. -/
theorem onDisconnect_schedules_nothing_after_construction_witness :
    sentState.nextRescheduleTime = 2 ^ 64 - 1 ∧
    (exampleEnv.removeConnections sentState.bandwidthManager 1).1 = [0] ∧
    sentState.connectionsToTransfersMap 0 = some [0] ∧
    (onDisconnect exampleEnv sentState 1 0).1.connectionsToTransfersMap 0 = none ∧
    0 ∈ (onDisconnect exampleEnv sentState 1 0).1.cancelledTransfers ∧
    (onDisconnect exampleEnv sentState 1 0).2 = [] :=
  ⟨rfl, rfl, rfl, rfl, by decide,
    (onDisconnect_schedules_nothing_after_construction exampleEnv sentState 1 0 rfl).1⟩

/-! ## C15: message ids -/

theorem toInt32_of_lt (n : Nat) (h : n < 2 ^ 31) : toInt32 n = (n : Int) := by
  unfold toInt32
  have h1 : (n + 2 ^ 31) % 2 ^ 32 = n + 2 ^ 31 := Nat.mod_eq_of_lt (by omega)
  rw [h1]
  push_cast
  ring

/-- What `send` does to the counter and to the id of its message: nothing, or
the message arrived with id `-1`, leaves with the value of the counter, and the
counter has grown by one. -/
theorem send_counter {σ : Type} (env : Collaborators σ) (s : Subnet σ) (msg : NetworkMessage)
    (now : Nat) (randomNum : ℚ) (hc : s.lastMsgId < 2 ^ 31) :
    ((send env s msg now randomNum).1.lastMsgId = s.lastMsgId ∧
      (send env s msg now randomNum).2.1.messageId = msg.messageId ∧
      (msg.messageId = -1 → (send env s msg now randomNum).2.1.messageId = -1)) ∨
    (msg.messageId = -1 ∧
      (send env s msg now randomNum).2.1.messageId = (s.lastMsgId : Int) ∧
      (send env s msg now randomNum).1.lastMsgId = s.lastMsgId + 1) := by
  have hset : ((setMessageId s msg).2.2.lastMsgId = s.lastMsgId ∧
        (setMessageId s msg).2.1.messageId = msg.messageId ∧ msg.messageId ≠ -1) ∨
      (msg.messageId = -1 ∧ (setMessageId s msg).2.1.messageId = (s.lastMsgId : Int) ∧
        (setMessageId s msg).2.2.lastMsgId = s.lastMsgId + 1) := by
    unfold setMessageId
    by_cases h : msg.messageId = -1
    · right
      simp only [h, if_true]
      refine ⟨trivial, toInt32_of_lt _ hc, ?_⟩
      exact Nat.mod_eq_of_lt (by omega)
    · left
      simp only [h, if_false]
      exact ⟨trivial, trivial, fun h' => h h'⟩
  have hnot : (send env s msg now randomNum).1.lastMsgId = s.lastMsgId ∧
      (send env s msg now randomNum).2.1.messageId = msg.messageId →
      ((send env s msg now randomNum).1.lastMsgId = s.lastMsgId ∧
      (send env s msg now randomNum).2.1.messageId = msg.messageId ∧
      (msg.messageId = -1 → (send env s msg now randomNum).2.1.messageId = -1)) :=
    fun h => ⟨h.1, h.2, fun h' => by rw [h.2, h']⟩
  by_cases hself : msg.sender = msg.receiver
  · left
    apply hnot
    rw [send_dropped_noop_eq env s msg now randomNum (Or.inl hself)]
    exact ⟨rfl, rfl⟩
  · by_cases hdrop : msg.l4ProtocolType = L4ProtocolType.UDP ∧
        randomNum < env.getUDPErrorProbability msg
    · left
      apply hnot
      rw [send_dropped_noop_eq env s msg now randomNum (Or.inr hdrop)]
      exact ⟨rfl, rfl⟩
    · have hkeep : msg.l4ProtocolType = L4ProtocolType.UDP →
          ¬ randomNum < env.getUDPErrorProbability msg := fun hu hr => hdrop ⟨hu, hr⟩
      have hres : (send env s msg now randomNum).1.lastMsgId = (setMessageId s msg).2.2.lastMsgId ∧
          (send env s msg now randomNum).2.1 = (setMessageId s msg).2.1 := by
        by_cases hfr : msg.numFragments = 1
        · rw [send_single_fragment env s msg now randomNum hself hkeep hfr]
          exact ⟨rfl, rfl⟩
        · rw [send_multi_fragment env s msg now randomNum hself hkeep hfr]
          obtain ⟨m, hm⟩ := scheduleReallocation_fst (admitted env s msg now) now
          rw [hm]
          exact ⟨rfl, rfl⟩
      rw [hres.1, hres.2]
      rcases hset with ⟨h1, h2, h3⟩ | ⟨h1, h2, h3⟩
      · left; exact ⟨h1, h2, fun h' => absurd h' h3⟩
      · right; exact ⟨h1, h2, h3⟩

/-- The ids assigned in a run of sends are the successive values of the
counter: strictly increasing, from the counter at the start to below the
counter at the end. -/
theorem runSends_ids {σ : Type} (env : Collaborators σ)
    (inputs : List (NetworkMessage × Nat × ℚ)) :
    ∀ s : Subnet σ, s.lastMsgId + inputs.length ≤ 2 ^ 31 →
      s.lastMsgId ≤ (runSends env s inputs).1.lastMsgId ∧
      (runSends env s inputs).1.lastMsgId ≤ s.lastMsgId + inputs.length ∧
      (runSends env s inputs).2.Pairwise (fun x y => x < y) ∧
      (∀ x ∈ (runSends env s inputs).2,
        (s.lastMsgId : Int) ≤ x ∧ x < ((runSends env s inputs).1.lastMsgId : Int)) := by
  induction inputs with
  | nil =>
    intro s _
    refine ⟨le_refl _, by simp [runSends], by simp [runSends], ?_⟩
    intro x hx
    simp [runSends] at hx
  | cons inp rest ih =>
    intro s hb
    obtain ⟨msg, now, randomNum⟩ := inp
    simp only [List.length_cons] at hb
    have hc : s.lastMsgId < 2 ^ 31 := by omega
    unfold runSends
    simp only [List.length_cons]
    rcases send_counter env s msg now randomNum hc with ⟨h1, h2, h3⟩ | ⟨h1, h2, h3⟩
    · obtain ⟨i1, i2, i3, i4⟩ := ih (send env s msg now randomNum).1 (by rw [h1]; omega)
      rw [h1] at i1 i2 i4
      have hno : ¬ (msg.messageId = -1 ∧ (send env s msg now randomNum).2.1.messageId ≠ -1) :=
        fun h => h.2 (h3 h.1)
      rw [if_neg hno]
      exact ⟨i1, by omega, i3, i4⟩
    · obtain ⟨i1, i2, i3, i4⟩ := ih (send env s msg now randomNum).1 (by rw [h3]; omega)
      rw [h3] at i1 i2 i4
      have hyes : msg.messageId = -1 ∧ (send env s msg now randomNum).2.1.messageId ≠ -1 := by
        refine ⟨h1, ?_⟩
        rw [h2]
        omega
      rw [if_pos hyes]
      dsimp only
      refine ⟨by omega, by omega, ?_, ?_⟩
      · refine List.pairwise_cons.2 ⟨?_, i3⟩
        intro x hx
        rw [h2]
        have := (i4 x hx).1
        push_cast at this
        omega
      · intro x hx
        rcases List.mem_cons.1 hx with rfl | hx
        · rw [h2]
          constructor
          · exact le_refl _
          · have : (s.lastMsgId : Int) + 1 ≤ ((runSends env (send env s msg now randomNum).1 rest).1.lastMsgId : Int) := by
              exact_mod_cast i1
            omega
        · have := i4 x hx
          push_cast at this
          omega

theorem send_message_cases {σ : Type} (env : Collaborators σ) (s : Subnet σ)
    (msg : NetworkMessage) (now : Nat) (randomNum : ℚ) :
    (send env s msg now randomNum).2.1 = msg ∨
    (send env s msg now randomNum).2.1 = (setMessageId s msg).2.1 := by
  by_cases hself : msg.sender = msg.receiver
  · left
    rw [send_dropped_noop_eq env s msg now randomNum (Or.inl hself)]
  · by_cases hdrop : msg.l4ProtocolType = L4ProtocolType.UDP ∧
        randomNum < env.getUDPErrorProbability msg
    · left
      rw [send_dropped_noop_eq env s msg now randomNum (Or.inr hdrop)]
    · have hkeep : msg.l4ProtocolType = L4ProtocolType.UDP →
          ¬ randomNum < env.getUDPErrorProbability msg := fun hu hr => hdrop ⟨hu, hr⟩
      right
      by_cases hfr : msg.numFragments = 1
      · rw [send_single_fragment env s msg now randomNum hself hkeep hfr]
      · rw [send_multi_fragment env s msg now randomNum hself hkeep hfr]

/-- C15, as stated, fails where the `int` id cannot hold the counter: with the
counter at `2 ^ 32 - 1`, `setMessageId` gives an unassigned message the id
`-1`, not the value of the counter, so the message still counts as unassigned;
sending the returned message again gives it the id 0, and the counter has
advanced twice for the one message. -/
theorem message_id_truncation :
    (exampleMessage 1 L4ProtocolType.TCP).messageId = -1 ∧
    lateSubnet.lastMsgId = 2 ^ 32 - 1 ∧
    (setMessageId lateSubnet (exampleMessage 1 L4ProtocolType.TCP)).2.1.messageId = -1 ∧
    (setMessageId lateSubnet (exampleMessage 1 L4ProtocolType.TCP)).2.2.lastMsgId = 2 ^ 32 ∧
    (send exampleEnv lateSubnet (exampleMessage 1 L4ProtocolType.TCP) 0 0).2.1.messageId = -1 ∧
    (send exampleEnv (send exampleEnv lateSubnet (exampleMessage 1 L4ProtocolType.TCP) 0 0).1
      (send exampleEnv lateSubnet (exampleMessage 1 L4ProtocolType.TCP) 0 0).2.1 1 0).2.1.messageId
      = 0 ∧
    (send exampleEnv (send exampleEnv lateSubnet (exampleMessage 1 L4ProtocolType.TCP) 0 0).1
      (send exampleEnv lateSubnet (exampleMessage 1 L4ProtocolType.TCP) 0 0).2.1 1 0).1.lastMsgId
      = 2 ^ 32 + 1 := by
  refine ⟨rfl, rfl, by decide, by decide, ?_, ?_, ?_⟩
  · rcases send_message_cases exampleEnv lateSubnet (exampleMessage 1 L4ProtocolType.TCP) 0 0
      with h | h
    · rw [h]; rfl
    · rw [h]; decide
  · rfl
  · rfl

/-- C15, amended: while the counter is below `2 ^ 31` (so that the `int` id can
hold it), `setMessageId` on a message with the unassigned id `-1` sets the id
to the value of the counter and increases the counter by exactly one, and on
a message with any other id it changes neither the id nor the counter.  A
message that left a `send` with an assigned id keeps it in every later `send`;
and in a run of sends that does not take the counter above `2 ^ 31`, the
counter does not decrease and the ids assigned are pairwise different. -/
theorem setMessageId_assigns_once {σ : Type} (env : Collaborators σ) (s : Subnet σ)
    (msg : NetworkMessage) (hc : s.lastMsgId < 2 ^ 31) :
    (msg.messageId = -1 →
      (setMessageId s msg).1 = (s.lastMsgId : Int) ∧
      (setMessageId s msg).2.1.messageId = (s.lastMsgId : Int) ∧
      (setMessageId s msg).2.2.lastMsgId = s.lastMsgId + 1) ∧
    (msg.messageId ≠ -1 → setMessageId s msg = (msg.messageId, msg, s)) ∧
    (∀ (now : Nat) (randomNum : ℚ) (t : Subnet σ) (now2 : Nat) (randomNum2 : ℚ),
      (send env s msg now randomNum).2.1.messageId ≠ -1 →
      (send env t (send env s msg now randomNum).2.1 now2 randomNum2).2.1.messageId =
        (send env s msg now randomNum).2.1.messageId) ∧
    (∀ inputs : List (NetworkMessage × Nat × ℚ), s.lastMsgId + inputs.length ≤ 2 ^ 31 →
      s.lastMsgId ≤ (runSends env s inputs).1.lastMsgId ∧
      (runSends env s inputs).2.Nodup) := by
  refine ⟨?_, ?_, ?_, ?_⟩
  · intro h
    unfold setMessageId
    simp only [h, if_true]
    exact ⟨toInt32_of_lt _ hc, toInt32_of_lt _ hc, Nat.mod_eq_of_lt (by omega)⟩
  · intro h
    unfold setMessageId
    simp only [h, if_false]
  · intro now randomNum t now2 randomNum2 hid
    rcases send_message_cases env t (send env s msg now randomNum).2.1 now2 randomNum2
      with h | h
    · rw [h]
    · rw [h]
      unfold setMessageId
      simp only [hid, if_false]
  · intro inputs hb
    obtain ⟨h1, _, h3, _⟩ := runSends_ids env inputs s hb
    exact ⟨h1, h3.imp (fun h => ne_of_lt h)⟩

/-- C15 (amended) at a concrete input: two different unassigned messages sent
to a freshly constructed `Subnet` get the ids 0 and 1. -/
theorem setMessageId_assigns_once_witness :
    freshSubnet.lastMsgId < 2 ^ 31 ∧
    (runSends exampleEnv freshSubnet
      [(exampleMessage 1 L4ProtocolType.TCP, 0, 0), (exampleMessage 2 L4ProtocolType.TCP, 0, 0)]).2
      = [0, 1] ∧
    (runSends exampleEnv freshSubnet
      [(exampleMessage 1 L4ProtocolType.TCP, 0, 0), (exampleMessage 2 L4ProtocolType.TCP, 0, 0)]).2.Nodup :=
  ⟨by decide, by rfl,
    ((setMessageId_assigns_once exampleEnv freshSubnet (exampleMessage 1 L4ProtocolType.TCP)
      (by decide)).2.2.2
      [(exampleMessage 1 L4ProtocolType.TCP, 0, 0), (exampleMessage 2 L4ProtocolType.TCP, 0, 0)]
      (by decide)).2⟩

/-! ## C12: admission of a multi-fragment message -/

theorem maxBandwidthRequired_setMessageId {σ : Type} (env : Collaborators σ) (s : Subnet σ)
    (msg : NetworkMessage) :
    maxBandwidthRequired env (setMessageId s msg).2.1 = maxBandwidthRequired env msg := by
  rw [setMessageId_message]
  rfl

/-- C12: with the constructor of `TransferProgress` taking the byte baseline
before the rate, the order that both calls in `send` follow: for a
multi-fragment message of size `S` that is not dropped, `send` calls
`addConnection` once, with the sender's uplink cap (capped by the TCP
throughput exactly for a TCP message), creates one generation, at the next
free address, that is a first generation, not obsolete, started at `now` and
carrying the message, with byte baseline `S` and rate 0, so that
`remainingBytes(now)` is `S`, inserts it into the bucket of the returned
allocation and makes it the index value of the message id, and produces no
delivery event. -/
theorem send_multi_fragment_generation {σ : Type} (env : Collaborators σ) (s : Subnet σ)
    (msg : NetworkMessage) (now : Nat) (randomNum : ℚ)
    (hctor : env.rateFirst = false)
    (hself : msg.sender ≠ msg.receiver)
    (hkeep : msg.l4ProtocolType = L4ProtocolType.UDP →
      ¬ randomNum < env.getUDPErrorProbability msg)
    (hmulti : msg.numFragments ≠ 1) :
    (send env s msg now randomNum).1.bmCalls =
      s.bmCalls ++ [BMCall.addConnection msg.sender msg.receiver
        (if msg.l4ProtocolType = L4ProtocolType.TCP then
          min (env.getUpBW msg.sender) (env.getTCPThroughput msg.sender msg.receiver)
        else env.getUpBW msg.sender)] ∧
    (send env s msg now randomNum).1.nextPtr = s.nextPtr + 1 ∧
    (∀ q, q ≠ s.nextPtr → (send env s msg now randomNum).1.heap q = s.heap q) ∧
    ((send env s msg now randomNum).1.heap s.nextPtr).firstSchedule = true ∧
    ((send env s msg now randomNum).1.heap s.nextPtr).obsolete = false ∧
    ((send env s msg now randomNum).1.heap s.nextPtr).scheduledAt = now ∧
    ((send env s msg now randomNum).1.heap s.nextPtr).message =
      (send env s msg now randomNum).2.1 ∧
    ((send env s msg now randomNum).1.heap s.nextPtr).remainingBytes = (msg.size : ℚ) ∧
    ((send env s msg now randomNum).1.heap s.nextPtr).bandwidth = 0 ∧
    ((send env s msg now randomNum).1.heap s.nextPtr).getRemainingBytes now = (msg.size : ℚ) ∧
    (send env s msg now randomNum).1.connectionsToTransfersMap
        (env.addConnection s.bandwidthManager msg.sender msg.receiver
          (maxBandwidthRequired env msg)).1 =
      some (setInsert s.nextPtr ((s.connectionsToTransfersMap
        (env.addConnection s.bandwidthManager msg.sender msg.receiver
          (maxBandwidthRequired env msg)).1).getD [])) ∧
    s.nextPtr ∈ setInsert s.nextPtr ((s.connectionsToTransfersMap
        (env.addConnection s.bandwidthManager msg.sender msg.receiver
          (maxBandwidthRequired env msg)).1).getD []) ∧
    (send env s msg now randomNum).1.messageIdsToTransfersMap
      (send env s msg now randomNum).2.1.messageId = some s.nextPtr ∧
    (∀ e ∈ (send env s msg now randomNum).2.2, e.message = SubnetMessage.BANDWIDTH_REALLOC) := by
  have hsend := send_multi_fragment env s msg now randomNum hself hkeep hmulti
  obtain ⟨n, hn⟩ := setMessageId_state s msg
  have hrate := maxBandwidthRequired_setMessageId env s msg
  have hadm : admitted env s msg now =
      { s with
        lastMsgId := n
        bandwidthManager := (env.addConnection s.bandwidthManager msg.sender msg.receiver
          (maxBandwidthRequired env msg)).2
        bmCalls := s.bmCalls ++ [BMCall.addConnection msg.sender msg.receiver
          (maxBandwidthRequired env msg)]
        heap := Function.update s.heap s.nextPtr
          (TransferProgress.new env.rateFirst (setMessageId s msg).2.1 (msg.size : ℚ) 0 now)
        nextPtr := s.nextPtr + 1
        connectionsToTransfersMap := Function.update s.connectionsToTransfersMap
          (env.addConnection s.bandwidthManager msg.sender msg.receiver
            (maxBandwidthRequired env msg)).1
          (some (setInsert s.nextPtr ((s.connectionsToTransfersMap
            (env.addConnection s.bandwidthManager msg.sender msg.receiver
              (maxBandwidthRequired env msg)).1).getD [])))
        messageIdsToTransfersMap := Function.update s.messageIdsToTransfersMap
          (setMessageId s msg).1 (some s.nextPtr) } := by
    unfold admitted
    rw [hn, hrate]
  have hid : (setMessageId s msg).2.1.messageId = (setMessageId s msg).1 := by
    rw [setMessageId_message]
  have hev : ∀ e ∈ (scheduleReallocation (admitted env s msg now) now).2,
      e.message = SubnetMessage.BANDWIDTH_REALLOC := by
    intro e he
    unfold scheduleReallocation at he
    split at he
    · simp only [List.mem_singleton] at he
      rw [he]
    · cases he
  obtain ⟨m, hm⟩ := scheduleReallocation_fst (admitted env s msg now) now
  rw [hsend]
  simp only [hm]
  rw [hadm]
  simp only [Function.update_same, hid]
  have hsize : (0 : ℚ) ≤ (msg.size : ℚ) := Nat.cast_nonneg _
  refine ⟨rfl, trivial, fun q hq => Function.update_noteq hq _ _, rfl, rfl, rfl, rfl, ?_, ?_, ?_,
    trivial, (mem_setInsert _ _ _).2 (Or.inl rfl), by rw [hid, Function.update_same],
    by rw [← hadm]; exact hev⟩
  · simp [TransferProgress.new, hctor]
  · simp [TransferProgress.new, hctor]
  · simp [TransferProgress.new, TransferProgress.getRemainingBytes, hsize, hctor]

/-- C12 at a concrete input: on a freshly constructed `Subnet`, with a
constructor that takes the bytes first, the send at tick 0 of a two-fragment
TCP message of 1000 bytes creates the generation at address 0 with byte
baseline 1000 and rate 0, so that `remainingBytes(0)` is 1000; it is the
bucket of allocation 0 and the index value of id 0, and the one call to the
bandwidth manager is `addConnection(1, 2, 100)`. -/
theorem send_multi_fragment_generation_witness :
    bytesFirstEnv.rateFirst = false ∧
    (exampleMessage 2 L4ProtocolType.TCP).size = 1000 ∧
    ((send bytesFirstEnv freshSubnet (exampleMessage 2 L4ProtocolType.TCP) 0 0).1.heap
      freshSubnet.nextPtr).remainingBytes = 1000 ∧
    ((send bytesFirstEnv freshSubnet (exampleMessage 2 L4ProtocolType.TCP) 0 0).1.heap
      freshSubnet.nextPtr).bandwidth = 0 ∧
    ((send bytesFirstEnv freshSubnet (exampleMessage 2 L4ProtocolType.TCP) 0 0).1.heap
      freshSubnet.nextPtr).getRemainingBytes 0 = 1000 ∧
    (send bytesFirstEnv freshSubnet (exampleMessage 2 L4ProtocolType.TCP) 0 0).1.bmCalls =
      [BMCall.addConnection 1 2 100] ∧
    (send bytesFirstEnv freshSubnet
      (exampleMessage 2 L4ProtocolType.TCP) 0 0).1.connectionsToTransfersMap 0 = some [0] ∧
    (send bytesFirstEnv freshSubnet
      (exampleMessage 2 L4ProtocolType.TCP) 0 0).1.messageIdsToTransfersMap 0 = some 0 ∧
    (send bytesFirstEnv freshSubnet (exampleMessage 2 L4ProtocolType.TCP) 0 0).2.2 = [] := by
  have h := send_multi_fragment_generation bytesFirstEnv freshSubnet
    (exampleMessage 2 L4ProtocolType.TCP) 0 0 rfl (by decide) (by intro h; cases h) (by decide)
  obtain ⟨h1, _, _, _, _, _, _, h8, h9, h10, _⟩ := h
  have hs : ((exampleMessage 2 L4ProtocolType.TCP).size : ℚ) = 1000 := by
    norm_num [exampleMessage]
  rw [hs] at h8 h10
  refine ⟨rfl, rfl, h8, h9, h10, ?_, rfl, rfl, rfl⟩
  rw [h1]
  have hrate : min (bytesFirstEnv.getUpBW 1) (bytesFirstEnv.getTCPThroughput 1 2) = 100 := by
    norm_num [bytesFirstEnv, exampleEnv]
  simp [exampleMessage, freshSubnet, Subnet.init, hrate]

/-! ## C16: consistency of buckets and index -/

/-- C16: the state reached from a freshly constructed `Subnet` by the send of a
two-fragment message (generation 0, id 0, allocation 0) and then
`cancelTransmission(0, 0)`, a cancellation of a live id, is not consistent:
generation 0 is still in the bucket of allocation 0, but the index has no
entry for the id of its message.  The freshly constructed `Subnet` is
consistent. -/
theorem cancelTransmission_breaks_bucket_index_consistency :
    BucketIndexConsistent freshSubnet ∧
    sentState = (send exampleEnv freshSubnet (exampleMessage 2 L4ProtocolType.TCP) 0 0).1 ∧
    sentState.messageIdsToTransfersMap 0 = some 0 ∧
    (∃ ev, cancelTransmission exampleEnv sentState 0 0 = Except.ok (cancelledState, ev)) ∧
    cancelledState.connectionsToTransfersMap 0 = some [0] ∧
    cancelledState.messageIdsToTransfersMap (cancelledState.heap 0).message.messageId = none ∧
    ¬ BucketIndexConsistent cancelledState := by
  refine ⟨⟨?_, ?_⟩, rfl, rfl, ⟨_, rfl⟩, rfl, rfl, ?_⟩
  · intro ba bucket g hb _
    cases hb
  · intro msgId g hi
    cases hi
  · intro h
    have h1 := (h.1 0 [0] 0 rfl (List.mem_singleton.2 rfl)).2
    have h2 : cancelledState.messageIdsToTransfersMap
        (cancelledState.heap 0).message.messageId = none := rfl
    rw [h2] at h1
    cases h1

/-! ## C17: cleanup after a delivery -/

theorem superseded_idem (old : TransferProgress) : superseded (superseded old) = superseded old := by
  cases old with
  | mk m bw rb t f o => cases f <;> cases o <;> rfl

/-- One iteration of the loop for an old generation at an address other than
the next free one. -/
theorem rescheduleStep_spec {σ : Type} (env : Collaborators σ) (a b now : Nat)
    (st : RescheduleState σ) (tp : Nat) (h : tp ≠ st.subnet.nextPtr) :
    (rescheduleStep env a b now st tp).remainingBandwidth =
      st.remainingBandwidth - stepBandwidth env a b st tp ∧
    (rescheduleStep env a b now st tp).remainingTransfers = st.remainingTransfers - 1 ∧
    (rescheduleStep env a b now st tp).updatedTransfers =
      setInsert st.subnet.nextPtr st.updatedTransfers ∧
    (rescheduleStep env a b now st tp).assignedBandwidth =
      st.assignedBandwidth ++ [stepBandwidth env a b st tp] ∧
    (rescheduleStep env a b now st tp).newEvents =
      st.newEvents ++ [⟨SubnetMessage.MESSAGE_RECVD st.subnet.nextPtr,
        rescheduleDelay env a b now (st.subnet.heap tp) (stepBandwidth env a b st tp)⟩] ∧
    (rescheduleStep env a b now st tp).subnet =
      { st.subnet with
        nextPtr := st.subnet.nextPtr + 1
        messageIdsToTransfersMap := Function.update st.subnet.messageIdsToTransfersMap
          (st.subnet.heap tp).message.messageId (some st.subnet.nextPtr)
        heap := Function.update
          (Function.update st.subnet.heap st.subnet.nextPtr
            (replacement env now (st.subnet.heap tp) (stepBandwidth env a b st tp)))
          tp (superseded (st.subnet.heap tp)) } := by
  have hne : tp ≠ st.subnet.nextPtr := h
  have hsup : ∀ x : TransferProgress, x.firstSchedule = true → superseded x = x := by
    intro x hx
    cases x with
    | mk m bw rb t f o =>
      simp only at hx
      subst hx
      simp [superseded]
  have hsup2 : ∀ x : TransferProgress, x.firstSchedule = false →
      superseded x = { x with obsolete := true } := by
    intro x hx
    cases x with
    | mk m bw rb t f o =>
      simp only at hx
      subst hx
      simp [superseded]
  unfold rescheduleStep
  simp only [Subnet.alloc, Function.update_same, Function.update_noteq hne]
  refine ⟨?_, ?_, ?_, ?_, ?_, ?_⟩
  · rfl
  · trivial
  · trivial
  · rfl
  · rfl
  · congr 1
    simp only [Function.update_idem]
    by_cases hf : (st.subnet.heap tp).firstSchedule = false
    · rw [if_pos hf, hsup2 _ hf]
      rfl
    · rw [if_neg hf]
      have hf' : (st.subnet.heap tp).firstSchedule = true := by
        cases hv : (st.subnet.heap tp).firstSchedule
        · exact absurd hv hf
        · rfl
      rw [hsup _ hf']
      funext q
      by_cases hq : q = tp
      · subst hq
        rw [Function.update_same, Function.update_noteq hne]
      · rw [Function.update_noteq hq]
        rfl

theorem superseded_message (old : TransferProgress) :
    (superseded old).message = old.message ∧
    (superseded old).firstSchedule = old.firstSchedule ∧
    (superseded old).getRemainingBytes = old.getRemainingBytes := by
  refine ⟨rfl, rfl, rfl⟩

/-- The heap after one iteration, at the addresses below the next free one. -/
theorem rescheduleStep_heap_old {σ : Type} (env : Collaborators σ) (a b now : Nat)
    (st : RescheduleState σ) (tp : Nat) (h : tp < st.subnet.nextPtr) (q : Nat)
    (hq : q < st.subnet.nextPtr) :
    (rescheduleStep env a b now st tp).subnet.heap q =
      if q = tp then superseded (st.subnet.heap q) else st.subnet.heap q := by
  obtain ⟨_, _, _, _, _, hs⟩ := rescheduleStep_spec env a b now st tp (by omega)
  rw [hs]
  by_cases hqt : q = tp
  · subst hqt
    simp
  · have hqp : q ≠ st.subnet.nextPtr := by omega
    simp [hqt, Function.update_noteq hqt, Function.update_noteq hqp]

theorem isTCP_superseded_step {σ : Type} (env : Collaborators σ) (a b now : Nat)
    (st : RescheduleState σ) (tp : Nat) (h : tp < st.subnet.nextPtr) (l : List Nat)
    (hl : ∀ g ∈ l, g < st.subnet.nextPtr) :
    l.map (isTCP (rescheduleStep env a b now st tp).subnet.heap) =
      l.map (isTCP st.subnet.heap) := by
  apply List.map_congr_left
  intro g hg
  unfold isTCP
  rw [rescheduleStep_heap_old env a b now st tp h g (hl g hg)]
  by_cases hgt : g = tp
  · rw [if_pos hgt, (superseded_message _).1]
  · rw [if_neg hgt]

/-- The loop over transfers at addresses below the next free one: the next
free address, the trace of the local `bandwidth`, the pool, the counter, the
old generations, and the parts of the state that the loop leaves alone. -/
theorem rescheduleLoop_spec {σ : Type} (env : Collaborators σ) (a b now : Nat)
    (l : List Nat) :
    ∀ st : RescheduleState σ, (∀ g ∈ l, g < st.subnet.nextPtr) →
      (rescheduleLoop env a b now l st).subnet.nextPtr = st.subnet.nextPtr + l.length ∧
      (rescheduleLoop env a b now l st).assignedBandwidth =
        st.assignedBandwidth ++ shareSequence (env.getTCPThroughput a b)
          (l.map (isTCP st.subnet.heap)) st.remainingBandwidth st.remainingTransfers ∧
      (rescheduleLoop env a b now l st).remainingBandwidth =
        st.remainingBandwidth - (shareSequence (env.getTCPThroughput a b)
          (l.map (isTCP st.subnet.heap)) st.remainingBandwidth st.remainingTransfers).sum ∧
      (rescheduleLoop env a b now l st).remainingTransfers =
        st.remainingTransfers - (l.length : Int) ∧
      (∀ q, q < st.subnet.nextPtr →
        (rescheduleLoop env a b now l st).subnet.heap q =
          if q ∈ l then superseded (st.subnet.heap q) else st.subnet.heap q) ∧
      (rescheduleLoop env a b now l st).subnet.connectionsToTransfersMap =
        st.subnet.connectionsToTransfersMap ∧
      (rescheduleLoop env a b now l st).subnet.cancelledTransfers =
        st.subnet.cancelledTransfers ∧
      (rescheduleLoop env a b now l st).subnet.bandwidthManager =
        st.subnet.bandwidthManager := by
  induction l with
  | nil =>
    intro st _
    simp [rescheduleLoop, shareSequence]
  | cons g rest ih =>
    intro st hwf
    have hg : g < st.subnet.nextPtr := hwf g (List.mem_cons_self _ _)
    have hrest : ∀ x ∈ rest, x < st.subnet.nextPtr :=
      fun x hx => hwf x (List.mem_cons_of_mem _ hx)
    obtain ⟨s1, s2, s3, s4, s5, s6⟩ := rescheduleStep_spec env a b now st g (by omega)
    have hnext : (rescheduleStep env a b now st g).subnet.nextPtr = st.subnet.nextPtr + 1 := by
      rw [s6]
    have hfold : rescheduleLoop env a b now (g :: rest) st =
        rescheduleLoop env a b now rest (rescheduleStep env a b now st g) := rfl
    obtain ⟨i1, i2, i3, i4, i5, i6, i7, i8⟩ := ih (rescheduleStep env a b now st g)
      (by intro x hx; rw [hnext]; have := hrest x hx; omega)
    have hmap := isTCP_superseded_step env a b now st g hg rest hrest
    have hbw : stepBandwidth env a b st g =
        (if isTCP st.subnet.heap g = true then
          min (st.remainingBandwidth / (st.remainingTransfers : ℚ)) (env.getTCPThroughput a b)
        else st.remainingBandwidth / (st.remainingTransfers : ℚ)) := by
      unfold stepBandwidth isTCP
      by_cases ht : (st.subnet.heap g).message.l4ProtocolType = L4ProtocolType.TCP
      · simp [ht]
      · simp [ht]
    have hseq : shareSequence (env.getTCPThroughput a b)
        ((g :: rest).map (isTCP st.subnet.heap)) st.remainingBandwidth st.remainingTransfers =
        stepBandwidth env a b st g ::
          shareSequence (env.getTCPThroughput a b) (rest.map (isTCP st.subnet.heap))
            (st.remainingBandwidth - stepBandwidth env a b st g) (st.remainingTransfers - 1) := by
      rw [hbw]
      rfl
    rw [hfold, hseq]
    rw [hmap, s1, s2] at i2 i3
    rw [s4] at i2
    rw [s2] at i4
    refine ⟨by rw [i1, hnext, List.length_cons]; omega, ?_, ?_, ?_, ?_, ?_, ?_, ?_⟩
    · rw [i2, List.append_assoc]
      rfl
    · rw [i3, List.sum_cons]
      ring
    · rw [i4, List.length_cons]
      push_cast
      ring
    · intro q hq
      rw [i5 q (by rw [hnext]; omega), rescheduleStep_heap_old env a b now st g hg q hq]
      by_cases hqg : q = g
      · subst hqg
        by_cases hqr : q ∈ rest
        · simp [hqr, superseded_idem]
        · simp [hqr]
      · by_cases hqr : q ∈ rest
        · simp [hqr, hqg]
        · simp [hqr, hqg]
    · rw [i6, s6]
    · rw [i7, s6]
    · rw [i8, s6]

theorem replacement_superseded {σ : Type} (env : Collaborators σ) (now : Nat)
    (old : TransferProgress) (bw : ℚ) :
    replacement env now (superseded old) bw = replacement env now old bw := rfl

theorem rescheduleDelay_superseded {σ : Type} (env : Collaborators σ) (a b now : Nat)
    (old : TransferProgress) (bw : ℚ) :
    rescheduleDelay env a b now (superseded old) bw = rescheduleDelay env a b now old bw := rfl

/-- The loop, generation by generation: the `i`-th old generation `g` gets the
`i`-th value `r` of the share sequence; its replacement is stored at the
`i`-th new address and its delivery event is the `i`-th new event.  Events
that were there before stay in place. -/
theorem rescheduleLoop_new {σ : Type} (env : Collaborators σ) (a b now : Nat)
    (l : List Nat) :
    ∀ st : RescheduleState σ, (∀ g ∈ l, g < st.subnet.nextPtr) →
      (rescheduleLoop env a b now l st).newEvents.length = st.newEvents.length + l.length ∧
      (∀ k, k < st.newEvents.length →
        (rescheduleLoop env a b now l st).newEvents[k]? = st.newEvents[k]?) ∧
      (∀ i g, l[i]? = some g →
        ∃ r, (shareSequence (env.getTCPThroughput a b) (l.map (isTCP st.subnet.heap))
            st.remainingBandwidth st.remainingTransfers)[i]? = some r ∧
          (rescheduleLoop env a b now l st).subnet.heap (st.subnet.nextPtr + i) =
            replacement env now (st.subnet.heap g) r ∧
          (rescheduleLoop env a b now l st).newEvents[st.newEvents.length + i]? =
            some ⟨SubnetMessage.MESSAGE_RECVD (st.subnet.nextPtr + i),
              rescheduleDelay env a b now (st.subnet.heap g) r⟩) := by
  induction l with
  | nil =>
    intro st _
    refine ⟨rfl, fun k _ => rfl, ?_⟩
    intro i g h
    simp at h
  | cons g0 rest ih =>
    intro st hwf
    have hg : g0 < st.subnet.nextPtr := hwf g0 (List.mem_cons_self _ _)
    have hrest : ∀ x ∈ rest, x < st.subnet.nextPtr :=
      fun x hx => hwf x (List.mem_cons_of_mem _ hx)
    obtain ⟨s1, s2, s3, s4, s5, s6⟩ := rescheduleStep_spec env a b now st g0 (by omega)
    have hnext : (rescheduleStep env a b now st g0).subnet.nextPtr = st.subnet.nextPtr + 1 := by
      rw [s6]
    have hwf1 : ∀ x ∈ rest, x < (rescheduleStep env a b now st g0).subnet.nextPtr := by
      intro x hx; rw [hnext]; have := hrest x hx; omega
    have hfold : rescheduleLoop env a b now (g0 :: rest) st =
        rescheduleLoop env a b now rest (rescheduleStep env a b now st g0) := rfl
    obtain ⟨i1, i2, i3⟩ := ih (rescheduleStep env a b now st g0) hwf1
    obtain ⟨_, _, _, _, f5, _⟩ := rescheduleLoop_spec env a b now rest
      (rescheduleStep env a b now st g0) hwf1
    have hmap := isTCP_superseded_step env a b now st g0 hg rest hrest
    have hbw : stepBandwidth env a b st g0 =
        (if isTCP st.subnet.heap g0 = true then
          min (st.remainingBandwidth / (st.remainingTransfers : ℚ)) (env.getTCPThroughput a b)
        else st.remainingBandwidth / (st.remainingTransfers : ℚ)) := by
      unfold stepBandwidth isTCP
      by_cases ht : (st.subnet.heap g0).message.l4ProtocolType = L4ProtocolType.TCP
      · simp [ht]
      · simp [ht]
    have hseq : shareSequence (env.getTCPThroughput a b)
        ((g0 :: rest).map (isTCP st.subnet.heap)) st.remainingBandwidth st.remainingTransfers =
        stepBandwidth env a b st g0 ::
          shareSequence (env.getTCPThroughput a b) (rest.map (isTCP st.subnet.heap))
            (st.remainingBandwidth - stepBandwidth env a b st g0) (st.remainingTransfers - 1) := by
      rw [hbw]
      rfl
    have hlen1 : (rescheduleStep env a b now st g0).newEvents.length = st.newEvents.length + 1 := by
      rw [s5]; simp
    rw [hfold, hseq]
    refine ⟨by rw [i1, hlen1, List.length_cons]; omega, ?_, ?_⟩
    · intro k hk
      rw [i2 k (by omega), s5, List.getElem?_append_left hk]
    · intro i g hi
      cases i with
      | zero =>
        simp only [List.getElem?_cons_zero, Option.some.injEq] at hi
        subst hi
        refine ⟨stepBandwidth env a b st g0, by simp, ?_, ?_⟩
        · have hp : st.subnet.nextPtr ∉ rest := fun hmem => by
            have := hrest _ hmem
            omega
          rw [Nat.add_zero, f5 _ (by rw [hnext]; omega), if_neg hp, s6]
          have hne : st.subnet.nextPtr ≠ g0 := by omega
          simp [Function.update_noteq hne]
        · rw [Nat.add_zero, i2 _ (by omega), s5]
          simp
      | succ j =>
        simp only [List.getElem?_cons_succ] at hi
        obtain ⟨r, hr1, hr2, hr3⟩ := i3 j g hi
        have hgrest : g ∈ rest := List.getElem?_mem hi
        have hgl : g < st.subnet.nextPtr := hrest g hgrest
        have hheap : replacement env now ((rescheduleStep env a b now st g0).subnet.heap g) r =
              replacement env now (st.subnet.heap g) r ∧
            rescheduleDelay env a b now ((rescheduleStep env a b now st g0).subnet.heap g) r =
              rescheduleDelay env a b now (st.subnet.heap g) r := by
          rw [rescheduleStep_heap_old env a b now st g0 hg g hgl]
          by_cases hgg : g = g0
          · rw [if_pos hgg]
            exact ⟨rfl, rfl⟩
          · rw [if_neg hgg]
            exact ⟨rfl, rfl⟩
        rw [hmap, s1, s2] at hr1
        rw [hnext, hheap.1] at hr2
        rw [hnext, hlen1, hheap.2] at hr3
        refine ⟨r, by simpa using hr1, ?_, ?_⟩
        · rw [show st.subnet.nextPtr + (j + 1) = st.subnet.nextPtr + 1 + j by omega]
          exact hr2
        · rw [show st.newEvents.length + (j + 1) = st.newEvents.length + 1 + j by omega,
            show st.subnet.nextPtr + (j + 1) = st.subnet.nextPtr + 1 + j by omega]
          exact hr3

/-- The new bucket: the new addresses, in ascending order, after what was
there. -/
theorem rescheduleLoop_updated {σ : Type} (env : Collaborators σ) (a b now : Nat)
    (l : List Nat) :
    ∀ st : RescheduleState σ, (∀ g ∈ l, g < st.subnet.nextPtr) →
      (∀ x ∈ st.updatedTransfers, x < st.subnet.nextPtr) →
      (rescheduleLoop env a b now l st).updatedTransfers =
        st.updatedTransfers ++ List.range' st.subnet.nextPtr l.length := by
  induction l with
  | nil => intro st _ _; simp [rescheduleLoop]
  | cons g0 rest ih =>
    intro st hwf hup
    have hg : g0 < st.subnet.nextPtr := hwf g0 (List.mem_cons_self _ _)
    have hrest : ∀ x ∈ rest, x < st.subnet.nextPtr :=
      fun x hx => hwf x (List.mem_cons_of_mem _ hx)
    obtain ⟨s1, s2, s3, s4, s5, s6⟩ := rescheduleStep_spec env a b now st g0 (by omega)
    have hnext : (rescheduleStep env a b now st g0).subnet.nextPtr = st.subnet.nextPtr + 1 := by
      rw [s6]
    have hfold : rescheduleLoop env a b now (g0 :: rest) st =
        rescheduleLoop env a b now rest (rescheduleStep env a b now st g0) := rfl
    have hs3 : (rescheduleStep env a b now st g0).updatedTransfers =
        st.updatedTransfers ++ [st.subnet.nextPtr] := by
      rw [s3, setInsert_of_lt _ _ hup]
    rw [hfold, ih (rescheduleStep env a b now st g0)
      (by intro x hx; rw [hnext]; have := hrest x hx; omega)
      (by
        intro x hx
        rw [hs3] at hx
        rw [hnext]
        rcases List.mem_append.1 hx with h | h
        · have := hup x h; omega
        · simp at h; omega),
      hs3, hnext, List.length_cons, List.append_assoc]
    congr 1

/-- The function `rescheduleTransfers` on a non-empty bucket. -/
theorem rescheduleTransfers_nonempty {σ : Type} (env : Collaborators σ) (s : Subnet σ)
    (ba now : Nat) (bucket : List Nat)
    (hbucket : s.connectionsToTransfersMap ba = some bucket) (hne : bucket ≠ []) :
    rescheduleExit env s ba now =
      rescheduleLoop env (env.getSender s.bandwidthManager ba)
        (env.getReceiver s.bandwidthManager ba) now bucket (rescheduleEntry env s ba) ∧
    rescheduleTransfers env s ba now =
      ({ (rescheduleExit env s ba now).subnet with
          connectionsToTransfersMap :=
            Function.update (rescheduleExit env s ba now).subnet.connectionsToTransfersMap ba
              (some (rescheduleExit env s ba now).updatedTransfers) },
        (rescheduleExit env s ba now).newEvents) := by
  have hget : (s.connectionsToTransfersMap ba).getD [] = bucket := by rw [hbucket]; rfl
  constructor
  · unfold rescheduleExit; rw [hget]
  · unfold rescheduleTransfers
    simp only [hget, hne, if_false]

/-- What `rescheduleTransfers` does on a non-empty bucket whose generations are
at addresses below the next free one: the new bucket consists of the new
addresses; an old generation is superseded and every other old address is
untouched; the `i`-th old generation gets the `i`-th value of the share
sequence, its replacement is at the `i`-th new address and its delivery event
is the `i`-th event. -/
theorem rescheduleTransfers_spec {σ : Type} (env : Collaborators σ) (s : Subnet σ)
    (ba now : Nat) (bucket : List Nat)
    (hbucket : s.connectionsToTransfersMap ba = some bucket) (hne : bucket ≠ [])
    (hwf : ∀ g ∈ bucket, g < s.nextPtr) :
    (rescheduleTransfers env s ba now).1.nextPtr = s.nextPtr + bucket.length ∧
    (rescheduleTransfers env s ba now).1.connectionsToTransfersMap ba =
      some (List.range' s.nextPtr bucket.length) ∧
    (∀ q, q < s.nextPtr →
      (rescheduleTransfers env s ba now).1.heap q =
        if q ∈ bucket then superseded (s.heap q) else s.heap q) ∧
    (rescheduleTransfers env s ba now).2.length = bucket.length ∧
    (rescheduleExit env s ba now).assignedBandwidth =
      shareSequence (env.getTCPThroughput (env.getSender s.bandwidthManager ba)
          (env.getReceiver s.bandwidthManager ba))
        (bucket.map (isTCP s.heap)) (env.getAllocatedBandwidth s.bandwidthManager ba)
        (bucket.length : Int) ∧
    (rescheduleExit env s ba now).remainingBandwidth =
      env.getAllocatedBandwidth s.bandwidthManager ba -
        (shareSequence (env.getTCPThroughput (env.getSender s.bandwidthManager ba)
            (env.getReceiver s.bandwidthManager ba))
          (bucket.map (isTCP s.heap)) (env.getAllocatedBandwidth s.bandwidthManager ba)
          (bucket.length : Int)).sum ∧
    (∀ i g, bucket[i]? = some g →
      ∃ r, (shareSequence (env.getTCPThroughput (env.getSender s.bandwidthManager ba)
            (env.getReceiver s.bandwidthManager ba))
          (bucket.map (isTCP s.heap)) (env.getAllocatedBandwidth s.bandwidthManager ba)
          (bucket.length : Int))[i]? = some r ∧
        (rescheduleTransfers env s ba now).1.heap (s.nextPtr + i) =
          replacement env now (s.heap g) r ∧
        (rescheduleTransfers env s ba now).2[i]? =
          some ⟨SubnetMessage.MESSAGE_RECVD (s.nextPtr + i),
            rescheduleDelay env (env.getSender s.bandwidthManager ba)
              (env.getReceiver s.bandwidthManager ba) now (s.heap g) r⟩) := by
  obtain ⟨hexit, hres⟩ := rescheduleTransfers_nonempty env s ba now bucket hbucket hne
  have hget : (s.connectionsToTransfersMap ba).getD [] = bucket := by rw [hbucket]; rfl
  have hwf0 : ∀ g ∈ bucket, g < (rescheduleEntry env s ba).subnet.nextPtr := hwf
  obtain ⟨l1, l2, l3, _, l5, _, _, _⟩ := rescheduleLoop_spec env
    (env.getSender s.bandwidthManager ba) (env.getReceiver s.bandwidthManager ba) now bucket
    (rescheduleEntry env s ba) hwf0
  obtain ⟨n1, _, n3⟩ := rescheduleLoop_new env
    (env.getSender s.bandwidthManager ba) (env.getReceiver s.bandwidthManager ba) now bucket
    (rescheduleEntry env s ba) hwf0
  have u1 := rescheduleLoop_updated env
    (env.getSender s.bandwidthManager ba) (env.getReceiver s.bandwidthManager ba) now bucket
    (rescheduleEntry env s ba) hwf0 (by intro x hx; simp [rescheduleEntry] at hx)
  rw [← hexit] at l1 l2 l3 l5 n1 n3 u1
  have e1 : (rescheduleEntry env s ba).subnet.nextPtr = s.nextPtr := rfl
  have e2 : (rescheduleEntry env s ba).subnet.heap = s.heap := rfl
  have e3 : (rescheduleEntry env s ba).remainingBandwidth =
      env.getAllocatedBandwidth s.bandwidthManager ba := rfl
  have e4 : (rescheduleEntry env s ba).remainingTransfers = (bucket.length : Int) := by
    simp only [rescheduleEntry, hget]
  have e5 : (rescheduleEntry env s ba).assignedBandwidth = [] := rfl
  have e6 : (rescheduleEntry env s ba).newEvents = [] := rfl
  have e7 : (rescheduleEntry env s ba).updatedTransfers = [] := rfl
  simp only [e1, e2, e3, e4, e5, e6, e7, List.nil_append, List.length_nil, Nat.zero_add]
    at l1 l2 l3 l5 n1 n3 u1
  rw [hres]
  refine ⟨l1, ?_, l5, ?_, l2, l3, ?_⟩
  · simp only [Function.update_same, u1]
  · simpa using n1
  · intro i g hi
    obtain ⟨r, r1, r2, r3⟩ := n3 i g hi
    refine ⟨r, r1, r2, ?_⟩
    simpa using r3

theorem rescheduleStep_messageId_old {σ : Type} (env : Collaborators σ) (a b now : Nat)
    (st : RescheduleState σ) (tp : Nat) (h : tp < st.subnet.nextPtr) (q : Nat)
    (hq : q < st.subnet.nextPtr) :
    ((rescheduleStep env a b now st tp).subnet.heap q).message = (st.subnet.heap q).message := by
  rw [rescheduleStep_heap_old env a b now st tp h q hq]
  by_cases hqt : q = tp
  · rw [if_pos hqt]; rfl
  · rw [if_neg hqt]

/-- The index after the loop: an id that no transfer of the loop carries keeps
its entry; the id of a transfer is mapped to one of the new addresses, and to
the new address of that transfer when no later transfer carries the same id. -/
theorem rescheduleLoop_index {σ : Type} (env : Collaborators σ) (a b now : Nat)
    (l : List Nat) :
    ∀ st : RescheduleState σ, (∀ g ∈ l, g < st.subnet.nextPtr) →
      (∀ msgId, (∀ g ∈ l, (st.subnet.heap g).message.messageId ≠ msgId) →
        (rescheduleLoop env a b now l st).subnet.messageIdsToTransfersMap msgId =
          st.subnet.messageIdsToTransfersMap msgId) ∧
      (∀ g ∈ l, ∃ i, i < l.length ∧
        (rescheduleLoop env a b now l st).subnet.messageIdsToTransfersMap
          (st.subnet.heap g).message.messageId = some (st.subnet.nextPtr + i)) ∧
      (∀ i g, l[i]? = some g →
        (∀ j g2, i < j → l[j]? = some g2 →
          (st.subnet.heap g2).message.messageId ≠ (st.subnet.heap g).message.messageId) →
        (rescheduleLoop env a b now l st).subnet.messageIdsToTransfersMap
          (st.subnet.heap g).message.messageId = some (st.subnet.nextPtr + i)) := by
  induction l with
  | nil =>
    intro st _
    refine ⟨fun _ _ => rfl, ?_, ?_⟩
    · intro g hg; cases hg
    · intro i g h; simp at h
  | cons g0 rest ih =>
    intro st hwf
    have hg : g0 < st.subnet.nextPtr := hwf g0 (List.mem_cons_self _ _)
    have hrest : ∀ x ∈ rest, x < st.subnet.nextPtr :=
      fun x hx => hwf x (List.mem_cons_of_mem _ hx)
    obtain ⟨_, _, _, _, _, s6⟩ := rescheduleStep_spec env a b now st g0 (by omega)
    have hnext : (rescheduleStep env a b now st g0).subnet.nextPtr = st.subnet.nextPtr + 1 := by
      rw [s6]
    have hidx : (rescheduleStep env a b now st g0).subnet.messageIdsToTransfersMap =
        Function.update st.subnet.messageIdsToTransfersMap
          (st.subnet.heap g0).message.messageId (some st.subnet.nextPtr) := by
      rw [s6]
    have hwf1 : ∀ x ∈ rest, x < (rescheduleStep env a b now st g0).subnet.nextPtr := by
      intro x hx; rw [hnext]; have := hrest x hx; omega
    have hmsg : ∀ x ∈ rest, ((rescheduleStep env a b now st g0).subnet.heap x).message =
        (st.subnet.heap x).message :=
      fun x hx => rescheduleStep_messageId_old env a b now st g0 hg x (hrest x hx)
    have hfold : rescheduleLoop env a b now (g0 :: rest) st =
        rescheduleLoop env a b now rest (rescheduleStep env a b now st g0) := rfl
    obtain ⟨i1, i2, i3⟩ := ih (rescheduleStep env a b now st g0) hwf1
    rw [hfold]
    have frame : ∀ msgId, (∀ g ∈ rest, (st.subnet.heap g).message.messageId ≠ msgId) →
        (rescheduleLoop env a b now rest (rescheduleStep env a b now st g0)).subnet.messageIdsToTransfersMap
          msgId = Function.update st.subnet.messageIdsToTransfersMap
            (st.subnet.heap g0).message.messageId (some st.subnet.nextPtr) msgId := by
      intro msgId hno
      rw [i1 msgId (by intro g hgr; rw [hmsg g hgr]; exact hno g hgr), hidx]
    refine ⟨?_, ?_, ?_⟩
    · intro msgId hno
      rw [frame msgId (fun g hgr => hno g (List.mem_cons_of_mem _ hgr))]
      exact Function.update_noteq (fun h => hno g0 (List.mem_cons_self _ _) h.symm) _ _
    · intro g hgl
      by_cases hex : ∃ g2 ∈ rest, (st.subnet.heap g2).message.messageId =
          (st.subnet.heap g).message.messageId
      · obtain ⟨g2, hg2, hid⟩ := hex
        obtain ⟨i, hi, hmap⟩ := i2 g2 hg2
        rw [hmsg g2 hg2, hid, hnext] at hmap
        exact ⟨i + 1, by rw [List.length_cons]; omega, by rw [hmap]; congr 1; omega⟩
      · have hno : ∀ g2 ∈ rest, (st.subnet.heap g2).message.messageId ≠
            (st.subnet.heap g).message.messageId := fun g2 hg2 hid => hex ⟨g2, hg2, hid⟩
        have hgg : g = g0 := by
          rcases List.mem_cons.1 hgl with h | h
          · exact h
          · exact absurd rfl (hno g h)
        subst hgg
        refine ⟨0, by rw [List.length_cons]; omega, ?_⟩
        rw [frame _ hno, Function.update_same, Nat.add_zero]
    · intro i g hi hlater
      cases i with
      | zero =>
        simp only [List.getElem?_cons_zero, Option.some.injEq] at hi
        subst hi
        have hno : ∀ g2 ∈ rest, (st.subnet.heap g2).message.messageId ≠
            (st.subnet.heap g0).message.messageId := by
          intro g2 hg2
          obtain ⟨j, hj, hjg⟩ := List.getElem_of_mem hg2
          exact hlater (j + 1) g2 (by omega)
            (by simp only [List.getElem?_cons_succ]; rw [List.getElem?_eq_getElem hj, hjg])
        rw [frame _ hno, Function.update_same, Nat.add_zero]
      | succ j =>
        simp only [List.getElem?_cons_succ] at hi
        have hgr : g ∈ rest := List.getElem?_mem hi
        have := i3 j g hi (by
          intro k g2 hk hk2
          rw [hmsg g2 (List.getElem?_mem hk2), hmsg g hgr]
          exact hlater (k + 1) g2 (by omega) (by simpa using hk2))
        rw [hmsg g hgr, hnext] at this
        rw [this]
        congr 1
        omega

/-- The index after `rescheduleTransfers`, as in `rescheduleLoop_index`. -/
theorem rescheduleTransfers_index {σ : Type} (env : Collaborators σ) (s : Subnet σ)
    (ba now : Nat) (bucket : List Nat)
    (hbucket : s.connectionsToTransfersMap ba = some bucket) (hne : bucket ≠ [])
    (hwf : ∀ g ∈ bucket, g < s.nextPtr) :
    (∀ msgId, (∀ g ∈ bucket, (s.heap g).message.messageId ≠ msgId) →
      (rescheduleTransfers env s ba now).1.messageIdsToTransfersMap msgId =
        s.messageIdsToTransfersMap msgId) ∧
    (∀ g ∈ bucket, ∃ i, i < bucket.length ∧
      (rescheduleTransfers env s ba now).1.messageIdsToTransfersMap
        (s.heap g).message.messageId = some (s.nextPtr + i)) ∧
    (∀ i g, bucket[i]? = some g →
      (∀ j g2, i < j → bucket[j]? = some g2 →
        (s.heap g2).message.messageId ≠ (s.heap g).message.messageId) →
      (rescheduleTransfers env s ba now).1.messageIdsToTransfersMap
        (s.heap g).message.messageId = some (s.nextPtr + i)) := by
  obtain ⟨hexit, hres⟩ := rescheduleTransfers_nonempty env s ba now bucket hbucket hne
  have hwf0 : ∀ g ∈ bucket, g < (rescheduleEntry env s ba).subnet.nextPtr := hwf
  have h := rescheduleLoop_index env
    (env.getSender s.bandwidthManager ba) (env.getReceiver s.bandwidthManager ba) now bucket
    (rescheduleEntry env s ba) hwf0
  rw [← hexit] at h
  rw [hres]
  exact h

/-! ## C14: which old generations are marked obsolete -/

/-- C14: for an allocation with a non-empty bucket (of generations at addresses
already allocated), after `rescheduleTransfers` an old generation `g` is
obsolete exactly when it was obsolete before or was not a first generation; a
first generation that was not obsolete stays not obsolete, although it is no
longer in the bucket and the index no longer maps the id of its message to
it; every generation created by the call has its first-generation flag
cleared, and so is obsolete after the next `rescheduleTransfers` of the
allocation. -/
theorem rescheduleTransfers_marks_obsolete {σ : Type} (env : Collaborators σ) (s : Subnet σ)
    (ba now : Nat) (bucket : List Nat)
    (hbucket : s.connectionsToTransfersMap ba = some bucket) (hne : bucket ≠ [])
    (hwf : ∀ g ∈ bucket, g < s.nextPtr) :
    (∀ g ∈ bucket, ((rescheduleTransfers env s ba now).1.heap g).obsolete = true ↔
      ((s.heap g).obsolete = true ∨ (s.heap g).firstSchedule = false)) ∧
    (∀ g ∈ bucket, (s.heap g).firstSchedule = true → (s.heap g).obsolete = false →
      ((rescheduleTransfers env s ba now).1.heap g).obsolete = false ∧
      (∀ newBucket, (rescheduleTransfers env s ba now).1.connectionsToTransfersMap ba
        = some newBucket → g ∉ newBucket) ∧
      (rescheduleTransfers env s ba now).1.messageIdsToTransfersMap
        (s.heap g).message.messageId ≠ some g) ∧
    (rescheduleTransfers env s ba now).1.connectionsToTransfersMap ba =
      some (List.range' s.nextPtr bucket.length) ∧
    (∀ g2 ∈ List.range' s.nextPtr bucket.length,
      ((rescheduleTransfers env s ba now).1.heap g2).firstSchedule = false) ∧
    (∀ (later : Nat), ∀ g2 ∈ List.range' s.nextPtr bucket.length,
      ((rescheduleTransfers env (rescheduleTransfers env s ba now).1 ba later).1.heap g2).obsolete
        = true) := by
  obtain ⟨r1, r2, r3, _, _, _, r7⟩ := rescheduleTransfers_spec env s ba now bucket hbucket hne hwf
  obtain ⟨_, x2, _⟩ := rescheduleTransfers_index env s ba now bucket hbucket hne hwf
  have hnew : ∀ g2 ∈ List.range' s.nextPtr bucket.length,
      ((rescheduleTransfers env s ba now).1.heap g2).firstSchedule = false := by
    intro g2 hg2
    have hr := List.mem_range'_1.1 hg2
    have hi : g2 - s.nextPtr < bucket.length := by omega
    obtain ⟨r, _, hheap, _⟩ := r7 (g2 - s.nextPtr) (bucket[g2 - s.nextPtr])
      (List.getElem?_eq_getElem hi)
    rw [show s.nextPtr + (g2 - s.nextPtr) = g2 by omega] at hheap
    rw [hheap]
    rfl
  have hlen : 0 < bucket.length := List.length_pos.2 hne
  refine ⟨?_, ?_, r2, hnew, ?_⟩
  · intro g hg
    rw [r3 g (hwf g hg), if_pos hg]
    unfold superseded
    cases (s.heap g).obsolete <;> cases (s.heap g).firstSchedule <;> simp
  · intro g hg hf ho
    refine ⟨?_, ?_, ?_⟩
    · rw [r3 g (hwf g hg), if_pos hg]
      unfold superseded
      simp [hf, ho]
    · intro newBucket hnb hmem
      rw [r2] at hnb
      rw [← Option.some.inj hnb] at hmem
      have h1 := List.mem_range'_1.1 hmem
      have h2 := hwf g hg
      omega
    · obtain ⟨i, _, hi⟩ := x2 g hg
      rw [hi]
      intro h
      have h1 := Option.some.inj h
      have h2 := hwf g hg
      omega
  · intro later g2 hg2
    have hne2 : List.range' s.nextPtr bucket.length ≠ [] :=
      List.ne_nil_of_length_pos (by rw [List.length_range']; exact hlen)
    have hwf2 : ∀ g ∈ List.range' s.nextPtr bucket.length,
        g < (rescheduleTransfers env s ba now).1.nextPtr := by
      intro g hg
      rw [r1]
      have := List.mem_range'_1.1 hg
      omega
    obtain ⟨_, _, q3, _⟩ := rescheduleTransfers_spec env (rescheduleTransfers env s ba now).1 ba
      later (List.range' s.nextPtr bucket.length) r2 hne2 hwf2
    rw [q3 g2 (hwf2 g2 hg2), if_pos hg2]
    unfold superseded
    simp [hnew g2 hg2]

/-- C14 at a concrete input: in `sentState` the bucket of allocation 0 holds
the first generation, at address 0; after `rescheduleTransfers` at tick 1 it
is still not obsolete, and its replacement, at address 1, is obsolete after
the next `rescheduleTransfers`, at tick 2. -/
theorem rescheduleTransfers_marks_obsolete_witness :
    sentState.connectionsToTransfersMap 0 = some [0] ∧
    (sentState.heap 0).firstSchedule = true ∧
    ((rescheduleTransfers exampleEnv sentState 0 1).1.heap 0).obsolete = false ∧
    ((rescheduleTransfers exampleEnv (rescheduleTransfers exampleEnv sentState 0 1).1 0 2).1.heap
      1).obsolete = true :=
  ⟨rfl, rfl,
    ((rescheduleTransfers_marks_obsolete exampleEnv sentState 0 1 [0] rfl (by decide)
      (by intro g hg; rw [List.mem_singleton.1 hg]; decide)).2.1 0 (List.mem_singleton.2 rfl)
      rfl rfl).1,
    (rescheduleTransfers_marks_obsolete exampleEnv sentState 0 1 [0] rfl (by decide)
      (by intro g hg; rw [List.mem_singleton.1 hg]; decide)).2.2.2.2 2 1 (by decide)⟩

/-! ## Shares and pool in exact arithmetic -/

theorem shareSequence_length (T : ℚ) (l : List Bool) :
    ∀ (pool : ℚ) (count : Int), (shareSequence T l pool count).length = l.length := by
  induction l with
  | nil => intro _ _; rfl
  | cons t rest ih =>
    intro pool count
    simp only [shareSequence, List.length_cons, ih]

/-- From a pool that is not negative, with a throughput that is not negative
and a counter that is at least the number of transfers, every share is
between 0 and the throughput cap where it applies, and the shares add up to
at most the pool. -/
theorem shareSequence_bounds (T : ℚ) (hT : 0 ≤ T) (l : List Bool) :
    ∀ (pool : ℚ) (count : Int), 0 ≤ pool → (l.length : Int) ≤ count →
      (∀ x ∈ shareSequence T l pool count, 0 ≤ x) ∧
      (shareSequence T l pool count).sum ≤ pool ∧
      (∀ (i : Nat) (r : ℚ), l[i]? = some true →
        (shareSequence T l pool count)[i]? = some r → r ≤ T) := by
  induction l with
  | nil =>
    intro pool count hp _
    refine ⟨by simp [shareSequence], by simpa [shareSequence] using hp, ?_⟩
    intro i r h
    simp at h
  | cons t rest ih =>
    intro pool count hp hc
    simp only [List.length_cons, Nat.cast_add, Nat.cast_one] at hc
    have hcount : (1 : ℚ) ≤ (count : ℚ) := by
      have : (1 : Int) ≤ count := by omega
      exact_mod_cast this
    have hshare0 : 0 ≤ pool / (count : ℚ) := div_nonneg hp (by linarith)
    have hshare1 : pool / (count : ℚ) ≤ pool := div_le_self hp hcount
    have hbw : 0 ≤ (if t = true then min (pool / (count : ℚ)) T else pool / (count : ℚ)) ∧
        (if t = true then min (pool / (count : ℚ)) T else pool / (count : ℚ)) ≤ pool ∧
        (t = true → (if t = true then min (pool / (count : ℚ)) T else pool / (count : ℚ)) ≤ T) := by
      by_cases ht : t = true
      · simp only [ht, if_true]
        exact ⟨le_min hshare0 hT, le_trans (min_le_left _ _) hshare1, fun _ => min_le_right _ _⟩
      · simp only [ht, if_false]
        exact ⟨hshare0, hshare1, fun h => by cases h⟩
    obtain ⟨b0, b1, b2⟩ := hbw
    obtain ⟨i1, i2, i3⟩ := ih
      (pool - (if t = true then min (pool / (count : ℚ)) T else pool / (count : ℚ))) (count - 1)
      (by linarith) (by omega)
    refine ⟨?_, ?_, ?_⟩
    · intro x hx
      simp only [shareSequence, List.mem_cons] at hx
      rcases hx with rfl | hx
      · exact b0
      · exact i1 x hx
    · simp only [shareSequence, List.sum_cons]
      linarith
    · intro i r hi hr
      cases i with
      | zero =>
        simp only [List.getElem?_cons_zero, Option.some.injEq] at hi
        simp only [shareSequence, List.getElem?_cons_zero, Option.some.injEq] at hr
        rw [← hr]
        exact b2 hi
      | succ j =>
        simp only [List.getElem?_cons_succ] at hi
        simp only [shareSequence, List.getElem?_cons_succ] at hr
        exact i3 j r hi hr

/-- When every value of a share sequence is the uncapped share (what is left
of the pool divided by the number of transfers left), the values add up to
the pool. -/
theorem sum_eq_pool_of_uncapped (A : List ℚ) (pool : ℚ) (n : Nat) (hn : 0 < n)
    (hlen : A.length = n)
    (hun : ∀ (i : Nat) (r : ℚ), A[i]? = some r →
      r = (pool - (A.take i).sum) / ((n : ℚ) - (i : ℚ))) :
    A.sum = pool := by
  have hi : n - 1 < A.length := by omega
  have hlast := hun (n - 1) (A[n - 1]) (List.getElem?_eq_getElem hi)
  have hcast : ((n : ℚ) - ((n - 1 : Nat) : ℚ)) = 1 := by
    have : ((n - 1 : Nat) : ℚ) = (n : ℚ) - 1 := by
      rw [Nat.cast_sub hn]; simp
    rw [this]; ring
  rw [hcast, div_one] at hlast
  have hsplit : A = A.take (n - 1) ++ [A[n - 1]] := by
    have h1 : A.drop (n - 1) = [A[n - 1]] := by
      rw [List.drop_eq_getElem_cons hi]
      congr 1
      apply List.drop_of_length_le
      omega
    rw [← h1, List.take_append_drop]
  have hsum : A.sum = (A.take (n - 1)).sum + A[n - 1] := by
    have h2 := congrArg List.sum hsplit
    rw [List.sum_append, List.sum_singleton] at h2
    exact h2
  rw [hsum, hlast]
  ring

/-- The loop of `rescheduleTransfers` in exact arithmetic, for an allocation
with granted rate `B ≥ 0`, TCP throughput `T ≥ 0` and a non-empty bucket (of
generations at addresses already allocated): one share per generation; every
share is at least 0; the share of every TCP generation is at most `T`; the
pool is at least 0 after every iteration; and the shares add up to `B` minus
the final pool, hence to at most `B`, and to exactly `B` when no share was
capped (every share is what was left of the pool divided by the number of
generations left). -/
theorem rescheduleTransfers_exact_shares {σ : Type} (env : Collaborators σ)
    (s : Subnet σ) (ba now : Nat) (bucket : List Nat)
    (hbucket : s.connectionsToTransfersMap ba = some bucket) (hne : bucket ≠ [])
    (hwf : ∀ g ∈ bucket, g < s.nextPtr)
    (hB : 0 ≤ env.getAllocatedBandwidth s.bandwidthManager ba)
    (hT : 0 ≤ env.getTCPThroughput (env.getSender s.bandwidthManager ba)
      (env.getReceiver s.bandwidthManager ba)) :
    (rescheduleExit env s ba now).assignedBandwidth.length = bucket.length ∧
    (∀ x ∈ (rescheduleExit env s ba now).assignedBandwidth, 0 ≤ x) ∧
    (∀ (i g : Nat) (r : ℚ), bucket[i]? = some g →
      (rescheduleExit env s ba now).assignedBandwidth[i]? = some r →
      (s.heap g).message.l4ProtocolType = L4ProtocolType.TCP →
      r ≤ env.getTCPThroughput (env.getSender s.bandwidthManager ba)
        (env.getReceiver s.bandwidthManager ba)) ∧
    (∀ done rest : List Nat, bucket = done ++ rest →
      0 ≤ (rescheduleLoop env (env.getSender s.bandwidthManager ba)
        (env.getReceiver s.bandwidthManager ba) now done
        (rescheduleEntry env s ba)).remainingBandwidth) ∧
    (rescheduleExit env s ba now).assignedBandwidth.sum =
      env.getAllocatedBandwidth s.bandwidthManager ba -
        (rescheduleExit env s ba now).remainingBandwidth ∧
    (rescheduleExit env s ba now).assignedBandwidth.sum ≤
      env.getAllocatedBandwidth s.bandwidthManager ba ∧
    ((∀ (i : Nat) (r : ℚ), (rescheduleExit env s ba now).assignedBandwidth[i]? = some r →
        r = (env.getAllocatedBandwidth s.bandwidthManager ba -
            ((rescheduleExit env s ba now).assignedBandwidth.take i).sum) /
          ((bucket.length : ℚ) - (i : ℚ))) →
      (rescheduleExit env s ba now).assignedBandwidth.sum =
        env.getAllocatedBandwidth s.bandwidthManager ba) := by
  obtain ⟨_, _, _, _, r5, r6, _⟩ := rescheduleTransfers_spec env s ba now bucket hbucket hne hwf
  have hget : (s.connectionsToTransfersMap ba).getD [] = bucket := by rw [hbucket]; rfl
  have hlen : (shareSequence (env.getTCPThroughput (env.getSender s.bandwidthManager ba)
          (env.getReceiver s.bandwidthManager ba))
        (bucket.map (isTCP s.heap)) (env.getAllocatedBandwidth s.bandwidthManager ba)
        (bucket.length : Int)).length = bucket.length := by
    rw [shareSequence_length, List.length_map]
  obtain ⟨b1, b2, b3⟩ := shareSequence_bounds _ hT (bucket.map (isTCP s.heap))
    (env.getAllocatedBandwidth s.bandwidthManager ba) (bucket.length : Int) hB
    (by rw [List.length_map])
  rw [r5, r6]
  refine ⟨hlen, b1, ?_, ?_, by ring, b2, ?_⟩
  · intro i g r hi hr htcp
    refine b3 i r ?_ hr
    rw [List.getElem?_map, hi]
    simp [isTCP, htcp]
  · intro done rest hsplit
    have hwf1 : ∀ g ∈ done, g < (rescheduleEntry env s ba).subnet.nextPtr := by
      intro g hg
      exact hwf g (by rw [hsplit]; exact List.mem_append_left _ hg)
    obtain ⟨_, _, l3, _⟩ := rescheduleLoop_spec env (env.getSender s.bandwidthManager ba)
      (env.getReceiver s.bandwidthManager ba) now done (rescheduleEntry env s ba) hwf1
    rw [l3]
    have hcount : ((done.map (isTCP (rescheduleEntry env s ba).subnet.heap)).length : Int) ≤
        (rescheduleEntry env s ba).remainingTransfers := by
      simp only [rescheduleEntry, hget, List.length_map]
      rw [hsplit, List.length_append]
      push_cast
      omega
    have hB0 : 0 ≤ (rescheduleEntry env s ba).remainingBandwidth := hB
    have := (shareSequence_bounds _ hT (done.map (isTCP (rescheduleEntry env s ba).subnet.heap))
      (rescheduleEntry env s ba).remainingBandwidth (rescheduleEntry env s ba).remainingTransfers
      hB0 hcount).2.1
    linarith
  · intro hun
    exact sum_eq_pool_of_uncapped _ _ bucket.length (List.length_pos.2 hne) hlen hun

/-! ## Rounding to `double` -/

theorem roundHalfEven_near (x : ℚ) :
    |(roundHalfEven x : ℚ) - x| ≤ 1 / 2 ∧ ⌊x⌋ ≤ roundHalfEven x ∧ roundHalfEven x ≤ ⌊x⌋ + 1 := by
  have h1 : (⌊x⌋ : ℚ) ≤ x := Int.floor_le x
  have h2 : x < (⌊x⌋ : ℚ) + 1 := Int.lt_floor_add_one x
  unfold roundHalfEven
  split_ifs with ha hb hc
  · refine ⟨?_, le_refl _, by omega⟩
    rw [abs_le]; constructor <;> linarith
  · refine ⟨?_, by omega, le_refl _⟩
    push_cast
    rw [abs_le]; constructor <;> linarith
  · refine ⟨?_, le_refl _, by omega⟩
    rw [abs_le]; constructor <;> linarith
  · refine ⟨?_, by omega, le_refl _⟩
    push_cast
    rw [abs_le]; constructor <;> linarith

theorem roundHalfEven_intCast (n : Int) : roundHalfEven (n : ℚ) = n := by
  unfold roundHalfEven
  simp

theorem roundHalfEven_mono {x y : ℚ} (h : x ≤ y) : roundHalfEven x ≤ roundHalfEven y := by
  by_contra hlt
  push_neg at hlt
  have hx := (roundHalfEven_near x).1
  have hy := (roundHalfEven_near y).1
  rw [abs_le] at hx hy
  have hc : (roundHalfEven y : ℚ) + 1 ≤ (roundHalfEven x : ℚ) := by exact_mod_cast hlt
  have hxy : x = y := by linarith [hx.2, hy.1]
  subst hxy
  exact lt_irrefl _ hlt

theorem log_two_of_binade (x : ℚ) (e : Int) (h1 : (2 : ℚ) ^ e ≤ x) (h2 : x < (2 : ℚ) ^ (e + 1)) :
    Int.log 2 |x| = e := by
  have hpos : 0 < x := lt_of_lt_of_le (zpow_pos (by norm_num) e) h1
  rw [abs_of_pos hpos]
  have a : e ≤ Int.log 2 x :=
    (Int.zpow_le_iff_le_log (by norm_num) hpos).1 (by simpa using h1)
  have b : Int.log 2 x < e + 1 :=
    (Int.lt_zpow_iff_log_lt (by norm_num) hpos).1 (by simpa using h2)
  omega

theorem binade_of_pos (x : ℚ) (hx : 0 < x) :
    (2 : ℚ) ^ Int.log 2 |x| ≤ x ∧ x < (2 : ℚ) ^ (Int.log 2 |x| + 1) := by
  rw [abs_of_pos hx]
  have a := Int.zpow_log_le_self (by norm_num : 1 < 2) hx
  have b := Int.lt_zpow_succ_log_self (by norm_num : 1 < 2) x
  constructor
  · simpa using a
  · simpa using b

theorem roundDouble_of_binade (x : ℚ) (e : Int) (h1 : (2 : ℚ) ^ e ≤ x)
    (h2 : x < (2 : ℚ) ^ (e + 1)) :
    roundDouble x = (roundHalfEven (x / (2 : ℚ) ^ (e - 52)) : ℚ) * (2 : ℚ) ^ (e - 52) := by
  unfold roundDouble
  rw [log_two_of_binade x e h1 h2]

theorem roundDouble_zero : roundDouble 0 = 0 := by
  simp [roundDouble, roundHalfEven]

theorem zpow_split (e : Int) : (2 : ℚ) ^ e = 2 ^ 52 * (2 : ℚ) ^ (e - 52) ∧
    (2 : ℚ) ^ (e + 1) = 2 ^ 53 * (2 : ℚ) ^ (e - 52) := by
  have h2 : (2 : ℚ) ≠ 0 := by norm_num
  constructor
  · rw [show e = 52 + (e - 52) by ring, zpow_add₀ h2]
    norm_num
  · rw [show e + 1 = 53 + (e - 52) by ring, zpow_add₀ h2]
    norm_num

/-- A positive value in the binade of `e` is rounded to a multiple
`m * 2 ^ (e - 52)` with `2 ^ 52 ≤ m ≤ 2 ^ 53`. -/
theorem roundDouble_mantissa (x : ℚ) (e : Int) (h1 : (2 : ℚ) ^ e ≤ x)
    (h2 : x < (2 : ℚ) ^ (e + 1)) :
    ∃ m : Int, roundDouble x = (m : ℚ) * (2 : ℚ) ^ (e - 52) ∧ 2 ^ 52 ≤ m ∧ m ≤ 2 ^ 53 := by
  have hu : (0 : ℚ) < (2 : ℚ) ^ (e - 52) := zpow_pos (by norm_num) _
  obtain ⟨s1, s2⟩ := zpow_split e
  refine ⟨roundHalfEven (x / (2 : ℚ) ^ (e - 52)), roundDouble_of_binade x e h1 h2, ?_, ?_⟩
  · have hq : ((2 ^ 52 : Int) : ℚ) ≤ x / (2 : ℚ) ^ (e - 52) := by
      rw [le_div_iff₀ hu]
      have hc : ((2 ^ 52 : Int) : ℚ) = 2 ^ 52 := by norm_num
      rw [hc, ← s1]
      exact h1
    have := roundHalfEven_mono hq
    rw [roundHalfEven_intCast] at this
    exact this
  · have hq : x / (2 : ℚ) ^ (e - 52) ≤ ((2 ^ 53 : Int) : ℚ) := by
      rw [div_le_iff₀ hu]
      have hc : ((2 ^ 53 : Int) : ℚ) = 2 ^ 53 := by norm_num
      rw [hc, ← s2]
      exact le_of_lt h2
    have := roundHalfEven_mono hq
    rw [roundHalfEven_intCast] at this
    exact this

theorem roundDouble_repr (k j : Int) (h1 : 2 ^ 52 ≤ k) (h2 : k < 2 ^ 53) :
    roundDouble ((k : ℚ) * (2 : ℚ) ^ j) = (k : ℚ) * (2 : ℚ) ^ j := by
  have hu : (0 : ℚ) < (2 : ℚ) ^ j := zpow_pos (by norm_num) _
  obtain ⟨s1, s2⟩ := zpow_split (j + 52)
  have hj : j + 52 - 52 = j := by ring
  rw [hj] at s1 s2
  have hk1 : ((2 : ℚ) ^ 52) ≤ (k : ℚ) := by exact_mod_cast h1
  have hk2 : (k : ℚ) < (2 : ℚ) ^ 53 := by exact_mod_cast h2
  have b1 : (2 : ℚ) ^ (j + 52) ≤ (k : ℚ) * (2 : ℚ) ^ j := by
    rw [s1]
    exact mul_le_mul_of_nonneg_right hk1 (le_of_lt hu)
  have b2 : (k : ℚ) * (2 : ℚ) ^ j < (2 : ℚ) ^ (j + 52 + 1) := by
    rw [s2]
    exact mul_lt_mul_of_pos_right hk2 hu
  rw [roundDouble_of_binade _ (j + 52) b1 b2, hj, mul_div_assoc, div_self (ne_of_gt hu), mul_one,
    roundHalfEven_intCast]

theorem roundDouble_nonneg (x : ℚ) (hx : 0 ≤ x) : 0 ≤ roundDouble x := by
  unfold roundDouble
  have hu : (0 : ℚ) < (2 : ℚ) ^ (Int.log 2 |x| - 52) := zpow_pos (by norm_num) _
  have hq : ((0 : Int) : ℚ) ≤ x / (2 : ℚ) ^ (Int.log 2 |x| - 52) := by
    push_cast
    exact div_nonneg hx (le_of_lt hu)
  have := roundHalfEven_mono hq
  rw [roundHalfEven_intCast] at this
  have h0 : (0 : ℚ) ≤ (roundHalfEven (x / (2 : ℚ) ^ (Int.log 2 |x| - 52)) : ℚ) := by
    exact_mod_cast this
  exact mul_nonneg h0 (le_of_lt hu)

theorem roundDouble_mono (x y : ℚ) (hx : 0 ≤ x) (hxy : x ≤ y) : roundDouble x ≤ roundDouble y := by
  rcases eq_or_lt_of_le hx with h0 | hpos
  · rw [← h0, roundDouble_zero]
    exact roundDouble_nonneg y (le_trans hx hxy)
  · have hypos : 0 < y := lt_of_lt_of_le hpos hxy
    obtain ⟨x1, x2⟩ := binade_of_pos x hpos
    obtain ⟨y1, y2⟩ := binade_of_pos y hypos
    have hlog : Int.log 2 |x| ≤ Int.log 2 |y| := by
      rw [abs_of_pos hpos, abs_of_pos hypos]
      exact Int.log_mono_right hpos hxy
    rcases eq_or_lt_of_le hlog with he | hlt
    · unfold roundDouble
      rw [← he]
      have hu : (0 : ℚ) < (2 : ℚ) ^ (Int.log 2 |x| - 52) := zpow_pos (by norm_num) _
      have hq : x / (2 : ℚ) ^ (Int.log 2 |x| - 52) ≤ y / (2 : ℚ) ^ (Int.log 2 |x| - 52) :=
        div_le_div_of_nonneg_right hxy (le_of_lt hu)
      have := roundHalfEven_mono hq
      have hc : (roundHalfEven (x / (2 : ℚ) ^ (Int.log 2 |x| - 52)) : ℚ) ≤
          (roundHalfEven (y / (2 : ℚ) ^ (Int.log 2 |x| - 52)) : ℚ) := by exact_mod_cast this
      exact mul_le_mul_of_nonneg_right hc (le_of_lt hu)
    · obtain ⟨mx, hmx, _, hmx2⟩ := roundDouble_mantissa x _ x1 x2
      obtain ⟨my, hmy, hmy1, _⟩ := roundDouble_mantissa y _ y1 y2
      obtain ⟨_, sx2⟩ := zpow_split (Int.log 2 |x|)
      obtain ⟨sy1, _⟩ := zpow_split (Int.log 2 |y|)
      have hux : (0 : ℚ) < (2 : ℚ) ^ (Int.log 2 |x| - 52) := zpow_pos (by norm_num) _
      have huy : (0 : ℚ) < (2 : ℚ) ^ (Int.log 2 |y| - 52) := zpow_pos (by norm_num) _
      have a1 : roundDouble x ≤ (2 : ℚ) ^ (Int.log 2 |x| + 1) := by
        rw [hmx, sx2]
        have : (mx : ℚ) ≤ (2 : ℚ) ^ 53 := by exact_mod_cast hmx2
        exact mul_le_mul_of_nonneg_right this (le_of_lt hux)
      have a2 : (2 : ℚ) ^ (Int.log 2 |y|) ≤ roundDouble y := by
        rw [hmy, sy1]
        have : (2 : ℚ) ^ 52 ≤ (my : ℚ) := by exact_mod_cast hmy1
        exact mul_le_mul_of_nonneg_right this (le_of_lt huy)
      have a3 : (2 : ℚ) ^ (Int.log 2 |x| + 1) ≤ (2 : ℚ) ^ (Int.log 2 |y|) :=
        zpow_le_zpow_right₀ (by norm_num) (by omega)
      linarith

theorem roundDouble_idem (x : ℚ) (hx : 0 ≤ x) : roundDouble (roundDouble x) = roundDouble x := by
  rcases eq_or_lt_of_le hx with h0 | hpos
  · rw [← h0, roundDouble_zero, roundDouble_zero]
  · obtain ⟨x1, x2⟩ := binade_of_pos x hpos
    obtain ⟨m, hm, m1, m2⟩ := roundDouble_mantissa x _ x1 x2
    rw [hm]
    rcases eq_or_lt_of_le m2 with htop | hlt
    · have h2 : (2 : ℚ) ≠ 0 := by norm_num
      have : (m : ℚ) * (2 : ℚ) ^ (Int.log 2 |x| - 52) =
          ((2 ^ 52 : Int) : ℚ) * (2 : ℚ) ^ (Int.log 2 |x| - 52 + 1) := by
        rw [htop, zpow_add₀ h2]
        push_cast
        ring
      rw [this]
      exact roundDouble_repr _ _ (le_refl _) (by norm_num)
    · exact roundDouble_repr m _ m1 hlt

theorem roundHalfEven_of_lt_half (x : ℚ) (n : Int) (h1 : (n : ℚ) ≤ x) (h2 : x - (n : ℚ) < 1 / 2) :
    roundHalfEven x = n := by
  have hf : ⌊x⌋ = n := by
    rw [Int.floor_eq_iff]
    constructor
    · exact h1
    · linarith
  unfold roundHalfEven
  rw [hf, if_pos h2]

theorem roundHalfEven_of_tie_odd (x : ℚ) (n : Int) (h : x = (n : ℚ) + 1 / 2) (hodd : n % 2 = 1) :
    roundHalfEven x = n + 1 := by
  have hf : ⌊x⌋ = n := by
    rw [Int.floor_eq_iff]
    constructor <;> linarith
  have hd : x - (n : ℚ) = 1 / 2 := by linarith
  unfold roundHalfEven
  rw [hf, hd, if_neg (lt_irrefl _), if_neg (lt_irrefl _), if_neg (by omega)]

/-- The quotient `1 / 3` in `double`. -/
theorem roundDouble_third :
    roundDouble (1 / 3) = 6004799503160661 / 18014398509481984 := by
  rw [roundDouble_of_binade (1 / 3) (-2) (by norm_num) (by norm_num),
    roundHalfEven_of_lt_half _ 6004799503160661 (by norm_num) (by norm_num)]
  norm_num

/-- The difference of 1 and the `double` nearest to `1 / 3`, in `double`: a
tie, rounded to the even significand. -/
theorem roundDouble_two_thirds :
    roundDouble (1 - 6004799503160661 / 18014398509481984) =
      6004799503160662 / 9007199254740992 := by
  rw [roundDouble_of_binade _ (-1) (by norm_num) (by norm_num),
    roundHalfEven_of_tie_odd _ 6004799503160661 (by norm_num) (by decide)]
  norm_num

theorem roundDouble_third_up :
    roundDouble (6004799503160662 / 18014398509481984) =
      6004799503160662 / 18014398509481984 := by
  have h := roundDouble_repr 6004799503160662 (-54) (by norm_num) (by norm_num)
  have e : ((6004799503160662 : Int) : ℚ) * (2 : ℚ) ^ (-54 : Int) =
      6004799503160662 / 18014398509481984 := by norm_num
  rw [e] at h
  exact h

/-- The relative error of `roundDouble` on a value that is not negative is at
most `2 ^ (-53)`. -/
theorem roundDouble_le (z : ℚ) (hz : 0 ≤ z) : roundDouble z ≤ z + z / 2 ^ 53 := by
  rcases eq_or_lt_of_le hz with h0 | hpos
  · rw [← h0, roundDouble_zero]
    norm_num
  · obtain ⟨z1, _⟩ := binade_of_pos z hpos
    obtain ⟨s1, _⟩ := zpow_split (Int.log 2 |z|)
    have hu : (0 : ℚ) < (2 : ℚ) ^ (Int.log 2 |z| - 52) := zpow_pos (by norm_num) _
    have hnear := (roundHalfEven_near (z / (2 : ℚ) ^ (Int.log 2 |z| - 52))).1
    rw [abs_le] at hnear
    have hm : (roundHalfEven (z / (2 : ℚ) ^ (Int.log 2 |z| - 52)) : ℚ) ≤
        z / (2 : ℚ) ^ (Int.log 2 |z| - 52) + 1 / 2 := by linarith [hnear.2]
    have h1 : roundDouble z ≤
        (z / (2 : ℚ) ^ (Int.log 2 |z| - 52) + 1 / 2) * (2 : ℚ) ^ (Int.log 2 |z| - 52) := by
      unfold roundDouble
      exact mul_le_mul_of_nonneg_right hm (le_of_lt hu)
    have h2 : (z / (2 : ℚ) ^ (Int.log 2 |z| - 52) + 1 / 2) * (2 : ℚ) ^ (Int.log 2 |z| - 52) =
        z + (2 : ℚ) ^ (Int.log 2 |z| - 52) / 2 := by
      field_simp
      ring
    have h3 : (2 : ℚ) ^ (Int.log 2 |z| - 52) / 2 ≤ z / 2 ^ 53 := by
      rw [s1] at z1
      have h53 : (2 : ℚ) ^ 53 = 2 * 2 ^ 52 := by norm_num
      rw [div_le_iff₀ (by norm_num), div_mul_eq_mul_div, le_div_iff₀ (by norm_num), h53]
      linarith
    linarith

/-- The rounding `roundDouble` keeps 0, is monotone on values that are not
negative, keeps what it returns, and has a relative error of at most
`2 ^ (-53)`. -/
theorem doubleRounding_roundDouble : DoubleRounding roundDouble :=
  ⟨roundDouble_zero, roundDouble_mono, roundDouble_idem,
    fun x y _ _ h => roundDouble_le (x - y) (by linarith)⟩

/-- With the identity for the rounding, the iteration in `double` arithmetic
is the iteration in exact arithmetic. -/
theorem rescheduleStepDouble_id {σ : Type} (env : Collaborators σ) (a b now : Nat)
    (st : RescheduleState σ) (tp : Nat) :
    rescheduleStepDouble id env a b now st tp = rescheduleStep env a b now st tp := rfl

/-! ## The loop of `rescheduleTransfers` in `double` arithmetic -/

/-- One iteration of the loop in `double` arithmetic, for an old generation at
an address other than the next free one. -/
theorem rescheduleStepDouble_spec {σ : Type} (fl : ℚ → ℚ) (env : Collaborators σ) (a b now : Nat)
    (st : RescheduleState σ) (tp : Nat) (h : tp ≠ st.subnet.nextPtr) :
    (rescheduleStepDouble fl env a b now st tp).remainingBandwidth =
      fl (st.remainingBandwidth - stepBandwidthDouble fl env a b st tp) ∧
    (rescheduleStepDouble fl env a b now st tp).remainingTransfers = st.remainingTransfers - 1 ∧
    (rescheduleStepDouble fl env a b now st tp).updatedTransfers =
      setInsert st.subnet.nextPtr st.updatedTransfers ∧
    (rescheduleStepDouble fl env a b now st tp).assignedBandwidth =
      st.assignedBandwidth ++ [stepBandwidthDouble fl env a b st tp] ∧
    (rescheduleStepDouble fl env a b now st tp).newEvents =
      st.newEvents ++ [⟨SubnetMessage.MESSAGE_RECVD st.subnet.nextPtr,
        rescheduleDelay env a b now (st.subnet.heap tp) (stepBandwidthDouble fl env a b st tp)⟩] ∧
    (rescheduleStepDouble fl env a b now st tp).subnet =
      { st.subnet with
        nextPtr := st.subnet.nextPtr + 1
        messageIdsToTransfersMap := Function.update st.subnet.messageIdsToTransfersMap
          (st.subnet.heap tp).message.messageId (some st.subnet.nextPtr)
        heap := Function.update
          (Function.update st.subnet.heap st.subnet.nextPtr
            (replacement env now (st.subnet.heap tp) (stepBandwidthDouble fl env a b st tp)))
          tp (superseded (st.subnet.heap tp)) } := by
  have hne : tp ≠ st.subnet.nextPtr := h
  have hsup : ∀ x : TransferProgress, x.firstSchedule = true → superseded x = x := by
    intro x hx
    cases x with
    | mk m bw rb t f o =>
      simp only at hx
      subst hx
      simp [superseded]
  have hsup2 : ∀ x : TransferProgress, x.firstSchedule = false →
      superseded x = { x with obsolete := true } := by
    intro x hx
    cases x with
    | mk m bw rb t f o =>
      simp only at hx
      subst hx
      simp [superseded]
  unfold rescheduleStepDouble
  simp only [Subnet.alloc, Function.update_same, Function.update_noteq hne]
  refine ⟨?_, ?_, ?_, ?_, ?_, ?_⟩
  · rfl
  · trivial
  · trivial
  · rfl
  · rfl
  · congr 1
    simp only [Function.update_idem]
    by_cases hf : (st.subnet.heap tp).firstSchedule = false
    · rw [if_pos hf, hsup2 _ hf]
      rfl
    · rw [if_neg hf]
      have hf' : (st.subnet.heap tp).firstSchedule = true := by
        cases hv : (st.subnet.heap tp).firstSchedule
        · exact absurd hv hf
        · rfl
      rw [hsup _ hf']
      funext q
      by_cases hq : q = tp
      · subst hq
        rw [Function.update_same, Function.update_noteq hne]
      · rw [Function.update_noteq hq]
        rfl

/-- The heap after one iteration in `double` arithmetic, at the addresses below
the next free one. -/
theorem rescheduleStepDouble_heap_old {σ : Type} (fl : ℚ → ℚ) (env : Collaborators σ) (a b now : Nat)
    (st : RescheduleState σ) (tp : Nat) (h : tp < st.subnet.nextPtr) (q : Nat)
    (hq : q < st.subnet.nextPtr) :
    (rescheduleStepDouble fl env a b now st tp).subnet.heap q =
      if q = tp then superseded (st.subnet.heap q) else st.subnet.heap q := by
  obtain ⟨_, _, _, _, _, hs⟩ := rescheduleStepDouble_spec fl env a b now st tp (by omega)
  rw [hs]
  by_cases hqt : q = tp
  · subst hqt
    simp
  · have hqp : q ≠ st.subnet.nextPtr := by omega
    simp [hqt, Function.update_noteq hqt, Function.update_noteq hqp]

theorem isTCP_superseded_stepDouble {σ : Type} (fl : ℚ → ℚ) (env : Collaborators σ) (a b now : Nat)
    (st : RescheduleState σ) (tp : Nat) (h : tp < st.subnet.nextPtr) (l : List Nat)
    (hl : ∀ g ∈ l, g < st.subnet.nextPtr) :
    l.map (isTCP (rescheduleStepDouble fl env a b now st tp).subnet.heap) =
      l.map (isTCP st.subnet.heap) := by
  apply List.map_congr_left
  intro g hg
  unfold isTCP
  rw [rescheduleStepDouble_heap_old fl env a b now st tp h g (hl g hg)]
  by_cases hgt : g = tp
  · rw [if_pos hgt, (superseded_message _).1]
  · rw [if_neg hgt]

/-- The loop in `double` arithmetic over transfers at addresses below the next
free one: the next free address, the trace of the local `bandwidth`, the pool,
the counter, the old generations, and the parts of the state that the loop
leaves alone. -/
theorem rescheduleLoopDouble_spec {σ : Type} (fl : ℚ → ℚ) (env : Collaborators σ) (a b now : Nat)
    (l : List Nat) :
    ∀ st : RescheduleState σ, (∀ g ∈ l, g < st.subnet.nextPtr) →
      (rescheduleLoopDouble fl env a b now l st).subnet.nextPtr = st.subnet.nextPtr + l.length ∧
      (rescheduleLoopDouble fl env a b now l st).assignedBandwidth =
        st.assignedBandwidth ++ shareSequenceDouble fl (env.getTCPThroughput a b)
          (l.map (isTCP st.subnet.heap)) st.remainingBandwidth st.remainingTransfers ∧
      (rescheduleLoopDouble fl env a b now l st).remainingBandwidth =
        poolAfterDouble fl (env.getTCPThroughput a b)
          (l.map (isTCP st.subnet.heap)) st.remainingBandwidth st.remainingTransfers ∧
      (rescheduleLoopDouble fl env a b now l st).remainingTransfers =
        st.remainingTransfers - (l.length : Int) ∧
      (∀ q, q < st.subnet.nextPtr →
        (rescheduleLoopDouble fl env a b now l st).subnet.heap q =
          if q ∈ l then superseded (st.subnet.heap q) else st.subnet.heap q) ∧
      (rescheduleLoopDouble fl env a b now l st).subnet.connectionsToTransfersMap =
        st.subnet.connectionsToTransfersMap ∧
      (rescheduleLoopDouble fl env a b now l st).subnet.cancelledTransfers =
        st.subnet.cancelledTransfers ∧
      (rescheduleLoopDouble fl env a b now l st).subnet.bandwidthManager =
        st.subnet.bandwidthManager := by
  induction l with
  | nil =>
    intro st _
    simp [rescheduleLoopDouble, shareSequenceDouble, poolAfterDouble]
  | cons g rest ih =>
    intro st hwf
    have hg : g < st.subnet.nextPtr := hwf g (List.mem_cons_self _ _)
    have hrest : ∀ x ∈ rest, x < st.subnet.nextPtr :=
      fun x hx => hwf x (List.mem_cons_of_mem _ hx)
    obtain ⟨s1, s2, s3, s4, s5, s6⟩ := rescheduleStepDouble_spec fl env a b now st g (by omega)
    have hnext : (rescheduleStepDouble fl env a b now st g).subnet.nextPtr = st.subnet.nextPtr + 1 := by
      rw [s6]
    have hfold : rescheduleLoopDouble fl env a b now (g :: rest) st =
        rescheduleLoopDouble fl env a b now rest (rescheduleStepDouble fl env a b now st g) := rfl
    obtain ⟨i1, i2, i3, i4, i5, i6, i7, i8⟩ := ih (rescheduleStepDouble fl env a b now st g)
      (by intro x hx; rw [hnext]; have := hrest x hx; omega)
    have hmap := isTCP_superseded_stepDouble fl env a b now st g hg rest hrest
    have hbw : stepBandwidthDouble fl env a b st g =
        (if isTCP st.subnet.heap g = true then
          min (fl (st.remainingBandwidth / (st.remainingTransfers : ℚ)))
            (env.getTCPThroughput a b)
        else fl (st.remainingBandwidth / (st.remainingTransfers : ℚ))) := by
      unfold stepBandwidthDouble isTCP
      by_cases ht : (st.subnet.heap g).message.l4ProtocolType = L4ProtocolType.TCP
      · simp [ht]
      · simp [ht]
    have hseq : shareSequenceDouble fl (env.getTCPThroughput a b)
        ((g :: rest).map (isTCP st.subnet.heap)) st.remainingBandwidth st.remainingTransfers =
        stepBandwidthDouble fl env a b st g ::
          shareSequenceDouble fl (env.getTCPThroughput a b) (rest.map (isTCP st.subnet.heap))
            (fl (st.remainingBandwidth - stepBandwidthDouble fl env a b st g))
            (st.remainingTransfers - 1) := by
      rw [hbw]
      rfl
    have hpool : poolAfterDouble fl (env.getTCPThroughput a b)
        ((g :: rest).map (isTCP st.subnet.heap)) st.remainingBandwidth st.remainingTransfers =
        poolAfterDouble fl (env.getTCPThroughput a b) (rest.map (isTCP st.subnet.heap))
          (fl (st.remainingBandwidth - stepBandwidthDouble fl env a b st g))
          (st.remainingTransfers - 1) := by
      rw [hbw]
      rfl
    rw [hfold, hseq, hpool]
    rw [hmap, s1, s2] at i2 i3
    rw [s4] at i2
    rw [s2] at i4
    refine ⟨by rw [i1, hnext, List.length_cons]; omega, ?_, ?_, ?_, ?_, ?_, ?_, ?_⟩
    · rw [i2, List.append_assoc]
      rfl
    · exact i3
    · rw [i4, List.length_cons]
      push_cast
      ring
    · intro q hq
      rw [i5 q (by rw [hnext]; omega), rescheduleStepDouble_heap_old fl env a b now st g hg q hq]
      by_cases hqg : q = g
      · subst hqg
        by_cases hqr : q ∈ rest
        · simp [hqr, superseded_idem]
        · simp [hqr]
      · by_cases hqr : q ∈ rest
        · simp [hqr, hqg]
        · simp [hqr, hqg]
    · rw [i6, s6]
    · rw [i7, s6]
    · rw [i8, s6]

/-- The loop in `double` arithmetic, generation by generation: the `i`-th old
generation `g` gets the `i`-th value `r` of the share sequence; its
replacement is stored at the `i`-th new address and its delivery event is the
`i`-th new event.  Events that were there before stay in place. -/
theorem rescheduleLoopDouble_new {σ : Type} (fl : ℚ → ℚ) (env : Collaborators σ) (a b now : Nat)
    (l : List Nat) :
    ∀ st : RescheduleState σ, (∀ g ∈ l, g < st.subnet.nextPtr) →
      (rescheduleLoopDouble fl env a b now l st).newEvents.length = st.newEvents.length + l.length ∧
      (∀ k, k < st.newEvents.length →
        (rescheduleLoopDouble fl env a b now l st).newEvents[k]? = st.newEvents[k]?) ∧
      (∀ i g, l[i]? = some g →
        ∃ r, (shareSequenceDouble fl (env.getTCPThroughput a b) (l.map (isTCP st.subnet.heap))
            st.remainingBandwidth st.remainingTransfers)[i]? = some r ∧
          (rescheduleLoopDouble fl env a b now l st).subnet.heap (st.subnet.nextPtr + i) =
            replacement env now (st.subnet.heap g) r ∧
          (rescheduleLoopDouble fl env a b now l st).newEvents[st.newEvents.length + i]? =
            some ⟨SubnetMessage.MESSAGE_RECVD (st.subnet.nextPtr + i),
              rescheduleDelay env a b now (st.subnet.heap g) r⟩) := by
  induction l with
  | nil =>
    intro st _
    refine ⟨rfl, fun k _ => rfl, ?_⟩
    intro i g h
    simp at h
  | cons g0 rest ih =>
    intro st hwf
    have hg : g0 < st.subnet.nextPtr := hwf g0 (List.mem_cons_self _ _)
    have hrest : ∀ x ∈ rest, x < st.subnet.nextPtr :=
      fun x hx => hwf x (List.mem_cons_of_mem _ hx)
    obtain ⟨s1, s2, s3, s4, s5, s6⟩ := rescheduleStepDouble_spec fl env a b now st g0 (by omega)
    have hnext : (rescheduleStepDouble fl env a b now st g0).subnet.nextPtr = st.subnet.nextPtr + 1 := by
      rw [s6]
    have hwf1 : ∀ x ∈ rest, x < (rescheduleStepDouble fl env a b now st g0).subnet.nextPtr := by
      intro x hx; rw [hnext]; have := hrest x hx; omega
    have hfold : rescheduleLoopDouble fl env a b now (g0 :: rest) st =
        rescheduleLoopDouble fl env a b now rest (rescheduleStepDouble fl env a b now st g0) := rfl
    obtain ⟨i1, i2, i3⟩ := ih (rescheduleStepDouble fl env a b now st g0) hwf1
    obtain ⟨_, _, _, _, f5, _⟩ := rescheduleLoopDouble_spec fl env a b now rest
      (rescheduleStepDouble fl env a b now st g0) hwf1
    have hmap := isTCP_superseded_stepDouble fl env a b now st g0 hg rest hrest
    have hbw : stepBandwidthDouble fl env a b st g0 =
        (if isTCP st.subnet.heap g0 = true then
          min (fl (st.remainingBandwidth / (st.remainingTransfers : ℚ)))
            (env.getTCPThroughput a b)
        else fl (st.remainingBandwidth / (st.remainingTransfers : ℚ))) := by
      unfold stepBandwidthDouble isTCP
      by_cases ht : (st.subnet.heap g0).message.l4ProtocolType = L4ProtocolType.TCP
      · simp [ht]
      · simp [ht]
    have hseq : shareSequenceDouble fl (env.getTCPThroughput a b)
        ((g0 :: rest).map (isTCP st.subnet.heap)) st.remainingBandwidth st.remainingTransfers =
        stepBandwidthDouble fl env a b st g0 ::
          shareSequenceDouble fl (env.getTCPThroughput a b) (rest.map (isTCP st.subnet.heap))
            (fl (st.remainingBandwidth - stepBandwidthDouble fl env a b st g0))
            (st.remainingTransfers - 1) := by
      rw [hbw]
      rfl
    have hlen1 : (rescheduleStepDouble fl env a b now st g0).newEvents.length = st.newEvents.length + 1 := by
      rw [s5]; simp
    rw [hfold, hseq]
    refine ⟨by rw [i1, hlen1, List.length_cons]; omega, ?_, ?_⟩
    · intro k hk
      rw [i2 k (by omega), s5, List.getElem?_append_left hk]
    · intro i g hi
      cases i with
      | zero =>
        simp only [List.getElem?_cons_zero, Option.some.injEq] at hi
        subst hi
        refine ⟨stepBandwidthDouble fl env a b st g0, by simp, ?_, ?_⟩
        · have hp : st.subnet.nextPtr ∉ rest := fun hmem => by
            have := hrest _ hmem
            omega
          rw [Nat.add_zero, f5 _ (by rw [hnext]; omega), if_neg hp, s6]
          have hne : st.subnet.nextPtr ≠ g0 := by omega
          simp [Function.update_noteq hne]
        · rw [Nat.add_zero, i2 _ (by omega), s5]
          simp
      | succ j =>
        simp only [List.getElem?_cons_succ] at hi
        obtain ⟨r, hr1, hr2, hr3⟩ := i3 j g hi
        have hgrest : g ∈ rest := List.getElem?_mem hi
        have hgl : g < st.subnet.nextPtr := hrest g hgrest
        have hheap : replacement env now ((rescheduleStepDouble fl env a b now st g0).subnet.heap g) r =
              replacement env now (st.subnet.heap g) r ∧
            rescheduleDelay env a b now ((rescheduleStepDouble fl env a b now st g0).subnet.heap g) r =
              rescheduleDelay env a b now (st.subnet.heap g) r := by
          rw [rescheduleStepDouble_heap_old fl env a b now st g0 hg g hgl]
          by_cases hgg : g = g0
          · rw [if_pos hgg]
            exact ⟨rfl, rfl⟩
          · rw [if_neg hgg]
            exact ⟨rfl, rfl⟩
        rw [hmap, s1, s2] at hr1
        rw [hnext, hheap.1] at hr2
        rw [hnext, hlen1, hheap.2] at hr3
        refine ⟨r, by simpa using hr1, ?_, ?_⟩
        · rw [show st.subnet.nextPtr + (j + 1) = st.subnet.nextPtr + 1 + j by omega]
          exact hr2
        · rw [show st.newEvents.length + (j + 1) = st.newEvents.length + 1 + j by omega,
            show st.subnet.nextPtr + (j + 1) = st.subnet.nextPtr + 1 + j by omega]
          exact hr3

/-! ## C18: shares and pool in `double` arithmetic -/

/-- The shares of three transfers that no cap restrains, from the pool 1, in
`double` arithmetic. -/
theorem tripleShares :
    shareSequenceDouble roundDouble 100 [true, true, true] 1 ((3 : Nat) : Int) =
      [6004799503160661 / 18014398509481984, 6004799503160662 / 18014398509481984,
        6004799503160662 / 18014398509481984] := by
  have q1 : (1 : ℚ) / (((3 : Nat) : Int) : ℚ) = 1 / 3 := by norm_num
  have q2 : (6004799503160662 / 9007199254740992 : ℚ) / ((((3 : Nat) : Int) - 1 : Int) : ℚ) =
      6004799503160662 / 18014398509481984 := by norm_num
  have q3 : (6004799503160662 / 9007199254740992 : ℚ) - 6004799503160662 / 18014398509481984 =
      6004799503160662 / 18014398509481984 := by norm_num
  have q4 : (6004799503160662 / 18014398509481984 : ℚ) /
      ((((3 : Nat) : Int) - 1 - 1 : Int) : ℚ) = 6004799503160662 / 18014398509481984 := by
    norm_num
  have m1 : min (6004799503160661 / 18014398509481984 : ℚ) 100 =
      6004799503160661 / 18014398509481984 := min_eq_left (by norm_num)
  have m2 : min (6004799503160662 / 18014398509481984 : ℚ) 100 =
      6004799503160662 / 18014398509481984 := min_eq_left (by norm_num)
  simp only [shareSequenceDouble, if_true, q1, roundDouble_third, m1, roundDouble_two_thirds, q2,
    roundDouble_third_up, m2, q3, q4]

theorem shareSequenceDouble_length (fl : ℚ → ℚ) (T : ℚ) (l : List Bool) :
    ∀ (pool : ℚ) (count : Int), (shareSequenceDouble fl T l pool count).length = l.length := by
  induction l with
  | nil => intro _ _; rfl
  | cons tcp rest ih =>
    intro pool count
    simp only [shareSequenceDouble, List.length_cons, ih]

/-- Shares and pool in `double` arithmetic, from a pool that is a `double` and
not negative and a counter at least the number of transfers: after every
prefix the pool is between 0 and the initial pool, every share is between 0
and the pool left before it, and a TCP share is at most `T`. -/
theorem shareSequenceDouble_bounds (fl : ℚ → ℚ) (hfl : DoubleRounding fl) (T : ℚ) (hT : 0 ≤ T)
    (kinds : List Bool) :
    ∀ (pool : ℚ) (count : Int), 0 ≤ pool → fl pool = pool → (kinds.length : Int) ≤ count →
      (∀ i : Nat, 0 ≤ poolAfterDouble fl T (kinds.take i) pool count ∧
        poolAfterDouble fl T (kinds.take i) pool count ≤ pool) ∧
      (∀ (i : Nat) (r : ℚ), (shareSequenceDouble fl T kinds pool count)[i]? = some r →
        0 ≤ r ∧ r ≤ poolAfterDouble fl T (kinds.take i) pool count) ∧
      (∀ (i : Nat) (r : ℚ), kinds[i]? = some true →
        (shareSequenceDouble fl T kinds pool count)[i]? = some r → r ≤ T) := by
  obtain ⟨hzero, hmono, hidem, _⟩ := hfl
  induction kinds with
  | nil =>
    intro pool count hp _ _
    refine ⟨fun i => ?_, fun i r h => ?_, fun i r h => ?_⟩
    · rw [List.take_nil]
      exact ⟨hp, le_refl _⟩
    · simp [shareSequenceDouble] at h
    · simp at h
  | cons tcp rest ih =>
    intro pool count hp hpd hcount
    have hc1 : (1 : ℚ) ≤ (count : ℚ) := by
      have : (1 : Int) ≤ count := by
        rw [List.length_cons] at hcount
        push_cast at hcount
        omega
      exact_mod_cast this
    have hq0 : 0 ≤ pool / (count : ℚ) := div_nonneg hp (by linarith)
    have hq1 : pool / (count : ℚ) ≤ pool := div_le_self hp hc1
    have hf0 : 0 ≤ fl (pool / (count : ℚ)) := by
      have := hmono 0 _ (le_refl _) hq0
      rw [hzero] at this
      exact this
    have hf1 : fl (pool / (count : ℚ)) ≤ pool := by
      have := hmono _ _ hq0 hq1
      rw [hpd] at this
      exact this
    obtain ⟨sh, hsh⟩ : ∃ sh, sh =
        (if tcp = true then min (fl (pool / (count : ℚ))) T else fl (pool / (count : ℚ))) :=
      ⟨_, rfl⟩
    have hsh0 : 0 ≤ sh := by
      rw [hsh]
      split
      · exact le_min hf0 hT
      · exact hf0
    have hsh1 : sh ≤ pool := by
      rw [hsh]
      split
      · exact le_trans (min_le_left _ _) hf1
      · exact hf1
    have hd0 : 0 ≤ pool - sh := by linarith
    have hp0 : 0 ≤ fl (pool - sh) := by
      have := hmono 0 _ (le_refl _) hd0
      rw [hzero] at this
      exact this
    have hp1 : fl (pool - sh) ≤ pool := by
      have := hmono _ _ hd0 (by linarith : pool - sh ≤ pool)
      rw [hpd] at this
      exact this
    have hcount1 : (rest.length : Int) ≤ count - 1 := by
      rw [List.length_cons] at hcount
      push_cast at hcount
      omega
    obtain ⟨ia, ib, ic⟩ := ih (fl (pool - sh)) (count - 1) hp0 (hidem _ hd0) hcount1
    have hseq : shareSequenceDouble fl T (tcp :: rest) pool count =
        sh :: shareSequenceDouble fl T rest (fl (pool - sh)) (count - 1) := by
      rw [hsh]
      rfl
    have hpool : ∀ i : Nat, poolAfterDouble fl T ((tcp :: rest).take (i + 1)) pool count =
        poolAfterDouble fl T (rest.take i) (fl (pool - sh)) (count - 1) := by
      intro i
      rw [hsh]
      rfl
    refine ⟨fun i => ?_, fun i r h => ?_, fun i r hk h => ?_⟩
    · cases i with
      | zero => exact ⟨hp, le_refl _⟩
      | succ j =>
        rw [hpool j]
        exact ⟨(ia j).1, le_trans (ia j).2 hp1⟩
    · rw [hseq] at h
      cases i with
      | zero =>
        simp only [List.getElem?_cons_zero, Option.some.injEq] at h
        rw [← h]
        exact ⟨hsh0, hsh1⟩
      | succ j =>
        simp only [List.getElem?_cons_succ] at h
        rw [hpool j]
        exact ib j r h
    · rw [hseq] at h
      cases i with
      | zero =>
        simp only [List.getElem?_cons_zero, Option.some.injEq] at hk h
        rw [← h, hsh, if_pos hk]
        exact min_le_right _ _
      | succ j =>
        simp only [List.getElem?_cons_succ] at hk h
        exact ic j r hk h

/-- The shares in `double` arithmetic and the pool left after them add up to at
most the initial pool plus, for every transfer, the fraction `2 ^ (-53)` of a
bound `M` of the pool. -/
theorem shareSequenceDouble_sum (fl : ℚ → ℚ) (hfl : DoubleRounding fl) (T : ℚ) (hT : 0 ≤ T)
    (hTd : fl T = T) (M : ℚ) (kinds : List Bool) :
    ∀ (pool : ℚ) (count : Int), 0 ≤ pool → fl pool = pool → pool ≤ M →
      (kinds.length : Int) ≤ count →
      (shareSequenceDouble fl T kinds pool count).sum + poolAfterDouble fl T kinds pool count ≤
        pool + (kinds.length : ℚ) * (M / 2 ^ 53) := by
  obtain ⟨hzero, hmono, hidem, herr⟩ := hfl
  induction kinds with
  | nil =>
    intro pool count _ _ _ _
    simp [shareSequenceDouble, poolAfterDouble]
  | cons tcp rest ih =>
    intro pool count hp hpd hpM hcount
    have hc1 : (1 : ℚ) ≤ (count : ℚ) := by
      have : (1 : Int) ≤ count := by
        rw [List.length_cons] at hcount
        push_cast at hcount
        omega
      exact_mod_cast this
    have hq0 : 0 ≤ pool / (count : ℚ) := div_nonneg hp (by linarith)
    have hq1 : pool / (count : ℚ) ≤ pool := div_le_self hp hc1
    have hf0 : 0 ≤ fl (pool / (count : ℚ)) := by
      have := hmono 0 _ (le_refl _) hq0
      rw [hzero] at this
      exact this
    have hf1 : fl (pool / (count : ℚ)) ≤ pool := by
      have := hmono _ _ hq0 hq1
      rw [hpd] at this
      exact this
    obtain ⟨sh, hsh⟩ : ∃ sh, sh =
        (if tcp = true then min (fl (pool / (count : ℚ))) T else fl (pool / (count : ℚ))) :=
      ⟨_, rfl⟩
    have hsh0 : 0 ≤ sh := by
      rw [hsh]
      split
      · exact le_min hf0 hT
      · exact hf0
    have hsh1 : sh ≤ pool := by
      rw [hsh]
      split
      · exact le_trans (min_le_left _ _) hf1
      · exact hf1
    have hshd : fl sh = sh := by
      rw [hsh]
      split
      · rcases min_choice (fl (pool / (count : ℚ))) T with h | h
        · rw [h]
          exact hidem _ hq0
        · rw [h]
          exact hTd
      · exact hidem _ hq0
    have hd0 : 0 ≤ pool - sh := by linarith
    have hp0 : 0 ≤ fl (pool - sh) := by
      have := hmono 0 _ (le_refl _) hd0
      rw [hzero] at this
      exact this
    have hp1 : fl (pool - sh) ≤ pool := by
      have := hmono _ _ hd0 (by linarith : pool - sh ≤ pool)
      rw [hpd] at this
      exact this
    have hp2 : fl (pool - sh) ≤ (pool - sh) + M / 2 ^ 53 := by
      have h1 := herr pool sh hpd hshd hsh1
      have h2 : (pool - sh) / 2 ^ 53 ≤ M / 2 ^ 53 :=
        div_le_div_of_nonneg_right (by linarith) (by norm_num)
      linarith
    have hcount1 : (rest.length : Int) ≤ count - 1 := by
      rw [List.length_cons] at hcount
      push_cast at hcount
      omega
    have hrec := ih (fl (pool - sh)) (count - 1) hp0 (hidem _ hd0) (le_trans hp1 hpM) hcount1
    have hseq : shareSequenceDouble fl T (tcp :: rest) pool count =
        sh :: shareSequenceDouble fl T rest (fl (pool - sh)) (count - 1) := by
      rw [hsh]
      rfl
    have hpool : poolAfterDouble fl T (tcp :: rest) pool count =
        poolAfterDouble fl T rest (fl (pool - sh)) (count - 1) := by
      rw [hsh]
      rfl
    rw [hseq, hpool, List.sum_cons, List.length_cons]
    push_cast
    linarith

/-- The entry state and the loop in `double` arithmetic over a visiting order
of generations at addresses already allocated: the shares and the pool. -/
theorem rescheduleLoopDouble_entry {σ : Type} (fl : ℚ → ℚ) (env : Collaborators σ)
    (s : Subnet σ) (ba now : Nat) (bucket : List Nat)
    (hbucket : s.connectionsToTransfersMap ba = some bucket) (order : List Nat)
    (hwf : ∀ g ∈ order, g < s.nextPtr) :
    (rescheduleLoopDouble fl env (env.getSender s.bandwidthManager ba)
        (env.getReceiver s.bandwidthManager ba) now order
        (rescheduleEntry env s ba)).assignedBandwidth =
      shareSequenceDouble fl (env.getTCPThroughput (env.getSender s.bandwidthManager ba)
          (env.getReceiver s.bandwidthManager ba))
        (order.map (isTCP s.heap)) (env.getAllocatedBandwidth s.bandwidthManager ba)
        (bucket.length : Int) ∧
    (rescheduleLoopDouble fl env (env.getSender s.bandwidthManager ba)
        (env.getReceiver s.bandwidthManager ba) now order
        (rescheduleEntry env s ba)).remainingBandwidth =
      poolAfterDouble fl (env.getTCPThroughput (env.getSender s.bandwidthManager ba)
          (env.getReceiver s.bandwidthManager ba))
        (order.map (isTCP s.heap)) (env.getAllocatedBandwidth s.bandwidthManager ba)
        (bucket.length : Int) ∧
    (∀ (i g : Nat), order[i]? = some g →
      ∃ r, (shareSequenceDouble fl (env.getTCPThroughput (env.getSender s.bandwidthManager ba)
            (env.getReceiver s.bandwidthManager ba))
          (order.map (isTCP s.heap)) (env.getAllocatedBandwidth s.bandwidthManager ba)
          (bucket.length : Int))[i]? = some r ∧
        (rescheduleLoopDouble fl env (env.getSender s.bandwidthManager ba)
            (env.getReceiver s.bandwidthManager ba) now order
            (rescheduleEntry env s ba)).subnet.heap (s.nextPtr + i) =
          replacement env now (s.heap g) r ∧
        (rescheduleLoopDouble fl env (env.getSender s.bandwidthManager ba)
            (env.getReceiver s.bandwidthManager ba) now order
            (rescheduleEntry env s ba)).newEvents[i]? =
          some ⟨SubnetMessage.MESSAGE_RECVD (s.nextPtr + i),
            rescheduleDelay env (env.getSender s.bandwidthManager ba)
              (env.getReceiver s.bandwidthManager ba) now (s.heap g) r⟩) := by
  have hget : (s.connectionsToTransfersMap ba).getD [] = bucket := by rw [hbucket]; rfl
  have hwf0 : ∀ g ∈ order, g < (rescheduleEntry env s ba).subnet.nextPtr := hwf
  have e1 : (rescheduleEntry env s ba).subnet.heap = s.heap := rfl
  have e2 : (rescheduleEntry env s ba).subnet.nextPtr = s.nextPtr := rfl
  have e3 : (rescheduleEntry env s ba).remainingBandwidth =
      env.getAllocatedBandwidth s.bandwidthManager ba := rfl
  have e4 : (rescheduleEntry env s ba).remainingTransfers = (bucket.length : Int) := by
    simp only [rescheduleEntry, hget]
  have e5 : (rescheduleEntry env s ba).assignedBandwidth = [] := rfl
  have e6 : (rescheduleEntry env s ba).newEvents = [] := rfl
  obtain ⟨_, l2, l3, _⟩ := rescheduleLoopDouble_spec fl env (env.getSender s.bandwidthManager ba)
    (env.getReceiver s.bandwidthManager ba) now order (rescheduleEntry env s ba) hwf0
  obtain ⟨_, _, n3⟩ := rescheduleLoopDouble_new fl env (env.getSender s.bandwidthManager ba)
    (env.getReceiver s.bandwidthManager ba) now order (rescheduleEntry env s ba) hwf0
  simp only [e1, e2, e3, e4, e5, e6, List.nil_append, List.length_nil, Nat.zero_add]
    at l2 l3 n3
  exact ⟨l2, l3, n3⟩

/-- C18, refuted as stated: in `tripleState` three transfers share the granted
rate `B = 1`, and the TCP throughput 100 caps none of them.  In `double`
arithmetic `rescheduleTransfers` assigns the shares `6004799503160661 / 2 ^ 54`
(the `double` nearest to `1 / 3`, below it), `6004799503160662 / 2 ^ 54` and
`6004799503160662 / 2 ^ 54` (the difference `1 - 6004799503160661 / 2 ^ 54` is
a tie and is rounded up), which add up to `1 + 2 ^ (-54)`, more than `B`. -/
theorem double_shares_exceed_the_granted_rate :
    tripleState.connectionsToTransfersMap 0 = some [0, 1, 2] ∧
    unitRateEnv.getAllocatedBandwidth tripleState.bandwidthManager 0 = 1 ∧
    (rescheduleExitDouble roundDouble unitRateEnv tripleState 0 1).assignedBandwidth =
      [6004799503160661 / 18014398509481984, 6004799503160662 / 18014398509481984,
        6004799503160662 / 18014398509481984] ∧
    (∀ x ∈ (rescheduleExitDouble roundDouble unitRateEnv tripleState 0 1).assignedBandwidth,
      x < unitRateEnv.getTCPThroughput 1 2) ∧
    (rescheduleExitDouble roundDouble unitRateEnv tripleState 0 1).assignedBandwidth.sum =
      1 + 1 / 18014398509481984 ∧
    unitRateEnv.getAllocatedBandwidth tripleState.bandwidthManager 0 <
      (rescheduleExitDouble roundDouble unitRateEnv tripleState 0 1).assignedBandwidth.sum := by
  have hA : (rescheduleExitDouble roundDouble unitRateEnv tripleState 0 1).assignedBandwidth =
      [6004799503160661 / 18014398509481984, 6004799503160662 / 18014398509481984,
        6004799503160662 / 18014398509481984] := by
    have h := (rescheduleLoopDouble_entry roundDouble unitRateEnv tripleState 0 1 [0, 1, 2] rfl
      [0, 1, 2] (by intro g hg; fin_cases hg <;> decide)).1
    have hm : ([0, 1, 2] : List Nat).map (isTCP tripleState.heap) = [true, true, true] := by
      decide
    have hexit : rescheduleExitDouble roundDouble unitRateEnv tripleState 0 1 =
        rescheduleLoopDouble roundDouble unitRateEnv
          (unitRateEnv.getSender tripleState.bandwidthManager 0)
          (unitRateEnv.getReceiver tripleState.bandwidthManager 0) 1 [0, 1, 2]
          (rescheduleEntry unitRateEnv tripleState 0) := rfl
    rw [hexit, h, hm]
    exact tripleShares
  have hT : unitRateEnv.getTCPThroughput 1 2 = 100 := rfl
  have hB : unitRateEnv.getAllocatedBandwidth tripleState.bandwidthManager 0 = 1 := rfl
  rw [hA, hT, hB]
  refine ⟨rfl, rfl, rfl, ?_, ?_, ?_⟩
  · intro x hx
    simp only [List.mem_cons, List.mem_singleton, List.not_mem_nil, or_false] at hx
    rcases hx with h | h | h <;> rw [h] <;> norm_num
  · norm_num
  · norm_num

/-- C18 (amended): for an allocation with granted rate `B ≥ 0`, TCP throughput
`T ≥ 0` (both of type `double`) and any non-empty bucket of `n` generations
(at addresses already allocated), in the `double` arithmetic of the loop of
`rescheduleTransfers` there is one share per generation, the pool is between 0
and `B` after every step, every share is between 0 and the pool left before
it, the share of every TCP transfer is at most `T`, and the shares add up to
at most `B + n * (B / 2 ^ 53)`; computed in exact arithmetic, the shares add
up to `B` minus the final pool, hence to at most `B`, and to exactly `B` when
no share was capped. -/
theorem rescheduleTransfers_shares_within_pool {σ : Type} (fl : ℚ → ℚ)
    (env : Collaborators σ) (s : Subnet σ) (ba now : Nat) (bucket : List Nat)
    (hbucket : s.connectionsToTransfersMap ba = some bucket) (hne : bucket ≠ [])
    (hwf : ∀ g ∈ bucket, g < s.nextPtr)
    (hfl : DoubleRounding fl)
    (hB : 0 ≤ env.getAllocatedBandwidth s.bandwidthManager ba)
    (hBd : fl (env.getAllocatedBandwidth s.bandwidthManager ba) =
      env.getAllocatedBandwidth s.bandwidthManager ba)
    (hT : 0 ≤ env.getTCPThroughput (env.getSender s.bandwidthManager ba)
      (env.getReceiver s.bandwidthManager ba))
    (hTd : fl (env.getTCPThroughput (env.getSender s.bandwidthManager ba)
        (env.getReceiver s.bandwidthManager ba)) =
      env.getTCPThroughput (env.getSender s.bandwidthManager ba)
        (env.getReceiver s.bandwidthManager ba)) :
    (rescheduleExitDouble fl env s ba now).assignedBandwidth.length = bucket.length ∧
    (∀ i : Nat,
      0 ≤ (rescheduleLoopDouble fl env (env.getSender s.bandwidthManager ba)
        (env.getReceiver s.bandwidthManager ba) now (bucket.take i)
        (rescheduleEntry env s ba)).remainingBandwidth ∧
      (rescheduleLoopDouble fl env (env.getSender s.bandwidthManager ba)
        (env.getReceiver s.bandwidthManager ba) now (bucket.take i)
        (rescheduleEntry env s ba)).remainingBandwidth ≤
          env.getAllocatedBandwidth s.bandwidthManager ba) ∧
    (∀ (i : Nat) (r : ℚ),
      (rescheduleExitDouble fl env s ba now).assignedBandwidth[i]? = some r →
      0 ≤ r ∧
      r ≤ (rescheduleLoopDouble fl env (env.getSender s.bandwidthManager ba)
        (env.getReceiver s.bandwidthManager ba) now (bucket.take i)
        (rescheduleEntry env s ba)).remainingBandwidth) ∧
    (∀ (i g : Nat) (r : ℚ), bucket[i]? = some g →
      (rescheduleExitDouble fl env s ba now).assignedBandwidth[i]? = some r →
      (s.heap g).message.l4ProtocolType = L4ProtocolType.TCP →
      r ≤ env.getTCPThroughput (env.getSender s.bandwidthManager ba)
        (env.getReceiver s.bandwidthManager ba)) ∧
    (rescheduleExitDouble fl env s ba now).assignedBandwidth.sum ≤
      env.getAllocatedBandwidth s.bandwidthManager ba +
        (bucket.length : ℚ) * (env.getAllocatedBandwidth s.bandwidthManager ba / 2 ^ 53) ∧
    (rescheduleExit env s ba now).assignedBandwidth.sum =
      env.getAllocatedBandwidth s.bandwidthManager ba -
        (rescheduleExit env s ba now).remainingBandwidth ∧
    (rescheduleExit env s ba now).assignedBandwidth.sum ≤
      env.getAllocatedBandwidth s.bandwidthManager ba ∧
    ((∀ (i : Nat) (r : ℚ), (rescheduleExit env s ba now).assignedBandwidth[i]? = some r →
        r = (env.getAllocatedBandwidth s.bandwidthManager ba -
            ((rescheduleExit env s ba now).assignedBandwidth.take i).sum) /
          ((bucket.length : ℚ) - (i : ℚ))) →
      (rescheduleExit env s ba now).assignedBandwidth.sum =
        env.getAllocatedBandwidth s.bandwidthManager ba) := by
  have hget : (s.connectionsToTransfersMap ba).getD [] = bucket := by rw [hbucket]; rfl
  have hexit : rescheduleExitDouble fl env s ba now =
      rescheduleLoopDouble fl env (env.getSender s.bandwidthManager ba)
        (env.getReceiver s.bandwidthManager ba) now bucket (rescheduleEntry env s ba) := by
    unfold rescheduleExitDouble
    rw [hget]
  obtain ⟨a1, _, _⟩ := rescheduleLoopDouble_entry fl env s ba now bucket hbucket bucket hwf
  have hpre : ∀ i : Nat,
      (rescheduleLoopDouble fl env (env.getSender s.bandwidthManager ba)
        (env.getReceiver s.bandwidthManager ba) now (bucket.take i)
        (rescheduleEntry env s ba)).remainingBandwidth =
      poolAfterDouble fl (env.getTCPThroughput (env.getSender s.bandwidthManager ba)
          (env.getReceiver s.bandwidthManager ba))
        ((bucket.map (isTCP s.heap)).take i) (env.getAllocatedBandwidth s.bandwidthManager ba)
        (bucket.length : Int) := by
    intro i
    rw [(rescheduleLoopDouble_entry fl env s ba now bucket hbucket (bucket.take i)
      (fun g hg => hwf g (List.mem_of_mem_take hg))).2.1, List.map_take]
  obtain ⟨b1, b2, b3⟩ := shareSequenceDouble_bounds fl hfl _ hT (bucket.map (isTCP s.heap))
    (env.getAllocatedBandwidth s.bandwidthManager ba) (bucket.length : Int) hB hBd
    (by rw [List.length_map])
  obtain ⟨_, _, _, _, x5, x6, x7⟩ :=
    rescheduleTransfers_exact_shares env s ba now bucket hbucket hne hwf hB hT
  have hsum := shareSequenceDouble_sum fl hfl _ hT hTd
    (env.getAllocatedBandwidth s.bandwidthManager ba) (bucket.map (isTCP s.heap))
    (env.getAllocatedBandwidth s.bandwidthManager ba) (bucket.length : Int) hB hBd (le_refl _)
    (by rw [List.length_map])
  have hfinal := (b1 (bucket.map (isTCP s.heap)).length).1
  rw [List.take_length] at hfinal
  rw [List.length_map] at hsum
  rw [hexit, a1]
  refine ⟨by rw [shareSequenceDouble_length, List.length_map], ?_, ?_, ?_, by linarith,
    x5, x6, x7⟩
  · intro i
    rw [hpre i]
    exact b1 i
  · intro i r hr
    rw [hpre i]
    exact b2 i r hr
  · intro i g r hi hr htcp
    refine b3 i r ?_ hr
    rw [List.getElem?_map, hi]
    simp [isTCP, htcp]

/-- C18 (amended) at a concrete input: for the three transfers of
`tripleState`, with `B = 1`, `T = 100` and the rounding `roundDouble`, every
share is between 0 and 1 and the shares add up to at most `1 + 3 / 2 ^ 53`. -/
theorem rescheduleTransfers_shares_within_pool_witness :
    tripleState.connectionsToTransfersMap 0 = some [0, 1, 2] ∧
    DoubleRounding roundDouble ∧
    roundDouble (unitRateEnv.getAllocatedBandwidth tripleState.bandwidthManager 0) =
      unitRateEnv.getAllocatedBandwidth tripleState.bandwidthManager 0 ∧
    (rescheduleExitDouble roundDouble unitRateEnv tripleState 0 1).assignedBandwidth.length = 3 ∧
    (∀ (i : Nat) (r : ℚ),
      (rescheduleExitDouble roundDouble unitRateEnv tripleState 0 1).assignedBandwidth[i]? =
        some r → 0 ≤ r ∧ r ≤ 1) ∧
    (rescheduleExitDouble roundDouble unitRateEnv tripleState 0 1).assignedBandwidth.sum ≤
      1 + 3 / 2 ^ 53 := by
  have hone : roundDouble (unitRateEnv.getAllocatedBandwidth tripleState.bandwidthManager 0) =
      unitRateEnv.getAllocatedBandwidth tripleState.bandwidthManager 0 := by
    have h := roundDouble_repr (2 ^ 52) (-52) (le_refl _) (by norm_num)
    have e : (((2 ^ 52 : Int) : ℚ)) * (2 : ℚ) ^ (-52 : Int) = 1 := by norm_num
    rw [e] at h
    exact h
  have hhundred : roundDouble (unitRateEnv.getTCPThroughput
      (unitRateEnv.getSender tripleState.bandwidthManager 0)
      (unitRateEnv.getReceiver tripleState.bandwidthManager 0)) =
      unitRateEnv.getTCPThroughput (unitRateEnv.getSender tripleState.bandwidthManager 0)
        (unitRateEnv.getReceiver tripleState.bandwidthManager 0) := by
    have h := roundDouble_repr (100 * 2 ^ 46) (-46) (by norm_num) (by norm_num)
    have e : (((100 * 2 ^ 46 : Int) : ℚ)) * (2 : ℚ) ^ (-46 : Int) = 100 := by norm_num
    rw [e] at h
    exact h
  have h := rescheduleTransfers_shares_within_pool roundDouble unitRateEnv tripleState 0 1
    [0, 1, 2] rfl (by decide) (by intro g hg; fin_cases hg <;> decide)
    doubleRounding_roundDouble (by norm_num [unitRateEnv]) hone
    (by norm_num [unitRateEnv, bytesFirstEnv, exampleEnv]) hhundred
  have hsum := h.2.2.2.2.1
  have hB : unitRateEnv.getAllocatedBandwidth tripleState.bandwidthManager 0 = 1 := rfl
  rw [hB] at hsum
  refine ⟨rfl, doubleRounding_roundDouble, hone, h.1, ?_, ?_⟩
  · intro i r hr
    obtain ⟨h0, h1⟩ := h.2.2.1 i r hr
    exact ⟨h0, le_trans h1 (h.2.1 i).2⟩
  · have hlen : ((([0, 1, 2] : List Nat).length : Nat) : ℚ) = 3 := by norm_num
    rw [hlen] at hsum
    linarith

/-! ## C19: dependence on the visiting order -/

theorem roundDouble_150 : roundDouble 150 = 150 := by
  have h := roundDouble_repr (150 * 2 ^ 45) (-45) (by norm_num) (by norm_num)
  have e : (((150 * 2 ^ 45 : Int) : ℚ)) * (2 : ℚ) ^ (-45 : Int) = 150 := by norm_num
  rw [e] at h
  exact h

theorem roundDouble_200 : roundDouble 200 = 200 := by
  have h := roundDouble_repr (200 * 2 ^ 45) (-45) (by norm_num) (by norm_num)
  have e : (((200 * 2 ^ 45 : Int) : ℚ)) * (2 : ℚ) ^ (-45 : Int) = 200 := by norm_num
  rw [e] at h
  exact h

/-- The shares of a TCP transfer and then a UDP transfer, from the pool 300
with the TCP throughput 100, in `double` arithmetic. -/
theorem mixedSharesTcpFirst :
    shareSequenceDouble roundDouble 100 [true, false] 300 ((2 : Nat) : Int) = [100, 200] := by
  have q1 : (300 : ℚ) / (((2 : Nat) : Int) : ℚ) = 150 := by norm_num
  have m1 : min (150 : ℚ) 100 = 100 := min_eq_right (by norm_num)
  have q2 : (300 : ℚ) - 100 = 200 := by norm_num
  have q3 : (200 : ℚ) / ((((2 : Nat) : Int) - 1 : Int) : ℚ) = 200 := by norm_num
  simp only [shareSequenceDouble, if_true, Bool.false_eq_true, if_false, q1, roundDouble_150, m1,
    q2, roundDouble_200, q3]

/-- The shares of a UDP transfer and then a TCP transfer, from the pool 300
with the TCP throughput 100, in `double` arithmetic. -/
theorem mixedSharesUdpFirst :
    shareSequenceDouble roundDouble 100 [false, true] 300 ((2 : Nat) : Int) = [150, 100] := by
  have q1 : (300 : ℚ) / (((2 : Nat) : Int) : ℚ) = 150 := by norm_num
  have m1 : min (150 : ℚ) 100 = 100 := min_eq_right (by norm_num)
  have q2 : (300 : ℚ) - 150 = 150 := by norm_num
  have q3 : (150 : ℚ) / ((((2 : Nat) : Int) - 1 : Int) : ℚ) = 150 := by norm_num
  simp only [shareSequenceDouble, if_true, Bool.false_eq_true, if_false, q1, roundDouble_150, m1,
    q2, q3]

/-- C19, refuted as stated, in two ways.  In `tripleState` (three TCP
transfers, granted rate 1, TCP throughput 100, `double` arithmetic) the
visiting orders 0, 1, 2 and 1, 0, 2 hand out the same three rates, of which
the first is smaller than the others by rounding: the generation at address 0,
of message 0, is replaced at rate `6004799503160661 / 2 ^ 54` with delay 3004
in the first order and at rate `6004799503160662 / 2 ^ 54` with delay 3003 in
the second.  In `mixedState` (a TCP and a UDP transfer, granted rate 300, TCP
throughput 100) the rates are 100 and 200 when the TCP transfer is visited
first, 150 and 100 when the UDP transfer is: the UDP transfer gets 200 or
150. -/
theorem visiting_order_changes_rate_and_delay :
    (rescheduleLoopDouble roundDouble unitRateEnv 1 2 1 [0, 1, 2]
      (rescheduleEntry unitRateEnv tripleState 0)).assignedBandwidth =
      [6004799503160661 / 18014398509481984, 6004799503160662 / 18014398509481984,
        6004799503160662 / 18014398509481984] ∧
    (rescheduleLoopDouble roundDouble unitRateEnv 1 2 1 [1, 0, 2]
      (rescheduleEntry unitRateEnv tripleState 0)).assignedBandwidth =
      [6004799503160661 / 18014398509481984, 6004799503160662 / 18014398509481984,
        6004799503160662 / 18014398509481984] ∧
    (tripleState.heap 0).message.messageId = 0 ∧
    (rescheduleLoopDouble roundDouble unitRateEnv 1 2 1 [0, 1, 2]
      (rescheduleEntry unitRateEnv tripleState 0)).subnet.heap 3 =
      replacement unitRateEnv 1 (tripleState.heap 0)
        (6004799503160661 / 18014398509481984) ∧
    (rescheduleLoopDouble roundDouble unitRateEnv 1 2 1 [1, 0, 2]
      (rescheduleEntry unitRateEnv tripleState 0)).subnet.heap 4 =
      replacement unitRateEnv 1 (tripleState.heap 0)
        (6004799503160662 / 18014398509481984) ∧
    (rescheduleLoopDouble roundDouble unitRateEnv 1 2 1 [0, 1, 2]
      (rescheduleEntry unitRateEnv tripleState 0)).newEvents[0]? =
      some ⟨SubnetMessage.MESSAGE_RECVD 3, 3004⟩ ∧
    (rescheduleLoopDouble roundDouble unitRateEnv 1 2 1 [1, 0, 2]
      (rescheduleEntry unitRateEnv tripleState 0)).newEvents[1]? =
      some ⟨SubnetMessage.MESSAGE_RECVD 4, 3003⟩ ∧
    (rescheduleLoopDouble roundDouble exampleEnv 1 2 1 [0, 1]
      (rescheduleEntry exampleEnv mixedState 0)).assignedBandwidth = [100, 200] ∧
    (rescheduleLoopDouble roundDouble exampleEnv 1 2 1 [1, 0]
      (rescheduleEntry exampleEnv mixedState 0)).assignedBandwidth = [150, 100] := by
  have hrem : (tripleState.heap 0).getRemainingBytes 1 = 1000 := by
    have hb : (tripleState.heap 0).bandwidth = 0 := rfl
    have hr : (tripleState.heap 0).remainingBytes = ((1000 : Nat) : ℚ) := rfl
    unfold TransferProgress.getRemainingBytes
    rw [hb, hr]
    norm_num
  have hc1 : ⌈(1000 : ℚ) / (6004799503160661 / 18014398509481984)⌉₊ = 3001 := by
    rw [Nat.ceil_eq_iff (by norm_num)]
    norm_num
  have hc2 : ⌈(1000 : ℚ) / (6004799503160662 / 18014398509481984)⌉₊ = 3000 := by
    rw [Nat.ceil_eq_iff (by norm_num)]
    norm_num
  have hd1 : rescheduleDelay unitRateEnv 1 2 1 (tripleState.heap 0)
      (6004799503160661 / 18014398509481984) = 3004 := by
    unfold rescheduleDelay
    rw [hrem]
    show wrapU64 (⌈(1000 : ℚ) / (6004799503160661 / 18014398509481984)⌉₊ + 3) = 3004
    rw [hc1]
    rfl
  have hd2 : rescheduleDelay unitRateEnv 1 2 1 (tripleState.heap 0)
      (6004799503160662 / 18014398509481984) = 3003 := by
    unfold rescheduleDelay
    rw [hrem]
    show wrapU64 (⌈(1000 : ℚ) / (6004799503160662 / 18014398509481984)⌉₊ + 3) = 3003
    rw [hc2]
    rfl
  have hk1 : ([0, 1, 2] : List Nat).map (isTCP tripleState.heap) = [true, true, true] := by
    decide
  have hk2 : ([1, 0, 2] : List Nat).map (isTCP tripleState.heap) = [true, true, true] := by
    decide
  have hk3 : ([0, 1] : List Nat).map (isTCP mixedState.heap) = [true, false] := by decide
  have hk4 : ([1, 0] : List Nat).map (isTCP mixedState.heap) = [false, true] := by decide
  obtain ⟨a1, _, n1⟩ := rescheduleLoopDouble_entry roundDouble unitRateEnv tripleState 0 1
    [0, 1, 2] rfl [0, 1, 2] (by intro g hg; fin_cases hg <;> decide)
  obtain ⟨a2, _, n2⟩ := rescheduleLoopDouble_entry roundDouble unitRateEnv tripleState 0 1
    [0, 1, 2] rfl [1, 0, 2] (by intro g hg; fin_cases hg <;> decide)
  obtain ⟨a3, _, _⟩ := rescheduleLoopDouble_entry roundDouble exampleEnv mixedState 0 1
    [0, 1] rfl [0, 1] (by intro g hg; fin_cases hg <;> decide)
  obtain ⟨a4, _, _⟩ := rescheduleLoopDouble_entry roundDouble exampleEnv mixedState 0 1
    [0, 1] rfl [1, 0] (by intro g hg; fin_cases hg <;> decide)
  rw [hk1] at a1 n1
  rw [hk2] at a2 n2
  rw [hk3] at a3
  rw [hk4] at a4
  obtain ⟨r1, hr1, hheap1, hev1⟩ := n1 0 0 rfl
  obtain ⟨r2, hr2, hheap2, hev2⟩ := n2 1 0 rfl
  have t1 : shareSequenceDouble roundDouble
      (unitRateEnv.getTCPThroughput (unitRateEnv.getSender tripleState.bandwidthManager 0)
        (unitRateEnv.getReceiver tripleState.bandwidthManager 0))
      [true, true, true] (unitRateEnv.getAllocatedBandwidth tripleState.bandwidthManager 0)
      ((([0, 1, 2] : List Nat).length : Nat) : Int) =
      [6004799503160661 / 18014398509481984, 6004799503160662 / 18014398509481984,
        6004799503160662 / 18014398509481984] := tripleShares
  have t3 : shareSequenceDouble roundDouble
      (exampleEnv.getTCPThroughput (exampleEnv.getSender mixedState.bandwidthManager 0)
        (exampleEnv.getReceiver mixedState.bandwidthManager 0))
      [true, false] (exampleEnv.getAllocatedBandwidth mixedState.bandwidthManager 0)
      ((([0, 1] : List Nat).length : Nat) : Int) = [100, 200] := mixedSharesTcpFirst
  have t4 : shareSequenceDouble roundDouble
      (exampleEnv.getTCPThroughput (exampleEnv.getSender mixedState.bandwidthManager 0)
        (exampleEnv.getReceiver mixedState.bandwidthManager 0))
      [false, true] (exampleEnv.getAllocatedBandwidth mixedState.bandwidthManager 0)
      ((([0, 1] : List Nat).length : Nat) : Int) = [150, 100] := mixedSharesUdpFirst
  rw [t1] at a1 a2 hr1 hr2
  rw [t3] at a3
  rw [t4] at a4
  have e1 : r1 = 6004799503160661 / 18014398509481984 := (Option.some.inj hr1).symm
  have e2 : r2 = 6004799503160662 / 18014398509481984 := (Option.some.inj hr2).symm
  rw [e1] at hheap1 hev1
  rw [e2] at hheap2 hev2
  have hev1b : (rescheduleLoopDouble roundDouble unitRateEnv 1 2 1 [0, 1, 2]
      (rescheduleEntry unitRateEnv tripleState 0)).newEvents[0]? =
      some ⟨SubnetMessage.MESSAGE_RECVD 3, rescheduleDelay unitRateEnv 1 2 1 (tripleState.heap 0)
        (6004799503160661 / 18014398509481984)⟩ := hev1
  have hev2b : (rescheduleLoopDouble roundDouble unitRateEnv 1 2 1 [1, 0, 2]
      (rescheduleEntry unitRateEnv tripleState 0)).newEvents[1]? =
      some ⟨SubnetMessage.MESSAGE_RECVD 4, rescheduleDelay unitRateEnv 1 2 1 (tripleState.heap 0)
        (6004799503160662 / 18014398509481984)⟩ := hev2
  rw [hd1] at hev1b
  rw [hd2] at hev2b
  exact ⟨a1, a2, rfl, hheap1, hheap2, hev1b, hev2b, a3, a4⟩

/-- C19 (amended): what the loop of `rescheduleTransfers` hands out depends on
the visiting order only through the position of a transfer and the transport
kinds before it.  For a bucket of generations at addresses already allocated,
any rounding of the `double` arithmetic, and two visiting orders of the
bucket that visit transfers of the same transport kind at every position: the
rates handed out are the same, position by position, there is one per
generation, and the transfers visited at position `i` in the two orders are
replaced at the same rate, their delivery events carrying the delay computed
from that rate and what each has left.  Two visiting orders of a bucket whose
transfers are all TCP, or all not TCP, are such orders. -/
theorem rescheduleLoopDouble_rates_by_position {σ : Type} (fl : ℚ → ℚ)
    (env : Collaborators σ) (s : Subnet σ) (ba now : Nat) (bucket : List Nat)
    (hbucket : s.connectionsToTransfersMap ba = some bucket)
    (hwf : ∀ g ∈ bucket, g < s.nextPtr) :
    (∀ order1 order2 : List Nat, order1.Perm bucket → order2.Perm bucket →
      order1.map (isTCP s.heap) = order2.map (isTCP s.heap) →
      (rescheduleLoopDouble fl env (env.getSender s.bandwidthManager ba)
          (env.getReceiver s.bandwidthManager ba) now order1
          (rescheduleEntry env s ba)).assignedBandwidth =
        (rescheduleLoopDouble fl env (env.getSender s.bandwidthManager ba)
          (env.getReceiver s.bandwidthManager ba) now order2
          (rescheduleEntry env s ba)).assignedBandwidth ∧
      (rescheduleLoopDouble fl env (env.getSender s.bandwidthManager ba)
          (env.getReceiver s.bandwidthManager ba) now order1
          (rescheduleEntry env s ba)).assignedBandwidth.length = bucket.length ∧
      ∀ (i g1 g2 : Nat), order1[i]? = some g1 → order2[i]? = some g2 →
        ∃ r : ℚ,
          (rescheduleLoopDouble fl env (env.getSender s.bandwidthManager ba)
            (env.getReceiver s.bandwidthManager ba) now order1
            (rescheduleEntry env s ba)).assignedBandwidth[i]? = some r ∧
          (rescheduleLoopDouble fl env (env.getSender s.bandwidthManager ba)
            (env.getReceiver s.bandwidthManager ba) now order1
            (rescheduleEntry env s ba)).subnet.heap (s.nextPtr + i) =
            replacement env now (s.heap g1) r ∧
          (rescheduleLoopDouble fl env (env.getSender s.bandwidthManager ba)
            (env.getReceiver s.bandwidthManager ba) now order2
            (rescheduleEntry env s ba)).subnet.heap (s.nextPtr + i) =
            replacement env now (s.heap g2) r ∧
          (rescheduleLoopDouble fl env (env.getSender s.bandwidthManager ba)
            (env.getReceiver s.bandwidthManager ba) now order1
            (rescheduleEntry env s ba)).newEvents[i]? =
            some ⟨SubnetMessage.MESSAGE_RECVD (s.nextPtr + i),
              rescheduleDelay env (env.getSender s.bandwidthManager ba)
                (env.getReceiver s.bandwidthManager ba) now (s.heap g1) r⟩ ∧
          (rescheduleLoopDouble fl env (env.getSender s.bandwidthManager ba)
            (env.getReceiver s.bandwidthManager ba) now order2
            (rescheduleEntry env s ba)).newEvents[i]? =
            some ⟨SubnetMessage.MESSAGE_RECVD (s.nextPtr + i),
              rescheduleDelay env (env.getSender s.bandwidthManager ba)
                (env.getReceiver s.bandwidthManager ba) now (s.heap g2) r⟩) ∧
    (((∀ g ∈ bucket, (s.heap g).message.l4ProtocolType = L4ProtocolType.TCP) ∨
        (∀ g ∈ bucket, (s.heap g).message.l4ProtocolType ≠ L4ProtocolType.TCP)) →
      ∀ order1 order2 : List Nat, order1.Perm bucket → order2.Perm bucket →
        order1.map (isTCP s.heap) = order2.map (isTCP s.heap)) := by
  constructor
  · intro order1 order2 h1 h2 hkinds
    obtain ⟨a1, _, n1⟩ := rescheduleLoopDouble_entry fl env s ba now bucket hbucket order1
      (fun g hg => hwf g (h1.mem_iff.1 hg))
    obtain ⟨a2, _, n2⟩ := rescheduleLoopDouble_entry fl env s ba now bucket hbucket order2
      (fun g hg => hwf g (h2.mem_iff.1 hg))
    rw [← hkinds] at a2 n2
    refine ⟨by rw [a1, a2], ?_, ?_⟩
    · rw [a1, shareSequenceDouble_length, List.length_map, h1.length_eq]
    · intro i g1 g2 hi1 hi2
      obtain ⟨r1, hr1, hheap1, hev1⟩ := n1 i g1 hi1
      obtain ⟨r2, hr2, hheap2, hev2⟩ := n2 i g2 hi2
      have hr : r2 = r1 := by
        rw [hr1] at hr2
        exact (Option.some.inj hr2).symm
      rw [hr] at hheap2 hev2
      exact ⟨r1, by rw [a1]; exact hr1, hheap1, hheap2, hev1, hev2⟩
  · intro huniform order1 order2 h1 h2
    have hconst : ∀ (b : Bool), (∀ g ∈ bucket, isTCP s.heap g = b) →
        ∀ order : List Nat, order.Perm bucket →
          order.map (isTCP s.heap) = List.replicate bucket.length b := by
      intro b hb order hperm
      rw [List.eq_replicate_iff]
      refine ⟨by rw [List.length_map, hperm.length_eq], ?_⟩
      intro x hx
      obtain ⟨g, hg, rfl⟩ := List.mem_map.1 hx
      exact hb g (hperm.mem_iff.1 hg)
    rcases huniform with hall | hnone
    · have hb : ∀ g ∈ bucket, isTCP s.heap g = true := by
        intro g hg
        simp [isTCP, hall g hg]
      rw [hconst true hb order1 h1, hconst true hb order2 h2]
    · have hb : ∀ g ∈ bucket, isTCP s.heap g = false := by
        intro g hg
        simp [isTCP, hnone g hg]
      rw [hconst false hb order1 h1, hconst false hb order2 h2]

/-- C19 (amended) at a concrete input: the three TCP transfers of `tripleState`
visited in the orders 0, 1, 2 and 1, 0, 2, in `double` arithmetic: the rates
handed out are the same list, and the transfers visited first, the
generations at the addresses 0 and 1, are replaced at the same rate. -/
theorem rescheduleLoopDouble_rates_by_position_witness :
    tripleState.connectionsToTransfersMap 0 = some [0, 1, 2] ∧
    (rescheduleLoopDouble roundDouble unitRateEnv 1 2 1 [0, 1, 2]
        (rescheduleEntry unitRateEnv tripleState 0)).assignedBandwidth =
      (rescheduleLoopDouble roundDouble unitRateEnv 1 2 1 [1, 0, 2]
        (rescheduleEntry unitRateEnv tripleState 0)).assignedBandwidth ∧
    (∃ r : ℚ,
      (rescheduleLoopDouble roundDouble unitRateEnv 1 2 1 [0, 1, 2]
        (rescheduleEntry unitRateEnv tripleState 0)).subnet.heap 3 =
        replacement unitRateEnv 1 (tripleState.heap 0) r ∧
      (rescheduleLoopDouble roundDouble unitRateEnv 1 2 1 [1, 0, 2]
        (rescheduleEntry unitRateEnv tripleState 0)).subnet.heap 3 =
        replacement unitRateEnv 1 (tripleState.heap 1) r) := by
  have h := rescheduleLoopDouble_rates_by_position roundDouble unitRateEnv tripleState 0 1
    [0, 1, 2] rfl (by intro g hg; fin_cases hg <;> decide)
  have hp1 : ([0, 1, 2] : List Nat).Perm [0, 1, 2] := List.Perm.refl _
  have hp2 : ([1, 0, 2] : List Nat).Perm [0, 1, 2] := List.Perm.swap 0 1 [2]
  have hkinds := h.2 (Or.inl (by intro g hg; fin_cases hg <;> decide)) [0, 1, 2] [1, 0, 2] hp1 hp2
  obtain ⟨hA, _, hpos⟩ := h.1 [0, 1, 2] [1, 0, 2] hp1 hp2 hkinds
  obtain ⟨r, _, hh1, hh2, _, _⟩ := hpos 0 0 1 rfl rfl
  exact ⟨rfl, hA, r, hh1, hh2⟩

/-! ## C13: what `rescheduleTransfers` creates for every old generation -/

theorem roundDouble_300 : roundDouble 300 = 300 := by
  have h := roundDouble_repr (300 * 2 ^ 44) (-44) (by norm_num) (by norm_num)
  have e : (((300 * 2 ^ 44 : Int) : ℚ)) * (2 : ℚ) ^ (-44 : Int) = 300 := by norm_num
  rw [e] at h
  exact h

/-- With the identity for the rounding, `rescheduleTransfers` in `double`
arithmetic is `rescheduleTransfers` in exact arithmetic. -/
theorem rescheduleTransfersDouble_id {σ : Type} (env : Collaborators σ) (s : Subnet σ)
    (ba now : Nat) :
    rescheduleTransfersDouble id env s ba now = rescheduleTransfers env s ba now := rfl

/-- C13: with the constructor of `TransferProgress` taking the byte baseline
before the rate, the order that both calls in `send` follow, line 271 of
`rescheduleTransfers` passes the share where the bytes belong and the bytes
where the rate belongs: for a non-empty bucket (of generations at addresses
already allocated), any rounding of the `double` arithmetic, and the `i`-th
old generation `g` with its share, the new generation at the `i`-th new
address carries the message of `g`, is not a first generation and starts at
`now`, but its byte baseline is the share and its rate is what `g` has left
at `now`. -/
theorem rescheduleTransfers_swaps_rate_and_bytes {σ : Type} (fl : ℚ → ℚ)
    (env : Collaborators σ) (s : Subnet σ) (ba now : Nat) (bucket : List Nat)
    (hbucket : s.connectionsToTransfersMap ba = some bucket) (hne : bucket ≠ [])
    (hwf : ∀ g ∈ bucket, g < s.nextPtr) (hctor : env.rateFirst = false) :
    ∀ (i g : Nat), bucket[i]? = some g →
      ∃ share : ℚ, (rescheduleExitDouble fl env s ba now).assignedBandwidth[i]? = some share ∧
        ((rescheduleTransfersDouble fl env s ba now).1.heap (s.nextPtr + i)).message =
          (s.heap g).message ∧
        ((rescheduleTransfersDouble fl env s ba now).1.heap (s.nextPtr + i)).firstSchedule =
          false ∧
        ((rescheduleTransfersDouble fl env s ba now).1.heap (s.nextPtr + i)).scheduledAt = now ∧
        ((rescheduleTransfersDouble fl env s ba now).1.heap (s.nextPtr + i)).remainingBytes =
          share ∧
        ((rescheduleTransfersDouble fl env s ba now).1.heap (s.nextPtr + i)).bandwidth =
          (s.heap g).getRemainingBytes now := by
  have hget : (s.connectionsToTransfersMap ba).getD [] = bucket := by rw [hbucket]; rfl
  have hexit : rescheduleExitDouble fl env s ba now =
      rescheduleLoopDouble fl env (env.getSender s.bandwidthManager ba)
        (env.getReceiver s.bandwidthManager ba) now bucket (rescheduleEntry env s ba) := by
    unfold rescheduleExitDouble
    rw [hget]
  have hres : (rescheduleTransfersDouble fl env s ba now).1.heap =
      (rescheduleExitDouble fl env s ba now).subnet.heap := by
    unfold rescheduleTransfersDouble
    simp only [hget, hne, if_false]
  obtain ⟨a1, _, n1⟩ := rescheduleLoopDouble_entry fl env s ba now bucket hbucket bucket hwf
  intro i g hi
  obtain ⟨r, hr, hheap, _⟩ := n1 i g hi
  rw [hres, hexit, a1, hheap]
  refine ⟨r, hr, rfl, rfl, rfl, ?_, ?_⟩
  · simp [replacement, TransferProgress.new, hctor]
  · simp [replacement, TransferProgress.new, hctor]

/-- C13 at the failing input: in `sentStateBytesFirst` the generation at
address 0 has 1000 bytes left at tick 1; `rescheduleTransfers` of allocation 0
(granted rate 300, TCP throughput 100) at tick 1, in `double` arithmetic,
assigns it the share 100 and creates the generation at address 1 with byte
baseline 100 and rate 1000, where the claim has byte baseline 1000 and rate
100. -/
theorem rescheduleTransfers_swaps_rate_and_bytes_witness :
    bytesFirstEnv.rateFirst = false ∧
    sentStateBytesFirst.connectionsToTransfersMap 0 = some [0] ∧
    (sentStateBytesFirst.heap 0).getRemainingBytes 1 = 1000 ∧
    (rescheduleExitDouble roundDouble bytesFirstEnv sentStateBytesFirst 0 1).assignedBandwidth =
      [100] ∧
    ((rescheduleTransfersDouble roundDouble bytesFirstEnv sentStateBytesFirst 0 1).1.heap
      1).remainingBytes = 100 ∧
    ((rescheduleTransfersDouble roundDouble bytesFirstEnv sentStateBytesFirst 0 1).1.heap
      1).bandwidth = 1000 := by
  have hwf : ∀ g ∈ ([0] : List Nat), g < sentStateBytesFirst.nextPtr := by
    intro g hg; fin_cases hg; decide
  have hrem : (sentStateBytesFirst.heap 0).getRemainingBytes 1 = 1000 := by
    have hb : (sentStateBytesFirst.heap 0).bandwidth = 0 := rfl
    have hr : (sentStateBytesFirst.heap 0).remainingBytes = ((1000 : Nat) : ℚ) := rfl
    unfold TransferProgress.getRemainingBytes
    rw [hb, hr]
    norm_num
  have hA : (rescheduleExitDouble roundDouble bytesFirstEnv sentStateBytesFirst 0 1
      ).assignedBandwidth = [100] := by
    have h := (rescheduleLoopDouble_entry roundDouble bytesFirstEnv sentStateBytesFirst 0 1 [0]
      rfl [0] hwf).1
    have hm : ([0] : List Nat).map (isTCP sentStateBytesFirst.heap) = [true] := by decide
    have hexit : rescheduleExitDouble roundDouble bytesFirstEnv sentStateBytesFirst 0 1 =
        rescheduleLoopDouble roundDouble bytesFirstEnv
          (bytesFirstEnv.getSender sentStateBytesFirst.bandwidthManager 0)
          (bytesFirstEnv.getReceiver sentStateBytesFirst.bandwidthManager 0) 1 [0]
          (rescheduleEntry bytesFirstEnv sentStateBytesFirst 0) := rfl
    rw [hexit, h, hm]
    show shareSequenceDouble roundDouble 100 [true] 300 ((1 : Nat) : Int) = [100]
    have q1 : (300 : ℚ) / (((1 : Nat) : Int) : ℚ) = 300 := by norm_num
    have m1 : min (300 : ℚ) 100 = 100 := min_eq_right (by norm_num)
    simp only [shareSequenceDouble, if_true, q1, roundDouble_300, m1]
  obtain ⟨share, hs, _, _, _, hbytes, hrate⟩ :=
    rescheduleTransfers_swaps_rate_and_bytes roundDouble bytesFirstEnv sentStateBytesFirst 0 1
      [0] rfl (by decide) hwf rfl 0 0 rfl
  rw [hA] at hs
  have hshare : share = 100 := (Option.some.inj hs).symm
  rw [hshare] at hbytes
  rw [hrem] at hrate
  exact ⟨rfl, rfl, hrem, hA, hbytes, hrate⟩

end NetSim
